import Mathlib

/-!
# ESD123: acquisition ring bookkeeping and signal analysis

A shallow embedding of the frame-index bookkeeping of the samplers
(`ESP32 Kode/Sampler/Sampler.cpp`, `ESP32 Kode/test_v2/FrameRingTracker.h`,
`ESP32 Kode/test_R2_v4/Sampler.cpp`, `ESP32 Kode/algorithm_v1/Algorithm.cpp`)
and of the start / peak detection of
`ESP32 Kode/algorithm_v1-kopi/algorithm_v1/SignalAnalyzer.cpp`.

Machine integers are natural numbers or integers with the wrap of the C type
written out: `uint64_t` frame indices wrap at `2 ^ 64`, `uint16_t` offsets at
`2 ^ 16`, `size_t` and `int` are the 32-bit types of the ESP32 target.
-/

namespace ESD123

/-! ## Machine arithmetic -/

/-- Modulus of `uint64_t`. -/
def U64_MOD : Nat := 18446744073709551616

/-- Modulus of `uint32_t` and of `size_t` on the 32-bit target. -/
def U32_MOD : Nat := 4294967296

/-- Modulus of `uint16_t`. -/
def U16_MOD : Nat := 65536

/-- Sum of two `uint64_t` values, as C computes it. -/
def u64add (a b : Nat) : Nat := (a + b) % U64_MOD

/-- Difference of two `uint64_t` values, as C computes it. -/
def u64sub (a b : Nat) : Nat := (a + U64_MOD - b % U64_MOD) % U64_MOD

/-- Conversion `(uint64_t)x` of a signed `int`. -/
def intToU64 (x : Int) : Nat := (x % (U64_MOD : Int)).toNat

/-! ## `ESP32 Kode/Sampler/Sampler.cpp`: `syncReadPointer` -/

/-- The helper `syncReadPointer(readIndex, writeIndex, ringFrames)`; the result
is the value of the reference parameter `readIndex` after the call. -/
def syncReadPointer (readIndex writeIndex : Nat) (ringFrames : Int) : Nat :=
  if writeIndex > u64add readIndex (intToU64 ringFrames) then
    u64sub writeIndex (intToU64 ringFrames)
  else
    readIndex

/-! ## `ESP32 Kode/test_v2/FrameRingTracker.h` -/

/-- The fields of `class FrameRingTracker`: `_ringFrames` is a `uint32_t`, the
three indices are `uint64_t`. -/
structure FrameRingTracker where
  ringFrames : Nat
  writeIndex : Nat
  hwReadIndex : Nat
  logicalReadIndex : Nat
  deriving DecidableEq, Repr

namespace FrameRingTracker

/-- The constructor `FrameRingTracker(ringFrames)`. -/
def new (ringFrames : Nat) : FrameRingTracker :=
  { ringFrames := ringFrames, writeIndex := 0, hwReadIndex := 0, logicalReadIndex := 0 }

/-- The method `reset()`. -/
def reset (t : FrameRingTracker) : FrameRingTracker :=
  { t with writeIndex := 0, hwReadIndex := 0, logicalReadIndex := 0 }

/-- The method `onFramesProduced(frames)`. -/
def onFramesProduced (t : FrameRingTracker) (frames : Nat) : FrameRingTracker :=
  let w := u64add t.writeIndex frames
  let maxLag := t.ringFrames
  if w > u64add t.logicalReadIndex maxLag then
    { t with writeIndex := w, logicalReadIndex := u64sub w maxLag }
  else
    { t with writeIndex := w }

/-- The method `onFramesRead(frames)`. -/
def onFramesRead (t : FrameRingTracker) (frames : Nat) : FrameRingTracker :=
  let inc := frames
  { t with hwReadIndex := u64add t.hwReadIndex inc,
           logicalReadIndex := u64add t.logicalReadIndex inc }

/-- The method `framesToSkipOverrun()`; the result is cast to `uint32_t`. -/
def framesToSkipOverrun (t : FrameRingTracker) : Nat :=
  if t.hwReadIndex ≥ t.logicalReadIndex then 0
  else (u64sub t.logicalReadIndex t.hwReadIndex) % U32_MOD

/-- The method `framesToDiscardToTrigger(triggerIndex)`. -/
def framesToDiscardToTrigger (t : FrameRingTracker) (triggerIndex : Nat) : Nat :=
  if triggerIndex ≤ t.logicalReadIndex then 0
  else
    let diff := u64sub triggerIndex t.logicalReadIndex
    if diff > t.ringFrames then t.ringFrames else diff % U32_MOD

end FrameRingTracker

/-- One call made on a tracker by its owner. -/
inductive TrackerCall where
  | produced (frames : Nat)
  | read (frames : Nat)
  deriving DecidableEq, Repr

/-- The `uint32_t` argument of a call. -/
def TrackerCall.frames : TrackerCall → Nat
  | .produced f => f
  | .read f => f

namespace FrameRingTracker

/-- Effect of one call. -/
def call (t : FrameRingTracker) : TrackerCall → FrameRingTracker
  | .produced f => t.onFramesProduced f
  | .read f => t.onFramesRead f

/-- The tracker states observed after each call of a sequence, in order. -/
def trace (t : FrameRingTracker) : List TrackerCall → List FrameRingTracker
  | [] => []
  | c :: cs => t.call c :: (t.call c).trace cs

/-- Whether every `onFramesRead(frames)` of the sequence reports at most the
frames produced and not yet read, `writeIndex - logicalReadIndex`, at the time
of the call. -/
def readsWithinProduced (t : FrameRingTracker) : List TrackerCall → Bool
  | [] => true
  | .produced f :: cs => (t.onFramesProduced f).readsWithinProduced cs
  | .read f :: cs =>
      decide (t.logicalReadIndex + f ≤ t.writeIndex) && (t.onFramesRead f).readsWithinProduced cs

end FrameRingTracker

/-- Total number of frames passed to the calls of a sequence. -/
def totalFrames : List TrackerCall → Nat
  | [] => 0
  | c :: cs => c.frames + totalFrames cs

/-! ## The acquisition device -/

/-- Conversion of an unsigned value to `int32_t` (and to the 32-bit `int`). -/
def toInt32 (x : Nat) : Int :=
  if x % U32_MOD < 2147483648 then ((x % U32_MOD : Nat) : Int)
  else ((x % U32_MOD : Nat) : Int) - 4294967296

/-- What one call of `i2s_read` reports: whether `err == ESP_OK`, and `bytesRead`. -/
structure I2SResult where
  ok : Bool
  bytesRead : Nat
  deriving DecidableEq, Repr

/-- The hardware as the samplers see it. `i2s_read k bytesToRead` is the outcome of
the `k`-th call of `i2s_read` when it asks for `bytesToRead` bytes; `counter k` is
the value returned by the `k`-th read of the frame counter (`writePtr.get()`,
`frameCounter.get()`). -/
structure Device where
  i2s_read : Nat → Nat → I2SResult
  counter : Nat → Nat

/-- A frame source that returns every requested chunk in full. -/
def Device.full (dev : Device) : Prop :=
  ∀ k n, dev.i2s_read k n = { ok := true, bytesRead := n }

/-- A frame source that keeps the contract of `i2s_read` and hands out whole
frames: never more bytes than asked for, and a multiple of eight whenever whole
frames are asked for. -/
def Device.wholeFrames (dev : Device) : Prop :=
  ∀ k n, (dev.i2s_read k n).bytesRead ≤ n ∧
    (n % 8 = 0 → (dev.i2s_read k n).bytesRead % 8 = 0)

/-! ## `ESP32 Kode/Sampler/Sampler.cpp`: `trigger` and `fetch` -/

/-- The fields of `class Sampler` (`ESP32 Kode/Sampler/Sampler.h`) that `trigger`
and `fetch` use, and three counters that are not in the code: the number of
`i2s_read` calls and of frame-counter reads made so far (they select the next
answer of the device) and the number of bytes the device has handed out. -/
structure Sampler where
  triggered : Bool
  alignedAfterTrigger : Bool
  triggerFrame : Nat
  readIndex : Nat
  ringFrames : Int
  reads : Nat
  polls : Nat
  bytesIn : Nat
  deriving DecidableEq, Repr

namespace Sampler

/-- `BYTES_PER_FRAME = CHANNELS * BYTES_PER_SAMPLE = 2 * 4`. -/
def BYTES_PER_FRAME : Nat := 8

/-- `sizeof(discardBuf)`. -/
def DISCARD_BUF_BYTES : Nat := 128

/-- `MAX_FRAMES_PER_READ` of the delivery loop. -/
def MAX_FRAMES_PER_READ : Nat := 32

/-- The method `trigger()`. -/
def trigger (dev : Device) (s : Sampler) : Sampler :=
  { s with triggerFrame := dev.counter s.polls, triggered := true,
           alignedAfterTrigger := false, polls := s.polls + 1 }

/-- The loop `while (framesToDiscard > 0)` of `fetch`. `none` when the fuel does
not cover the iterations the loop makes. -/
def discardLoop (dev : Device) : Nat → Sampler → Nat → Option Sampler
  | 0, s, framesToDiscard => if framesToDiscard > 0 then none else some s
  | fuel + 1, s, framesToDiscard =>
    if framesToDiscard > 0 then
      let maxFramesThisRead := DISCARD_BUF_BYTES / BYTES_PER_FRAME
      if maxFramesThisRead = 0 then some s
      else
        let framesNow :=
          if framesToDiscard < maxFramesThisRead then framesToDiscard else maxFramesThisRead
        let bytesToRead := (framesNow * BYTES_PER_FRAME) % U32_MOD
        let r := dev.i2s_read s.reads bytesToRead
        let s1 := { s with reads := s.reads + 1, bytesIn := s.bytesIn + r.bytesRead }
        if r.ok = false ∨ r.bytesRead = 0 then some s1
        else
          let framesRead := r.bytesRead / BYTES_PER_FRAME
          let s2 := { s1 with readIndex := u64add s1.readIndex framesRead }
          if framesRead > framesToDiscard then discardLoop dev fuel s2 0
          else discardLoop dev fuel s2 (framesToDiscard - framesRead)
    else some s

/-- The loop `while (totalFramesOut < framesRequested)` of `fetch`; the result is
`totalFramesOut` and the sampler at loop exit. The conversion of the frames to
voltages writes `dest` only and is left out. -/
def deliverLoop (dev : Device) : Nat → Sampler → Nat → Nat → Option (Nat × Sampler)
  | 0, s, framesRequested, totalFramesOut =>
    if totalFramesOut < framesRequested then none else some (totalFramesOut, s)
  | fuel + 1, s, framesRequested, totalFramesOut =>
    if totalFramesOut < framesRequested then
      let framesToRead :=
        if framesRequested - totalFramesOut > MAX_FRAMES_PER_READ then MAX_FRAMES_PER_READ
        else framesRequested - totalFramesOut
      let bytesToRead := (framesToRead * BYTES_PER_FRAME) % U32_MOD
      let r := dev.i2s_read s.reads bytesToRead
      let s1 := { s with reads := s.reads + 1, bytesIn := s.bytesIn + r.bytesRead }
      if r.ok = false ∨ r.bytesRead = 0 then some (totalFramesOut, s1)
      else
        let framesRead := r.bytesRead / BYTES_PER_FRAME
        if framesRead = 0 then some (totalFramesOut, s1)
        else
          let s2 := { s1 with readIndex := u64add s1.readIndex framesRead }
          let total := (totalFramesOut + framesRead) % U32_MOD
          let remainder := r.bytesRead % BYTES_PER_FRAME
          if remainder ≠ 0 then some (total, s2)
          else deliverLoop dev fuel s2 framesRequested total
    else some (totalFramesOut, s)

/-- The phases of one `fetch` call: the sampler after `syncReadPointer`, after the
alignment block, and at return, with the returned `totalFramesOut`. -/
structure FetchRun where
  afterSync : Sampler
  afterAlign : Sampler
  final : Sampler
  totalFramesOut : Nat
  deriving DecidableEq, Repr

/-- The method `fetch(dest, framesRequested)`; `destNull` says whether
`dest == nullptr`. `fuel` bounds the iterations of each of the two loops. -/
def fetch (dev : Device) (fuel : Nat) (s : Sampler) (destNull : Bool) (framesRequested : Nat) :
    Option FetchRun :=
  if s.triggered = false ∨ destNull = true ∨ framesRequested = 0 then
    some { afterSync := s, afterAlign := s, final := s, totalFramesOut := 0 }
  else
    let writeIndex := dev.counter s.polls
    let s0 := { s with polls := s.polls + 1,
                       readIndex := syncReadPointer s.readIndex writeIndex s.ringFrames }
    let aligned : Option Sampler :=
      if s0.alignedAfterTrigger = false then
        let R_effective := s0.readIndex
        let preTriggerUnread :=
          if s0.triggerFrame > R_effective then
            if u64sub s0.triggerFrame R_effective > intToU64 s0.ringFrames then
              intToU64 s0.ringFrames
            else u64sub s0.triggerFrame R_effective
          else 0
        (discardLoop dev fuel s0 preTriggerUnread).map
          (fun s1 => { s1 with alignedAfterTrigger := true })
      else some s0
    match aligned with
    | none => none
    | some s1 =>
      match deliverLoop dev fuel s1 framesRequested 0 with
      | none => none
      | some (totalFramesOut, s2) =>
        some { afterSync := s0, afterAlign := s1, final := s2, totalFramesOut := totalFramesOut }

end Sampler

/-! ## `ESP32 Kode/test_R2_v4/Sampler.cpp` and the head of `Algorithm::calculate` -/

/-- The fields of the `Sampler` of `test_R2_v4` (`Algorithm/Sampler.h`) that `fetch`,
`discard_frames` and `read_frames` use, with the same device counters as above. -/
structure SamplerR2 where
  readIndex : Nat
  triggerIndex : Nat
  triggered : Bool
  reads : Nat
  polls : Nat
  deriving DecidableEq, Repr

namespace SamplerR2

/-- `DMA_BUF_LEN` of `Sampler_settings.h`. -/
def DMA_BUF_LEN : Nat := 128

/-- `FRAMES_PER_READ` of `Sampler_settings.h`. -/
def FRAMES_PER_READ : Nat := 128

/-- `FRAMES_PER_SIGNAL`, that is `10 * FRAMES_PER_READ`. -/
def FRAMES_PER_SIGNAL : Nat := 10 * FRAMES_PER_READ

/-- `SAFE_FRAME_READ_DIFF`, that is `3 * DMA_BUF_LEN`. -/
def SAFE_FRAME_READ_DIFF : Nat := 3 * DMA_BUF_LEN

/-- `BYTES_PER_FRAME = CHANNELS * BYTES_PER_SAMPLE`. -/
def BYTES_PER_FRAME : Nat := 8

/-- The method `trigger()`. -/
def trigger (dev : Device) (s : SamplerR2) : SamplerR2 :=
  { s with triggerIndex := dev.counter s.polls, triggered := true, polls := s.polls + 1 }

/-- The loop `while (true)` of `read_frames`, which polls the frame counter until
`overhead > 0`. -/
def waitLoop (dev : Device) : Nat → SamplerR2 → Nat → Option SamplerR2
  | 0, _, _ => none
  | fuel + 1, s, frames =>
    let overhead : Int :=
      toInt32 (u64sub (dev.counter s.polls) s.readIndex) - toInt32 frames
        - (SAFE_FRAME_READ_DIFF : Int)
    let s1 := { s with polls := s.polls + 1 }
    if overhead > 0 then some s1 else waitLoop dev fuel s1 frames

/-- The method `read_frames(frames, buf, timeoutTicks)`: the returned frame count and
the sampler afterwards. -/
def read_frames (dev : Device) (fuel : Nat) (s : SamplerR2) (frames : Nat) :
    Option (Nat × SamplerR2) :=
  if frames = 0 then some (0, s)
  else
    match waitLoop dev fuel s frames with
    | none => none
    | some s1 =>
      let bytesToRead := (frames * BYTES_PER_FRAME) % U32_MOD
      let r := dev.i2s_read s1.reads bytesToRead
      let s2 := { s1 with reads := s1.reads + 1 }
      if r.ok = false ∨ r.bytesRead = 0 then some (0, s2)
      else
        let frames_read := r.bytesRead / BYTES_PER_FRAME
        some (frames_read, { s2 with readIndex := u64add s2.readIndex frames_read })

/-- The loop of `discard_frames`, with `total_frames_discarded` as accumulator. -/
def discardLoop (dev : Device) : Nat → SamplerR2 → Nat → Nat → Option (Nat × SamplerR2)
  | 0, s, frames_to_discard, total_frames_discarded =>
    if total_frames_discarded < frames_to_discard then none
    else some (total_frames_discarded, s)
  | fuel + 1, s, frames_to_discard, total_frames_discarded =>
    if total_frames_discarded < frames_to_discard then
      let frames_to_read :=
        if frames_to_discard - total_frames_discarded > FRAMES_PER_READ then FRAMES_PER_READ
        else frames_to_discard - total_frames_discarded
      match read_frames dev (fuel + 1) s frames_to_read with
      | none => none
      | some (frames_read, s1) =>
        discardLoop dev fuel s1 frames_to_discard
          ((total_frames_discarded + frames_read) % U32_MOD)
    else some (total_frames_discarded, s)

/-- The method `discard_frames(frames_to_discard)`: the returned count and the
sampler afterwards; `none` when the fuel does not cover the iterations made. -/
def discard_frames (dev : Device) (fuel : Nat) (s : SamplerR2) (frames_to_discard : Nat) :
    Option (Nat × SamplerR2) :=
  discardLoop dev fuel s frames_to_discard 0

/-- The method `read_samples(l_buf, r_buf)`, without the conversion to voltages. -/
def read_samples (dev : Device) (fuel : Nat) (s : SamplerR2) : Option (Nat × SamplerR2) :=
  read_frames dev fuel s FRAMES_PER_READ

/-- The delivery loop `while (total_frames_read < FRAMES_PER_SIGNAL)` of `fetch`. -/
def deliverLoop (dev : Device) : Nat → SamplerR2 → Nat → Option (Nat × SamplerR2)
  | 0, s, total_frames_read =>
    if total_frames_read < FRAMES_PER_SIGNAL then none else some (total_frames_read, s)
  | fuel + 1, s, total_frames_read =>
    if total_frames_read < FRAMES_PER_SIGNAL then
      match read_samples dev (fuel + 1) s with
      | none => none
      | some (frames_read, s1) =>
        if frames_read = 0 then some (total_frames_read, s1)
        else deliverLoop dev fuel s1 ((total_frames_read + frames_read) % U32_MOD)
    else some (total_frames_read, s)

/-- What one `fetch` call leaves behind: the returned frame count, the value of
`*offset`, the count returned by the alignment `discard_frames` call, and the
sampler at return. -/
structure FetchRun where
  total_frames_read : Nat
  offset : Nat
  discarded : Nat
  final : SamplerR2
  deriving DecidableEq, Repr

/-- The first statements of `fetch`, up to the argument of `discard_frames`: the
pair of `frames_to_discard` and the `uint16_t` stored in `*offset`. -/
def fetchOffset (s : SamplerR2) : Nat × Nat :=
  let frames_to_discard := u64sub s.triggerIndex s.readIndex
  let offset := 0
  if s.readIndex > s.triggerIndex then (0, (u64sub s.readIndex s.triggerIndex) % U16_MOD)
  else (frames_to_discard, offset)

/-- The method `fetch(l_buf, r_buf, offset)`; `offset` is the value `*offset` holds
before the call. -/
def fetch (dev : Device) (fuel : Nat) (s : SamplerR2) (offset : Nat) : Option FetchRun :=
  if s.triggered = false then
    some { total_frames_read := 0, offset := offset, discarded := 0, final := s }
  else
    let s0 := { s with triggered := false }
    let frames_to_discard := (fetchOffset s0).1
    let offset1 := (fetchOffset s0).2
    match discard_frames dev fuel s0 (frames_to_discard % U32_MOD) with
    | none => none
    | some (discarded, s1) =>
      let s2 := { s1 with polls := s1.polls + 1 }
      match deliverLoop dev fuel s2 0 with
      | none => none
      | some (total_frames_read, s3) =>
        some { total_frames_read := total_frames_read, offset := offset1,
               discarded := discarded, final := s3 }

end SamplerR2

namespace Algorithm

/-- `FRAMES_PER_READ` of `Sampler_settings.h`. -/
def FRAMES_PER_READ : Nat := 128

/-- What the head of `calculate` has computed when it reaches the call of `fetch`:
`frames_to_discard`, the `uint16_t` `sig_offset`, and the argument of the
`discard_frames` call of the `else` branch when that branch is taken. -/
structure CalculateHead where
  frames_to_discard : Nat
  sig_offset : Nat
  discardRequest : Option Nat
  deriving DecidableEq, Repr

/-- The statements of `Algorithm::calculate` between the `get_triggered_state()`
test and the call of `fetch`, on a triggered sampler with the given indices. -/
def calculateHead (readIndex triggerIndex : Nat) : CalculateHead :=
  let sig_offset := 0
  let frames_to_discard := u64sub triggerIndex readIndex
  if readIndex > triggerIndex then
    { frames_to_discard := 0, sig_offset := (u64sub readIndex triggerIndex) % U16_MOD,
      discardRequest := none }
  else
    { frames_to_discard := frames_to_discard, sig_offset := sig_offset,
      discardRequest := some ((frames_to_discard % U32_MOD + U32_MOD - FRAMES_PER_READ) % U32_MOD) }

end Algorithm

/-! ## `ESP32 Kode/algorithm_v1-kopi/algorithm_v1/SignalAnalyzer.cpp`

The samples are `float`s. The analyzer is embedded over any type `α` that has the
operations the code applies to samples: zero, sum, difference, product, negation and
the two comparisons. The control flow is the code's for every such type, the `float`
of the target included; statements about the value of an energy use the laws of an
ordered ring and are stated there. The sample buffer is a function from indices to
samples, `n_samples` tells how much of it is in use. -/

namespace SignalAnalyzer

/-- `N_PEAKS` of `SignalAnalyzer.h`. -/
def N_PEAKS : Nat := 20

/-- `ENERGY_WINDOW` of `SignalAnalyzer.h`. -/
def ENERGY_WINDOW : Nat := 8

/-- `COARSE_STEP` of `SignalAnalyzer.h`. -/
def COARSE_STEP : Nat := 32

/-- `MIN_I_DIFF` of `SignalAnalyzer.h`. -/
def MIN_I_DIFF : Int := 4

/-- `MAX_I_DIFF` of `SignalAnalyzer.h`. -/
def MAX_I_DIFF : Int := 6

/-- Sum of two `size_t` values, as C computes it on the 32-bit target. -/
def szadd (a b : Nat) : Nat := (a + b) % U32_MOD

/-- Conversion of an `int` to `size_t`. -/
def intToSize (x : Int) : Nat := (x % (U32_MOD : Int)).toNat

section
variable {α : Type} [Zero α] [Add α] [Sub α] [Mul α] [Neg α] [LE α] [LT α]
  [DecidableRel (fun a b : α => a ≤ b)] [DecidableRel (fun a b : α => a < b)]

/-- The loop `for (k = index; k < end; ++k) { v = samples[k]; s += v * v; }` with
`count` iterations left, `k` the current index and `s` the accumulator. -/
def sumSquares (samples : Nat → α) : Nat → Nat → α → α
  | 0, _, s => s
  | count + 1, k, s => sumSquares samples count (k + 1) (s + samples k * samples k)

/-- The method `sum_square_window(n_samples, index)`. -/
def sum_square_window (samples : Nat → α) (n_samples index : Nat) : α :=
  let end0 := szadd index ENERGY_WINDOW
  let end1 := if end0 > n_samples then n_samples else end0
  sumSquares samples (end1 - index) index 0

/-- The coarse loop `for (p = 0; p + ENERGY_WINDOW <= n_samples; p += COARSE_STEP)` of
`detect_start`, from position `p` on: `some (some coarseHit)` when it breaks at a
hit, `some none` when it ends with `found == false`, `none` when the fuel runs out. -/
def coarseScan (samples : Nat → α) (signal_threshold : α) (n_samples : Nat) :
    Nat → Nat → Option (Option Nat)
  | 0, p => if szadd p ENERGY_WINDOW ≤ n_samples then none else some none
  | fuel + 1, p =>
    if szadd p ENERGY_WINDOW ≤ n_samples then
      let E := sum_square_window samples n_samples p
      if signal_threshold ≤ E then some (some p)
      else coarseScan samples signal_threshold n_samples fuel (szadd p COARSE_STEP)
    else some none

/-- The fine loop `for (i = refineStart; i <= coarseHit; i++)` of `detect_start`, from
index `i` on: `some (some signal_start)` when it returns true, `some none` when it
falls through to the final `return false`, `none` when the fuel runs out. -/
def fineScan (samples : Nat → α) (signal_threshold : α) (n_samples coarseHit : Nat) :
    Nat → Nat → Option (Option Nat)
  | 0, i => if i ≤ coarseHit then none else some none
  | fuel + 1, i =>
    if i ≤ coarseHit then
      if szadd i ENERGY_WINDOW > n_samples then some none
      else
        let E := sum_square_window samples n_samples i
        if signal_threshold ≤ E then some (some i)
        else fineScan samples signal_threshold n_samples coarseHit fuel (szadd i 1)
    else some none

/-- The method `detect_start(n_samples, signal_start)`: `some (some i)` when it returns
true with `signal_start = i`, `some none` when it returns false, `none` when the fuel
does not cover the iterations of its loops. -/
def detect_start (samples : Nat → α) (signal_threshold : α) (n_samples fuel : Nat) :
    Option (Option Nat) :=
  match coarseScan samples signal_threshold n_samples fuel 0 with
  | none => none
  | some none => some none
  | some (some coarseHit) =>
    let refineStart := if coarseHit ≥ COARSE_STEP then coarseHit - COARSE_STEP else coarseHit
    fineScan samples signal_threshold n_samples coarseHit fuel refineStart

/-- The local variables of `detect_peaks`, and the entries of `peaks` written so far
(`peaks[0]`, `peaks[1]`, ... in this order). -/
structure PeakScan where
  peak_i : Nat
  last_peak : Int
  first : Bool
  state : Int
  count : Int
  peaks : List Nat
  deriving DecidableEq, Repr

/-- The local variables at the start of `detect_peaks`. -/
def PeakScan.init : PeakScan :=
  { peak_i := 0, last_peak := -1, first := true, state := 0, count := 0, peaks := [] }

/-- One pass through the body of the loop of `detect_peaks` at index `i`. The flag
tells whether the pass ended in a `return peak_i`. -/
def peakStep (samples : Nat → α) (eps : α) (i : Nat) (st : PeakScan) : PeakScan × Bool :=
  let diff := samples i - samples ((i + U32_MOD - 1) % U32_MOD)
  if st.state = 0 then
    let count := if eps < diff then st.count + 1 else 0
    if count ≥ 2 then ({ st with count := 0, state := 1 }, false)
    else ({ st with count := count }, false)
  else if st.state = 1 then
    if eps < diff then (st, false)
    else if diff ≤ eps ∧ -eps ≤ diff then ({ st with count := 0, state := 2 }, false)
    else if diff < -eps then ({ st with count := 1, state := 2 }, false)
    else (st, false)
  else if st.state = 2 then
    let st1 :=
      if diff < -eps then { st with count := st.count + 1 } else { st with count := 0, state := 0 }
    if st1.count ≥ 2 then
      let new_peak_i : Int := toInt32 i - st1.count
      if st1.first = false ∧
          (new_peak_i - st1.last_peak < MIN_I_DIFF ∨ new_peak_i - st1.last_peak > MAX_I_DIFF) then
        (st1, true)
      else
        let st2 := { st1 with peaks := st1.peaks ++ [intToSize new_peak_i],
                              last_peak := toInt32 (intToSize new_peak_i),
                              first := false,
                              peak_i := szadd st1.peak_i 1 }
        if st2.peak_i ≥ N_PEAKS then (st2, true)
        else ({ st2 with count := 0, state := 0 }, false)
    else (st1, false)
  else ({ st with count := 0, state := 0 }, false)

/-- The loop `for (i = start_index + 1; i < n_samples; ++i)` of `detect_peaks`, from
index `i` on; `none` when the fuel runs out. -/
def peakLoop (samples : Nat → α) (eps : α) (n_samples : Nat) : Nat → Nat → PeakScan → Option PeakScan
  | 0, i, st => if i < n_samples then none else some st
  | fuel + 1, i, st =>
    if i < n_samples then
      if (peakStep samples eps i st).2 = true then some (peakStep samples eps i st).1
      else peakLoop samples eps n_samples fuel (szadd i 1) (peakStep samples eps i st).1
    else some st

/-- The method `detect_peaks(n_samples, start_index, peaks)`, with `_EPS` as `eps`:
the returned count and the entries written to `peaks`. -/
def detect_peaks (samples : Nat → α) (eps : α) (n_samples start_index fuel : Nat) :
    Option (Nat × List Nat) :=
  (peakLoop samples eps n_samples fuel (szadd start_index 1) PeakScan.init).map
    (fun st => (st.peak_i, st.peaks))

/-- The sum of squares of `samples[i .. i + ENERGY_WINDOW)`, added up from index `i`
upwards: the energy `E(i)` of the specification. -/
def windowEnergy (samples : Nat → α) (i : Nat) : α :=
  (List.range ENERGY_WINDOW).foldl (fun s k => s + samples (i + k) * samples (i + k)) 0

end

/-- A coarse position of `detect_start`: a multiple of `COARSE_STEP` whose window
fits into the first `n_samples` samples. -/
def coarsePosition (n_samples p : Nat) : Prop :=
  p % COARSE_STEP = 0 ∧ p + ENERGY_WINDOW ≤ n_samples

instance (n_samples p : Nat) : Decidable (coarsePosition n_samples p) :=
  inferInstanceAs (Decidable (_ ∧ _))

end SignalAnalyzer

/-! ## Invariant of the peak scan -/

namespace SignalAnalyzer

/-- The spacing that `detect_peaks` accepts between one reported peak and the next. -/
def peakGap (a b : Nat) : Prop :=
  (a : Int) + MIN_I_DIFF ≤ (b : Int) ∧ (b : Int) ≤ (a : Int) + MAX_I_DIFF

/-- What holds of the peaks written so far at every point of the scan that started
at index `base`: the count is the number of entries, consecutive entries are spaced
by `peakGap`, and every entry lies at least one sample after `base` and at least
two samples before the last sample. -/
structure PeakOut (base n_samples : Nat) (st : PeakScan) : Prop where
  len : st.peak_i = st.peaks.length
  le : st.peak_i ≤ N_PEAKS
  chain : List.Chain' peakGap st.peaks
  mem : ∀ p ∈ st.peaks, base + 1 ≤ p ∧ p + 2 < n_samples

/-- What holds of the local variables of `detect_peaks` when the loop body is entered
at index `i`, for the scan that started at index `base`. -/
structure PeakInv (base n_samples i : Nat) (st : PeakScan) : Prop where
  out : PeakOut base n_samples st
  lt : st.peak_i < N_PEAKS
  last : ∀ l ∈ st.peaks.getLast?, st.first = false ∧ st.last_peak = (l : Int)
  phase :
    (st.state = 0 ∧ 0 ≤ st.count ∧ st.count ≤ 1 ∧ (base : Int) + st.count ≤ (i : Int)) ∨
    (st.state = 1 ∧ base + 2 ≤ i) ∨
    (st.state = 2 ∧ 0 ≤ st.count ∧ st.count ≤ 1 ∧ base + 3 ≤ i)

end SignalAnalyzer

/-! ## Pulse trains -/

namespace SignalAnalyzer

/-- The step from sample `i - 1` to sample `i` rises by more than `eps`. -/
def rises {α : Type} [Sub α] [LT α] (samples : Nat → α) (eps : α) (i : Nat) : Prop :=
  eps < samples i - samples (i - 1)

/-- The step from sample `i - 1` to sample `i` falls by more than `eps`. -/
def falls {α : Type} [Sub α] [Neg α] [LT α] (samples : Nat → α) (eps : α) (i : Nat) : Prop :=
  samples i - samples (i - 1) < -eps

/-- The apex indices of the first `j` pulses of a train whose first apex is at `a`
and whose apexes are five samples apart. -/
def apexes (a j : Nat) : List Nat :=
  (List.range j).map (fun k => a + 5 * k)

/-- Integer samples that ramp 0, 1, 2 up to a base level of 2 and from index 3 on
repeat the triangular pulse 2, 3, 4, 3, 2: the apexes are at 5, 10, 15, ... -/
def rampedPulseTrain (k : Nat) : Int :=
  if k < 3 then (k : Int) else 2 + ([0, 1, 2, 1, 0] : List Int).getD ((k - 3) % 5) 0

/-- The local variables of `detect_peaks` once the first `j` apexes of such a train
have been accepted, in the given state and with the given count. -/
def trainScan (a j : Nat) (state count : Int) : PeakScan :=
  { peak_i := j,
    last_peak := if j = 0 then -1 else ((a + 5 * (j - 1) : Nat) : Int),
    first := decide (j = 0),
    state := state,
    count := count,
    peaks := apexes a j }

end SignalAnalyzer

/-! ## Float code in exact arithmetic

The remaining code computes with `float`s. It is embedded over any linearly ordered
field `α`: every `float` operation is the exact field operation, `fabsf`, `fminf` and
`fmaxf` are `abs`, `min` and `max`, a decimal literal is the rational it denotes, and
the library functions `sqrtf`, `sinf`, `cosf` and `asinf` are parameters. Rounding,
infinities and NaN are outside this model. -/

/-- A function that is a square root: on non-negative arguments its value is
non-negative and squares to the argument. -/
def IsSqrt {α : Type} [LinearOrderedField α] (sqrtf : α → α) : Prop :=
  ∀ x, 0 ≤ x → 0 ≤ sqrtf x ∧ sqrtf x * sqrtf x = x

namespace SignalAnalyzer

/-- `HANDLE_N_SAMPLES` of `SignalAnalyzer.h`. -/
def HANDLE_N_SAMPLES : Nat := 20

/-- `K` of `SignalAnalyzer.h`. -/
def K : Nat := 10

section
variable {α : Type} [LinearOrderedField α]

/-- The loop of `handle`: the pair of `sum` and `sum2` after its
`HANDLE_N_SAMPLES` passes. -/
def handleSums (noise_samples : Nat → α) (i_start : Nat) : α × α :=
  (List.range HANDLE_N_SAMPLES).foldl
    (fun s i =>
      let v := noise_samples (i_start + i)
      let vv := v * v
      (s.1 + vv, s.2 + vv * vv))
    (0, 0)

/-- The method `handle(n_samples, noise_samples)`: the value of `signal_threshold`
after the call, given its value before. -/
def handle (sqrtf : α → α) (n_samples : Nat) (noise_samples : Nat → α) (signal_threshold : α) : α :=
  if n_samples < HANDLE_N_SAMPLES then signal_threshold
  else
    let i_start := n_samples - HANDLE_N_SAMPLES
    let sum := (handleSums noise_samples i_start).1
    let sum2 := (handleSums noise_samples i_start).2
    let mean := sum / (HANDLE_N_SAMPLES : α)
    let mean2 := sum2 / (HANDLE_N_SAMPLES : α)
    let var0 := mean2 - mean * mean
    let var := if var0 < 0 then 0 else var0
    let stddev := sqrtf var
    let mu_sum := mean * (ENERGY_WINDOW : α)
    let sigma_sum := stddev * sqrtf (ENERGY_WINDOW : α)
    let new_thres := mu_sum + (K : α) * sigma_sum
    if new_thres < 1 / 1000 then 1 / 1000 else new_thres

/-- The threshold of the specification: with `q i` the squares of the trailing
`HANDLE_N_SAMPLES` samples, `max(1e-3, mean * ENERGY_WINDOW + K * sqrt(var) *
sqrt(ENERGY_WINDOW))` for `mean = avg q` and `var = max(0, avg (q ^ 2) - mean ^ 2)`. -/
def thresholdSpec (sqrtf : α → α) (n_samples : Nat) (noise_samples : Nat → α) : α :=
  let q : Nat → α := fun i =>
    noise_samples (n_samples - HANDLE_N_SAMPLES + i) * noise_samples (n_samples - HANDLE_N_SAMPLES + i)
  let mean := (∑ i in Finset.range HANDLE_N_SAMPLES, q i) / (HANDLE_N_SAMPLES : α)
  let var := max 0 ((∑ i in Finset.range HANDLE_N_SAMPLES, q i * q i) / (HANDLE_N_SAMPLES : α) - mean * mean)
  max (1 / 1000) (mean * (ENERGY_WINDOW : α) + (K : α) * sqrtf var * sqrtf (ENERGY_WINDOW : α))

end

end SignalAnalyzer

/-! ## `Algorithm_v1/PeakInterpolator.cpp` -/

namespace PeakInterpolator

/-- `INTERPOLATION_NEIGHBOURS` of `PeakInterpolator.h`. -/
def INTERPOLATION_NEIGHBOURS : Nat := 5

section
variable {α : Type} [LinearOrderedField α]

/-- The value of the macro `SAMPLE_T_US`, `1000.0f / 192.0f`. -/
def SAMPLE_T_US : α := 1000 / 192

/-- The value of the macro `_PI`. -/
def _PI : α := 314159265358979323846 / 100000000000000000000

/-- The method `interpolate_peak_parabolic(n_samples, index, t, val)`: the returned
flag and the values of `t` and `val` after the call, given their values before.
`((float)k + delta) * SAMPLE_T_US` is the macro expansion
`((float)k + delta) * 1000.0f / 192.0f`. -/
def interpolate_peak_parabolic (samples : Nat → α) (n_samples index : Nat) (t val : α) :
    Bool × α × α :=
  if index = 0 ∨ SignalAnalyzer.szadd index 1 ≥ n_samples then (false, t, val)
  else
    let k := index
    let ym1 := samples (k - 1)
    let y0 := samples k
    let yp1 := samples (SignalAnalyzer.szadd k 1)
    let a := 1 / 2 * (ym1 + yp1) - y0
    let b := 1 / 2 * (yp1 - ym1)
    let c := y0
    let denom := 2 * a
    let delta :=
      if abs denom < 1 / 1000000000 then 0
      else
        let d0 := -b / denom
        let d1 := if d0 > 1 / 2 then 1 / 2 else d0
        if d1 < -(1 / 2) then -(1 / 2) else d1
    let y_peak := (a * delta + b) * delta + c
    (true, ((k : α) + delta) * 1000 / 192, y_peak)

/-- The method `normalize(n_samples, start_index, end_index)`: the sample buffer
after the call. -/
def normalize (samples : Nat → α) (n_samples start_index end_index : Nat) : Nat → α :=
  let i_start0 : Int := toInt32 start_index - (INTERPOLATION_NEIGHBOURS : Int)
  let i_start : Int := if i_start0 < 0 then 0 else i_start0
  let i_end0 : Int := toInt32 end_index + (INTERPOLATION_NEIGHBOURS : Int)
  let i_end : Int := if i_end0 > toInt32 n_samples then toInt32 n_samples else i_end0
  let max0 := abs (samples i_start.toNat)
  let maxv := (List.range (i_end - i_start).toNat).foldl
    (fun m k => if abs (samples (i_start.toNat + k)) > m then abs (samples (i_start.toNat + k)) else m)
    max0
  if maxv < 1 / 1000000000000 then samples
  else fun i => if i_start ≤ (i : Int) ∧ (i : Int) < i_end then samples i / maxv else samples i

/-- The loop of `interpolate_peaks_parabolic` over the peaks not yet handled, `j`
being the index of the first of them: the returned flag and the arrays `peaks` and
`time` at return. -/
def interpolateLoop (samples : Nat → α) (n_samples : Nat) :
    List Nat → Nat → (Nat → α) → (Nat → α) → Bool × (Nat → α) × (Nat → α)
  | [], _, peaks, time => (true, peaks, time)
  | p :: rest, j, peaks, time =>
    if (interpolate_peak_parabolic samples n_samples p (time j) (peaks j)).1 = false then
      (false, peaks, time)
    else
      interpolateLoop samples n_samples rest (j + 1)
        (Function.update peaks j (interpolate_peak_parabolic samples n_samples p (time j) (peaks j)).2.2)
        (Function.update time j (interpolate_peak_parabolic samples n_samples p (time j) (peaks j)).2.1)

/-- The method `interpolate_peaks_parabolic(n_samples, n_peaks, est_peaks, peaks,
time)`, the list `est_peaks` standing for the array and its length `n_peaks` (the
code reads `est_peaks[0]` and `est_peaks[n_peaks - 1]`, so it needs `n_peaks ≥ 1`):
the returned flag, and the sample buffer and the two output arrays at return. -/
def interpolate_peaks_parabolic (samples : Nat → α) (n_samples : Nat) (est_peaks : List Nat)
    (peaks time : Nat → α) : Bool × (Nat → α) × (Nat → α) × (Nat → α) :=
  let samples1 := normalize samples n_samples (est_peaks.getD 0 0)
    (est_peaks.getD (est_peaks.length - 1) 0)
  let r := interpolateLoop samples1 n_samples est_peaks 0 peaks time
  (r.1, samples1, r.2.1, r.2.2)

/-- The method `fast_sinc_pi_der(u)`. -/
def fast_sinc_pi_der (sinf cosf : α → α) (u : α) : α :=
  if abs u < 1 / 1000000 then 0
  else
    let theta := _PI * u
    let s := sinf theta
    let c := cosf theta
    (theta * c - s) / (_PI * u * u)

/-- The method `fast_sinc_pi(u)`. -/
def fast_sinc_pi (sinf : α → α) (u : α) : α :=
  if abs u < 1 / 1000000 then 1
  else
    let theta := _PI * u
    let s := sinf theta
    s / theta

/-- The method `windowed_sinc_pi(k, delta)`; `m` runs from `-INTERPOLATION_NEIGHBOURS`
to `INTERPOLATION_NEIGHBOURS`. -/
def windowed_sinc_pi (sinf : α → α) (samples : Nat → α) (k : Nat) (delta : α) : α :=
  (List.range (2 * INTERPOLATION_NEIGHBOURS + 1)).foldl
    (fun sum (i : Nat) =>
      let m : Int := (i : Int) - (INTERPOLATION_NEIGHBOURS : Int)
      let xm := samples (SignalAnalyzer.intToSize ((k : Int) + m))
      let u := delta - (m : α)
      sum + xm * fast_sinc_pi sinf u)
    0

/-- The method `windowed_sinc_pi_der(k, delta)`. -/
def windowed_sinc_pi_der (sinf cosf : α → α) (samples : Nat → α) (k : Nat) (delta : α) : α :=
  (List.range (2 * INTERPOLATION_NEIGHBOURS + 1)).foldl
    (fun sum (i : Nat) =>
      let m : Int := (i : Int) - (INTERPOLATION_NEIGHBOURS : Int)
      let xm := samples (SignalAnalyzer.intToSize ((k : Int) + m))
      let u := delta - (m : α)
      sum + xm * fast_sinc_pi_der sinf cosf u)
    0

/-- The loop `for (int iter = 0; iter < 10; ++iter)` of `interpolate_peak` with `iters`
passes left, for the derivative `g`: the value of `delta1` at loop exit. -/
def secantLoop (g : α → α) : Nat → α → α → α → α → α
  | 0, _, _, delta1, _ => delta1
  | iters + 1, delta0, g0, delta1, g1 =>
    let denom := g1 - g0
    if abs denom < 1 / 1000000 ∨ abs g1 < 1 / 1000000 then delta1
    else
      let d2 := delta1 - g1 * (delta1 - delta0) / denom
      let d3 := if d2 > 1 / 2 then 1 / 2 else d2
      let delta2 := if d3 < -(1 / 2) then -(1 / 2) else d3
      secantLoop g iters delta1 g1 delta2 (g delta2)

/-- The method `interpolate_peak(n_samples, index, t, val)`: the returned flag and the
values of `t` and `val` after the call. `t *= SAMPLE_T_US` is the macro expansion
`t *= 1000.0f / 192.0f`. -/
def interpolate_peak (sinf cosf : α → α) (samples : Nat → α) (n_samples index : Nat) (t val : α) :
    Bool × α × α :=
  if index < INTERPOLATION_NEIGHBOURS ∨
      SignalAnalyzer.szadd index INTERPOLATION_NEIGHBOURS ≥ n_samples then (false, t, val)
  else
    let delta0 : α := -(1 / 100)
    let delta1 : α := 1 / 100
    let g0 := windowed_sinc_pi_der sinf cosf samples index delta0
    let g1 := windowed_sinc_pi_der sinf cosf samples index delta1
    let delta := secantLoop (windowed_sinc_pi_der sinf cosf samples index) 10 delta0 g0 delta1 g1
    (true, ((index : α) + delta) * (1000 / 192), windowed_sinc_pi sinf samples index delta)

end

end PeakInterpolator

/-! ## `Algorithm::find_peak_diff` and `Algorithm::calc_angle` -/

namespace Algorithm

/-- The local `N` of `find_peak_diff`, `(int)N_PEAKS`. -/
def N : Int := (SignalAnalyzer.N_PEAKS : Int)

/-- The local `L` of `find_peak_diff`: `int L = 10; if (L > N - 1) L = N - 1;`. -/
def L : Int := if (10 : Int) > N - 1 then N - 1 else 10

/-- The local `W` of `find_peak_diff`, `N - L`. -/
def W : Int := N - L

/-- The variables `bestLag` and `bestCorr` of `find_peak_diff`. -/
structure LagSearch (α : Type) where
  bestLag : Int
  bestCorr : α

section
variable {α : Type} [LinearOrderedField α]

/-- The local `TIE_EPS` of `find_peak_diff`. -/
def TIE_EPS : α := 1 / 10000

/-- The loop of `corr_norm`: `num`, `da` and `db` after its `n` passes. -/
def corrSums (a b : Nat → α) (n : Nat) : α × α × α :=
  (List.range n).foldl
    (fun s i =>
      let x := a i
      let y := b i
      (s.1 + x * y, s.2.1 + x * x, s.2.2 + y * y))
    (0, 0, 0)

/-- The function `corr_norm(a, b, n)`. -/
def corr_norm (sqrtf : α → α) (a b : Nat → α) (n : Nat) : α :=
  let num := (corrSums a b n).1
  let da := (corrSums a b n).2.1
  let db := (corrSums a b n).2.2
  let denom := sqrtf (da * db)
  if denom < 1 / 1000000000000 then -1 else num / denom

/-- The correlation `c` that the lag loop computes at `lag`:
`corr_norm(peaks_l + i0, peaks_r + i0 + lag, W)` with `i0 = (lag < 0) ? -lag : 0`. -/
def corrAt (sqrtf : α → α) (peaks_l peaks_r : Nat → α) (lag : Int) : α :=
  corr_norm sqrtf
    (fun i => peaks_l ((if lag < 0 then -lag else 0).toNat + i))
    (fun i => peaks_r (((if lag < 0 then -lag else 0) + lag).toNat + i))
    W.toNat

/-- One pass of the lag loop of `find_peak_diff`. -/
def lagStep (sqrtf : α → α) (peaks_l peaks_r : Nat → α) (best : LagSearch α) (lag : Int) :
    LagSearch α :=
  if (if lag < 0 then -lag else 0) + W > N then best
  else if corrAt sqrtf peaks_l peaks_r lag > best.bestCorr + TIE_EPS ∨
      (abs (corrAt sqrtf peaks_l peaks_r lag - best.bestCorr) ≤ TIE_EPS ∧
        abs lag < abs best.bestLag) then
    ⟨lag, corrAt sqrtf peaks_l peaks_r lag⟩
  else best

/-- The lag loop `for (int lag = -L; lag <= L; ++lag)` after its first `count` passes. -/
def lagSearchUpTo (sqrtf : α → α) (peaks_l peaks_r : Nat → α) (count : Nat) : LagSearch α :=
  (List.range count).foldl
    (fun best (k : Nat) => lagStep sqrtf peaks_l peaks_r best (-L + (k : Int)))
    ⟨0, -2⟩

/-- The lag loop of `find_peak_diff`, all `2 * L + 1` passes. -/
def lagSearch (sqrtf : α → α) (peaks_l peaks_r : Nat → α) : LagSearch α :=
  lagSearchUpTo sqrtf peaks_l peaks_r (2 * L + 1).toNat

/-- The array `dt` that `find_peak_diff` fills for `bestLag`, as the list of its
`n_dt` entries. -/
def timeDiffs (time_l time_r : Nat → α) (bestLag : Int) : List α :=
  if bestLag ≥ 0 then
    (List.range (N - bestLag).toNat).map (fun i => time_r (i + bestLag.toNat) - time_l i)
  else
    (List.range (N - (-bestLag)).toNat).map (fun i => time_r i - time_l (i + (-bestLag).toNat))

/-- The inner loop of the sort, `for (int j = i + 1; j < n_dt; ++j) if (dt[j] < dt[mi])
mi = j;` started with `mi = i`: the final `mi`. -/
def selectMin (dt : List α) (i : Nat) : Nat :=
  (List.range (dt.length - (i + 1))).foldl
    (fun mi k => if dt.getD (i + 1 + k) 0 < dt.getD mi 0 then i + 1 + k else mi)
    i

/-- The statement `if (mi != i) { tmp = dt[i]; dt[i] = dt[mi]; dt[mi] = tmp; }`. -/
def swapAt (dt : List α) (i mi : Nat) : List α :=
  if mi ≠ i then (dt.set i (dt.getD mi 0)).set mi (dt.getD i 0) else dt

/-- The sort of `find_peak_diff`: `for (int i = 0; i < n_dt - 1; ++i)` around
`selectMin` and `swapAt`. -/
def selectionSort (dt : List α) : List α :=
  (List.range (dt.length - 1)).foldl (fun d i => swapAt d i (selectMin d i)) dt

/-- The end of `find_peak_diff`: `0` when `n_dt <= 0`, else the middle entry of the
sorted `dt` when `n_dt` is odd and half the sum of the two middle entries when even. -/
def medianOfSorted (dt : List α) : α :=
  if dt.length ≤ 0 then 0
  else if dt.length % 2 = 1 then dt.getD (dt.length / 2) 0
  else 1 / 2 * (dt.getD (dt.length / 2 - 1) 0 + dt.getD (dt.length / 2) 0)

/-- The method `find_peak_diff(peaks_l, time_l, peaks_r, time_r, t_diff)`: the value
written to `t_diff`. -/
def find_peak_diff (sqrtf : α → α) (peaks_l time_l peaks_r time_r : Nat → α) : α :=
  medianOfSorted (selectionSort (timeDiffs time_l time_r (lagSearch sqrtf peaks_l peaks_r).bestLag))

/-- The value of the macro `SOUND_SPEED`. -/
def SOUND_SPEED : α := 343

/-- The value of the macro `SENSOR_DISTANCE_M`. -/
def SENSOR_DISTANCE_M : α := 1 / 10

/-- The value of the macro `RAD_TO_DEG`. -/
def RAD_TO_DEG : α := 5729577951308232 / 100000000000000

/-- The method `calc_angle(t_diff)`; `t_diff * ANGLE_K` is the macro expansion
`t_diff * (SOUND_SPEED / SENSOR_DISTANCE_M) * 1e-6f`. -/
def calc_angle (asinf : α → α) (t_diff : α) : α :=
  let theta0 := t_diff * (SOUND_SPEED / SENSOR_DISTANCE_M) * (1 / 1000000)
  let theta := min 1 (max (-1) theta0)
  asinf theta * RAD_TO_DEG

/-- The differences of the specification for lag `b`: `time_r[i + b] - time_l[i]` over
the `i` of `0 .. N_PEAKS - 1` with `i + b < N_PEAKS` when `b ≥ 0`, and
`time_r[i] - time_l[i - b]` over the `i` with `i - b < N_PEAKS` when `b < 0`. -/
def pairDifferences (time_l time_r : Nat → α) (b : Int) : List α :=
  if 0 ≤ b then
    ((List.range SignalAnalyzer.N_PEAKS).filter
      (fun (i : Nat) => decide ((i : Int) + b < (SignalAnalyzer.N_PEAKS : Int)))).map
      (fun (i : Nat) => time_r ((i : Int) + b).toNat - time_l i)
  else
    ((List.range SignalAnalyzer.N_PEAKS).filter
      (fun (i : Nat) => decide ((i : Int) - b < (SignalAnalyzer.N_PEAKS : Int)))).map
      (fun (i : Nat) => time_r i - time_l ((i : Int) - b).toNat)

/-- The median of the specification: the middle value of the differences in
ascending order, the mean of the two middle values when their count is even. -/
def medianSpec (dt : List α) : α :=
  if (dt.insertionSort (fun x y => x ≤ y)).length % 2 = 1 then
    (dt.insertionSort (fun x y => x ≤ y)).getD (dt.length / 2) 0
  else
    ((dt.insertionSort (fun x y => x ≤ y)).getD (dt.length / 2 - 1) 0
      + (dt.insertionSort (fun x y => x ≤ y)).getD (dt.length / 2) 0) / 2

end

end Algorithm

/-! ## Peak sequences used as test data for `find_peak_diff` -/

namespace Algorithm

section
variable {α : Type} [LinearOrderedField α]

/-- Left amplitudes `0, 0, -1, -2, -5, -158, -12499, 2, 1, 0` followed by zeros; the
squares of the first ten add up to `12500 ^ 2`. -/
def gradedPeaks (i : Nat) : α :=
  if i = 2 then -1 else if i = 3 then -2 else if i = 4 then -5 else if i = 5 then -158
  else if i = 6 then -12499 else if i = 7 then 2 else if i = 8 then 1 else 0

/-- Amplitudes that are `1` at index `k` and `0` elsewhere. -/
def spikePeaks (k : Nat) (i : Nat) : α := if i = k then 1 else 0

/-- Amplitudes that alternate `1, 0, 1, 0, ...` from the given phase on. -/
def alternatingPeaks (phase : Nat) (i : Nat) : α := if (i + phase) % 2 = 0 then 1 else 0

/-- Amplitudes `1e-7` at index `0`, `1` at index `10` and `0` elsewhere. -/
def faintStartPeaks (i : Nat) : α := if i = 0 then 1 / 10000000 else if i = 10 then 1 else 0

/-- Peak times `5 * i + shift`. -/
def evenTimes (shift : α) (i : Nat) : α := 5 * (i : α) + shift

end

end Algorithm

/-! ## `Algorithm::fit_line`, `calc_intercept`, `find_sig_delay` and `calc_distance` -/

namespace Algorithm

section
variable {α : Type} [LinearOrderedField α]

/-- The loop of `fit_line`: `T`, `Y`, `TT` and `TY` after its `n` passes. -/
def fitSums (t peaks : Nat → α) (n : Nat) : α × α × α × α :=
  (List.range n).foldl
    (fun s i =>
      let ti := t i
      let yi := peaks i
      (s.1 + ti, s.2.1 + yi, s.2.2.1 + ti * ti, s.2.2.2 + ti * yi))
    (0, 0, 0, 0)

/-- The method `fit_line(t, peaks, n_peaks, a, b)`: the returned flag and the values
of `a` and `b` after the call, given their values before. -/
def fit_line (t peaks : Nat → α) (n_peaks : Int) (a b : α) : Bool × α × α :=
  if n_peaks < 2 then (false, a, b)
  else
    let T := (fitSums t peaks n_peaks.toNat).1
    let Y := (fitSums t peaks n_peaks.toNat).2.1
    let TT := (fitSums t peaks n_peaks.toNat).2.2.1
    let TY := (fitSums t peaks n_peaks.toNat).2.2.2
    let Nf : α := (n_peaks : α)
    let D := Nf * TT - T * T
    if abs D < 1 / 1000000000 then (false, a, b)
    else
      let a1 := (Nf * TY - T * Y) / D
      let b1 := (Y - a1 * T) / Nf
      (true, a1, b1)

/-- The method `calc_intercept(a, b)`. The field quotient stands for the `float`
quotient only when `a` is not zero: for `a = 0` the code yields an infinity or NaN. -/
def calc_intercept (a b : α) : α := -b / a

/-- The method `find_sig_delay(peaks_l, time_l, peaks_r, time_r, n_peaks, sig_delay)`:
the value written to `sig_delay`. The locals `a` and `b` are declared without a value;
`a` and `b` here are what they hold before the first `fit_line` call. The flag that
`fit_line` returns is not used. -/
def find_sig_delay (peaks_l time_l peaks_r time_r : Nat → α) (n_peaks : Nat) (a b : α) : α :=
  let fl := fit_line time_l peaks_l (toInt32 n_peaks) a b
  let start_l := calc_intercept fl.2.1 fl.2.2
  let fr := fit_line time_r peaks_r (toInt32 n_peaks) fl.2.1 fl.2.2
  let start_r := calc_intercept fr.2.1 fr.2.2
  min start_l start_r

/-- The method `calc_distance(sig_delay, sig_offset)`. -/
def calc_distance (sig_delay : α) (sig_offset : Nat) : α :=
  let sig_delay_offset := (sig_offset : α) * 1000 / 192
  (sig_delay + sig_delay_offset) * (343 / 10000)

/-- The determinant of the specification, `n * sum(t_i ^ 2) - (sum t_i) ^ 2`. -/
def fitDeterminant (t : Nat → α) (n : Nat) : α :=
  (n : α) * (∑ i in Finset.range n, t i ^ 2) - (∑ i in Finset.range n, t i) ^ 2

end

end Algorithm

/-! ## `SignalAnalyzer::analyze`, `Algorithm::normalize`, `solve` and `calculate` -/

namespace SignalAnalyzer

section
variable {α : Type} [LinearOrderedField α]

/-- The value of the macro `_EPS`. -/
def _EPS : α := 1 / 10000000

/-- What `analyze` leaves behind: the returned flag, the value of `signal_start`, and
the entries it wrote to `peaks`, in order. -/
structure AnalyzeOut where
  ok : Bool
  signal_start : Nat
  peaks : List Nat
  deriving DecidableEq, Repr

/-- The method `analyze(n_samples, signal_start, peaks)`, `signal_start` being the
value the reference holds before the call; `none` when the fuel does not cover the
loops of `detect_start` and `detect_peaks`. -/
def analyze (samples : Nat → α) (signal_threshold : α) (n_samples fuel signal_start : Nat) :
    Option AnalyzeOut :=
  match detect_start samples signal_threshold n_samples fuel with
  | none => none
  | some none => some { ok := false, signal_start := signal_start, peaks := [] }
  | some (some s) =>
    match detect_peaks samples _EPS n_samples s fuel with
    | none => none
    | some (n_found, peaks) =>
      if n_found < N_PEAKS then some { ok := false, signal_start := s, peaks := peaks }
      else some { ok := true, signal_start := s, peaks := peaks }

end

end SignalAnalyzer

namespace Algorithm

/-- `NOISEFLOOR_N_SAMPLES` of `Algorithm.h`. -/
def NOISEFLOOR_N_SAMPLES : Nat := 30

section
variable {α : Type} [LinearOrderedField α]

/-- The method `normalize(n_frames, n_peaks, est_peaks, channel)`: the channel buffer
after the call. `est_peaks[0] - INTERPOLATION_NEIGHBOURS - 2` is computed in `size_t`
and stored in an `int`. -/
def normalize (channel : Nat → α) (n_frames n_peaks : Nat) (est_peaks : List Nat) : Nat → α :=
  let start0 : Int := toInt32 (SignalAnalyzer.intToSize
    ((est_peaks.getD 0 0 : Int) - (PeakInterpolator.INTERPOLATION_NEIGHBOURS : Int) - 2))
  let start_index : Int := if start0 < 0 then 0 else start0
  let end0 : Int := toInt32 (SignalAnalyzer.szadd
    (SignalAnalyzer.szadd (est_peaks.getD (n_peaks - 1) 0) PeakInterpolator.INTERPOLATION_NEIGHBOURS) 2)
  let end_index : Int := if end0 > toInt32 n_frames then toInt32 n_frames else end0
  let first := SignalAnalyzer.intToSize start_index
  let last := SignalAnalyzer.intToSize end_index
  let sum := (List.range (last - first)).foldl (fun s k => s + channel (first + k)) 0
  let mean := sum / (n_frames : α)
  let channel1 : Nat → α := fun i => if first ≤ i ∧ i < last then channel i - mean else channel i
  let abs_max := (List.range (last - first)).foldl
    (fun m k => if abs (channel1 (first + k)) > m then abs (channel1 (first + k)) else m) 0
  if abs_max > 1 / 1000000000000 then
    fun i => if i < n_frames then channel1 i * (1 / abs_max) else channel1 i
  else channel1

/-- The values that the locals of `solve` and `find_sig_delay` declared without an
initialiser hold: `signal_start_l`, `signal_start_r`, the arrays `peaks_l`, `time_l`,
`peaks_r`, `time_r`, and `a`, `b` of `find_sig_delay`. -/
structure SolveLocals (α : Type) where
  signal_start_l : Nat
  signal_start_r : Nat
  peaks_l : Nat → α
  time_l : Nat → α
  peaks_r : Nat → α
  time_r : Nat → α
  a : α
  b : α

/-- What `solve` leaves behind: the returned flag, the values of `t_diff` and
`sig_delay`, the `signal_threshold` of the two analyzers, and the two channel buffers. -/
structure SolveOut (α : Type) where
  ok : Bool
  t_diff : α
  sig_delay : α
  threshold_l : α
  threshold_r : α
  sig_left : Nat → α
  sig_right : Nat → α

/-- The method `solve(n_frames, t_diff, sig_delay)`; `t_diff` and `sig_delay` are the
values the references hold before the call, `threshold_l` and `threshold_r` the
`signal_threshold` of `analyzer_l` and `analyzer_r`. When `analyze` has returned true
the array `est_peaks` holds `N_PEAKS` entries, the list `peaks` of its result. The
timing and printing statements are left out. -/
def solve (sqrtf : α → α) (fuel : Nat) (locals : SolveLocals α) (threshold_l threshold_r : α)
    (sig_left sig_right : Nat → α) (n_frames : Nat) (t_diff sig_delay : α) :
    Option (SolveOut α) :=
  match SignalAnalyzer.analyze sig_left threshold_l n_frames fuel locals.signal_start_l with
  | none => none
  | some al =>
    if al.ok = false then
      some { ok := false, t_diff := t_diff, sig_delay := sig_delay, threshold_l := threshold_l,
             threshold_r := threshold_r, sig_left := sig_left, sig_right := sig_right }
    else
      match SignalAnalyzer.analyze sig_right threshold_r n_frames fuel locals.signal_start_r with
      | none => none
      | some ar =>
        if ar.ok = false then
          some { ok := false, t_diff := t_diff, sig_delay := sig_delay,
                 threshold_l := threshold_l, threshold_r := threshold_r,
                 sig_left := sig_left, sig_right := sig_right }
        else
          let left1 := normalize sig_left n_frames SignalAnalyzer.N_PEAKS al.peaks
          let right1 := normalize sig_right n_frames SignalAnalyzer.N_PEAKS ar.peaks
          let il := PeakInterpolator.interpolate_peaks_parabolic left1 n_frames al.peaks
            locals.peaks_l locals.time_l
          if il.1 = false then
            some { ok := false, t_diff := t_diff, sig_delay := sig_delay,
                   threshold_l := threshold_l, threshold_r := threshold_r,
                   sig_left := il.2.1, sig_right := right1 }
          else
            let ir := PeakInterpolator.interpolate_peaks_parabolic right1 n_frames ar.peaks
              locals.peaks_r locals.time_r
            if ir.1 = false then
              some { ok := false, t_diff := t_diff, sig_delay := sig_delay,
                     threshold_l := threshold_l, threshold_r := threshold_r,
                     sig_left := il.2.1, sig_right := ir.2.1 }
            else
              some { ok := true,
                     t_diff := find_peak_diff sqrtf il.2.2.1 il.2.2.2 ir.2.2.1 ir.2.2.2,
                     sig_delay := find_sig_delay il.2.2.1 il.2.2.2 ir.2.2.1 ir.2.2.2
                       SignalAnalyzer.N_PEAKS locals.a locals.b,
                     threshold_l := threshold_l, threshold_r := threshold_r,
                     sig_left := il.2.1, sig_right := ir.2.1 }

/-- What the acquisition hardware delivers during one `calculate` call: the voltages
that `read_samples` stores in `noise_l` and `noise_r`, and the contents of `sig_left`
and `sig_right` after `fetch`. -/
structure Acquired (α : Type) where
  noise_l : Nat → α
  noise_r : Nat → α
  sig_left : Nat → α
  sig_right : Nat → α

/-- What `calculate` leaves behind: the returned flag, the values of `angle` and
`distance`, the `signal_threshold` of the two analyzers, and the sampler. -/
structure CalculateOut (α : Type) where
  ok : Bool
  angle : α
  distance : α
  threshold_l : α
  threshold_r : α
  sampler : SamplerR2

/-- The method `calculate(angle, distance)`; `angle` and `distance` are the values the
references hold before the call, `t_diff` and `sig_delay` the values of the locals of
these names, declared without an initialiser. `none` when the fuel does not cover the
loops. -/
def calculate (sqrtf asinf : α → α) (dev : Device) (fuel : Nat) (s : SamplerR2)
    (data : Acquired α) (locals : SolveLocals α) (t_diff sig_delay : α)
    (threshold_l threshold_r : α) (angle distance : α) : Option (CalculateOut α) :=
  if s.triggered = false then
    some { ok := false, angle := angle, distance := distance, threshold_l := threshold_l,
           threshold_r := threshold_r, sampler := s }
  else
    let head := calculateHead s.readIndex s.triggerIndex
    let noise : Option (SamplerR2 × α × α) :=
      match head.discardRequest with
      | none => some (s, threshold_l, threshold_r)
      | some request =>
        match SamplerR2.discard_frames dev fuel s request with
        | none => none
        | some (_, s1) =>
          match SamplerR2.read_samples dev fuel s1 with
          | none => none
          | some (n_samples, s2) =>
            let shift := (n_samples + U32_MOD - NOISEFLOOR_N_SAMPLES) % U32_MOD
            some (s2,
              SignalAnalyzer.handle sqrtf NOISEFLOOR_N_SAMPLES
                (fun i => data.noise_l (shift + i)) threshold_l,
              SignalAnalyzer.handle sqrtf NOISEFLOOR_N_SAMPLES
                (fun i => data.noise_r (shift + i)) threshold_r)
    match noise with
    | none => none
    | some (s3, thr_l, thr_r) =>
      match SamplerR2.fetch dev fuel s3 head.sig_offset with
      | none => none
      | some run =>
        if run.total_frames_read = 0 then
          some { ok := false, angle := angle, distance := distance, threshold_l := thr_l,
                 threshold_r := thr_r, sampler := run.final }
        else
          match solve sqrtf fuel locals thr_l thr_r data.sig_left data.sig_right
              run.total_frames_read t_diff sig_delay with
          | none => none
          | some so =>
            if so.ok = false then
              some { ok := false, angle := angle, distance := distance,
                     threshold_l := so.threshold_l, threshold_r := so.threshold_r,
                     sampler := run.final }
            else
              some { ok := true, angle := calc_angle asinf so.t_diff,
                     distance := calc_distance so.sig_delay run.offset,
                     threshold_l := so.threshold_l, threshold_r := so.threshold_r,
                     sampler := run.final }

end

end Algorithm

/-! ## The falling steps behind a reported peak -/

namespace SignalAnalyzer

/-- What holds of the steps behind the peaks written so far when the loop body of
`detect_peaks` is entered at index `i`: each reported peak is followed by two steps
that fall by more than `eps`, and in state 2 with a count of 1 the step into sample
`i - 1` fell by more than `eps`. -/
def FallInv {α : Type} [Sub α] [Neg α] [LT α] (samples : Nat → α) (eps : α) (i : Nat)
    (st : PeakScan) : Prop :=
  (∀ p, p ∈ st.peaks → falls samples eps (p + 1) ∧ falls samples eps (p + 2)) ∧
  (st.state = 2 → st.count = 1 → falls samples eps (i - 1))

end SignalAnalyzer

/-! ## The slope machine of the specification, without the spacing check

The specification describes `detectPeaks` as a three-state slope machine that scans
the differences of consecutive samples from `start + 1` onward. The definitions below
follow that description and leave out the validation of the spacing and the stop at
`N_PEAKS`: every index at which two consecutive falls are reached yields a candidate
peak, and the scan goes on to the end of the array. -/

namespace SignalAnalyzer

instance (a b : Nat) : Decidable (peakGap a b) :=
  inferInstanceAs (Decidable (_ ∧ _))

/-- The state of the slope machine of the specification: the state number, the count
of consecutive rises (state 0) or falls (state 2), and the candidate peaks found so
far. -/
structure SlopeScan where
  state : Nat
  count : Nat
  candidates : List Nat
  deriving DecidableEq, Repr

/-- The slope machine before the first difference. -/
def SlopeScan.init : SlopeScan :=
  { state := 0, count := 0, candidates := [] }

section
variable {α : Type} [Zero α] [Add α] [Sub α] [Mul α] [Neg α] [LE α] [LT α]
  [DecidableRel (fun a b : α => a ≤ b)] [DecidableRel (fun a b : α => a < b)]

/-- One step of the slope machine of the specification at position `i`. State 0: two
consecutive positive slopes lead to state 1, any break resets the count. State 1: a
positive slope stays, a slope within `±eps` of zero leads to state 2 with a fall-count
of 0, a negative slope leads to state 2 with a fall-count of 1. State 2: a break leads
back to state 0; on reaching two consecutive falls the candidate peak is the current
position minus the fall-count, and the machine is reset to state 0. -/
def slopeStep (samples : Nat → α) (eps : α) (i : Nat) (st : SlopeScan) : SlopeScan :=
  let diff := samples i - samples (i - 1)
  if st.state = 0 then
    if eps < diff then
      if st.count + 1 ≥ 2 then { st with state := 1, count := 0 }
      else { st with count := st.count + 1 }
    else { st with count := 0 }
  else if st.state = 1 then
    if eps < diff then st
    else if diff ≤ eps ∧ -eps ≤ diff then { st with state := 2, count := 0 }
    else if diff < -eps then { st with state := 2, count := 1 }
    else st
  else
    if diff < -eps then
      if st.count + 1 ≥ 2 then
        { state := 0, count := 0, candidates := st.candidates ++ [i - (st.count + 1)] }
      else { st with count := st.count + 1 }
    else { st with state := 0, count := 0 }

/-- The slope machine run over the positions of a list, in order. -/
def slopeRun (samples : Nat → α) (eps : α) (positions : List Nat) (st : SlopeScan) : SlopeScan :=
  positions.foldl (fun s i => slopeStep samples eps i s) st

/-- The candidate-peak sequence: the candidates of the slope machine run, without a
spacing check, over the positions `start_index + 1, ..., n_samples - 1`. -/
def slopeCandidates (samples : Nat → α) (eps : α) (n_samples start_index : Nat) : List Nat :=
  (slopeRun samples eps (List.range' (start_index + 1) (n_samples - (start_index + 1)))
    SlopeScan.init).candidates

end

/-- The entries of a list, from its head on, as long as each is spaced by `peakGap`
from the entry before it; `a` is the entry before the head. -/
def spacedAfter (a : Nat) : List Nat → List Nat
  | [] => []
  | b :: l => if peakGap a b then b :: spacedAfter b l else []

/-- The longest prefix of a list in which every gap between consecutive entries lies
in `[MIN_I_DIFF, MAX_I_DIFF]`. -/
def spacedPrefix : List Nat → List Nat
  | [] => []
  | a :: l => a :: spacedAfter a l

/-- The relation between the local variables of `detect_peaks` and the state of the
slope machine of the specification while `detect_peaks` has not returned: same state,
same count, the peaks written are the candidates found, and `first` is still set
while no peak is written. -/
def SlopeSim (st : PeakScan) (fs : SlopeScan) : Prop :=
  st.state = (fs.state : Int) ∧ st.count = (fs.count : Int) ∧ fs.candidates = st.peaks ∧
  (st.peaks = [] → st.first = true)

/-- The relation between the peaks `out` that `detect_peaks` has written at its return
and the candidate sequence `cands`: `out` is a prefix of `cands`, and it is full, or
all of `cands`, or followed by a candidate that violates the spacing. -/
def SlopeCut (out cands : List Nat) : Prop :=
  ∃ more, cands = out ++ more ∧
    (out.length = N_PEAKS ∨ more = [] ∨
      ∃ c rest l, more = c :: rest ∧ out.getLast? = some l ∧ ¬ peakGap l c)

end SignalAnalyzer

/-! ## Lemmas on the machine arithmetic -/

theorem u64add_of_lt {a b : Nat} (h : a + b < U64_MOD) : u64add a b = a + b := by
  unfold u64add
  exact Nat.mod_eq_of_lt h

theorem u64add_le (a b : Nat) : u64add a b ≤ a + b := by
  unfold u64add
  exact Nat.mod_le _ _

theorem u64add_lt (a b : Nat) : u64add a b < U64_MOD := by
  unfold u64add
  exact Nat.mod_lt _ (by unfold U64_MOD; omega)

theorem u64sub_of_le {a b : Nat} (ha : a < U64_MOD) (h : b ≤ a) : u64sub a b = a - b := by
  unfold u64sub U64_MOD at *
  omega

theorem u64sub_lt (a b : Nat) : u64sub a b < U64_MOD := by
  unfold u64sub
  exact Nat.mod_lt _ (by unfold U64_MOD; omega)

theorem intToU64_of_nonneg {x : Int} (h0 : 0 ≤ x) (h1 : x < 2147483648) :
    intToU64 x = x.toNat := by
  unfold intToU64 U64_MOD
  rw [Int.emod_eq_of_lt h0 (by push_cast; omega)]

theorem FrameRingTracker.onFramesProduced_writeIndex (t : FrameRingTracker) (frames : Nat) :
    (t.onFramesProduced frames).writeIndex = u64add t.writeIndex frames := by
  unfold FrameRingTracker.onFramesProduced
  dsimp only
  split <;> rfl

theorem FrameRingTracker.onFramesProduced_ringFrames (t : FrameRingTracker) (frames : Nat) :
    (t.onFramesProduced frames).ringFrames = t.ringFrames := by
  unfold FrameRingTracker.onFramesProduced
  dsimp only
  split <;> rfl

/-! ## The overrun rule -/

/-- C1. Overrun rule of `syncReadPointer` and of `FrameRingTracker::onFramesProduced`:
when the write index exceeds read index plus ring capacity, one call sets the read
index to exactly write index minus ring capacity; when the write index is at most
the sum the code compares it with (the 64-bit sum, which is the plain sum whenever
that stays below `2 ^ 64`), the read index is left unchanged. For the tracker the
write index is the one just advanced by the call. -/
theorem overrun_rule (readIndex writeIndex : Nat) (ringFrames : Int)
    (t : FrameRingTracker) (frames : Nat)
    (hw : writeIndex < U64_MOD) (hring : 0 ≤ ringFrames ∧ ringFrames < 2147483648) :
    (writeIndex > readIndex + ringFrames.toNat →
        syncReadPointer readIndex writeIndex ringFrames = writeIndex - ringFrames.toNat) ∧
    (writeIndex ≤ u64add readIndex ringFrames.toNat →
        syncReadPointer readIndex writeIndex ringFrames = readIndex) ∧
    (readIndex + ringFrames.toNat < U64_MOD → writeIndex ≤ readIndex + ringFrames.toNat →
        syncReadPointer readIndex writeIndex ringFrames = readIndex) ∧
    ((t.onFramesProduced frames).writeIndex = u64add t.writeIndex frames) ∧
    ((t.onFramesProduced frames).writeIndex > t.logicalReadIndex + t.ringFrames →
        (t.onFramesProduced frames).logicalReadIndex
          = (t.onFramesProduced frames).writeIndex - t.ringFrames) ∧
    ((t.onFramesProduced frames).writeIndex ≤ u64add t.logicalReadIndex t.ringFrames →
        (t.onFramesProduced frames).logicalReadIndex = t.logicalReadIndex) ∧
    (t.logicalReadIndex + t.ringFrames < U64_MOD →
      (t.onFramesProduced frames).writeIndex ≤ t.logicalReadIndex + t.ringFrames →
        (t.onFramesProduced frames).logicalReadIndex = t.logicalReadIndex) := by
  have hc : intToU64 ringFrames = ringFrames.toNat := intToU64_of_nonneg hring.1 hring.2
  have hn : ringFrames.toNat < 2147483648 := by omega
  have hsync_hi : writeIndex > readIndex + ringFrames.toNat →
      syncReadPointer readIndex writeIndex ringFrames = writeIndex - ringFrames.toNat := by
    intro h
    have h1 : u64add readIndex ringFrames.toNat = readIndex + ringFrames.toNat :=
      u64add_of_lt (by omega)
    unfold syncReadPointer
    rw [hc, h1, if_pos h, u64sub_of_le hw (by omega)]
  have hsync_lo : writeIndex ≤ u64add readIndex ringFrames.toNat →
      syncReadPointer readIndex writeIndex ringFrames = readIndex := by
    intro h
    unfold syncReadPointer
    rw [hc, if_neg (by omega)]
  have hwlt : u64add t.writeIndex frames < U64_MOD := u64add_lt _ _
  have hprod_hi : (t.onFramesProduced frames).writeIndex > t.logicalReadIndex + t.ringFrames →
      (t.onFramesProduced frames).logicalReadIndex
        = (t.onFramesProduced frames).writeIndex - t.ringFrames := by
    unfold FrameRingTracker.onFramesProduced
    by_cases hcond : u64add t.writeIndex frames > u64add t.logicalReadIndex t.ringFrames
    · simp only [hcond, if_true]
      intro h
      exact u64sub_of_le hwlt (by omega)
    · simp only [hcond, if_false]
      intro h
      have h1 : u64add t.logicalReadIndex t.ringFrames = t.logicalReadIndex + t.ringFrames :=
        u64add_of_lt (by omega)
      omega
  have hprod_lo : (t.onFramesProduced frames).writeIndex ≤ u64add t.logicalReadIndex t.ringFrames →
      (t.onFramesProduced frames).logicalReadIndex = t.logicalReadIndex := by
    unfold FrameRingTracker.onFramesProduced
    by_cases hcond : u64add t.writeIndex frames > u64add t.logicalReadIndex t.ringFrames
    · simp only [hcond, if_true]
      intro h
      omega
    · simp only [hcond, if_false]
      intro _
      trivial
  refine ⟨hsync_hi, hsync_lo, ?_, ?_, hprod_hi, hprod_lo, ?_⟩
  · intro h1 h2
    exact hsync_lo (by rw [u64add_of_lt h1]; exact h2)
  · exact FrameRingTracker.onFramesProduced_writeIndex t frames
  · intro h1 h2
    exact hprod_lo (by rw [u64add_of_lt h1]; exact h2)

/-- Instance of the overrun rule: read index 100, write index 5000, ring of 1024
frames; a tracker at write index 900 that is told of 200 more frames. -/
theorem overrun_rule_witness :
    syncReadPointer 100 5000 1024 = 3976 ∧ syncReadPointer 4000 5000 1024 = 4000 ∧
    ((FrameRingTracker.mk 1024 900 0 0).onFramesProduced 200).logicalReadIndex = 76 := by
  have h := overrun_rule 100 5000 1024 (FrameRingTracker.mk 1024 900 0 0) 200
    (by decide) (by decide)
  have h2 := overrun_rule 4000 5000 1024 (FrameRingTracker.mk 1024 900 0 0) 200
    (by decide) (by decide)
  refine ⟨h.1 (by decide), h2.2.1 (by decide), ?_⟩
  have h3 := h.2.2.2.2.1 (by decide)
  rw [h3]
  decide

/-! ## Invariants of the tracker over call sequences -/

theorem FrameRingTracker.onFramesProduced_of_lt (t : FrameRingTracker) (frames : Nat)
    (hw : t.writeIndex + frames < U64_MOD) (hl : t.logicalReadIndex + t.ringFrames < U64_MOD) :
    (t.onFramesProduced frames).writeIndex = t.writeIndex + frames ∧
    (t.onFramesProduced frames).logicalReadIndex
      = (if t.writeIndex + frames > t.logicalReadIndex + t.ringFrames
          then t.writeIndex + frames - t.ringFrames else t.logicalReadIndex) ∧
    (t.onFramesProduced frames).ringFrames = t.ringFrames := by
  unfold FrameRingTracker.onFramesProduced
  dsimp only
  rw [u64add_of_lt hw, u64add_of_lt hl]
  split
  · rename_i h
    refine ⟨rfl, ?_, rfl⟩
    show u64sub (t.writeIndex + frames) t.ringFrames = _
    rw [u64sub_of_le hw (by omega)]
  · exact ⟨rfl, rfl, rfl⟩

theorem FrameRingTracker.onFramesRead_of_lt (t : FrameRingTracker) (frames : Nat)
    (hl : t.logicalReadIndex + frames < U64_MOD) :
    (t.onFramesRead frames).writeIndex = t.writeIndex ∧
    (t.onFramesRead frames).logicalReadIndex = t.logicalReadIndex + frames ∧
    (t.onFramesRead frames).ringFrames = t.ringFrames := by
  unfold FrameRingTracker.onFramesRead
  dsimp only
  rw [u64add_of_lt hl]
  exact ⟨rfl, rfl, rfl⟩

/-- After `onFramesProduced` the write index is at most one ring capacity ahead of
the logical read index, whatever the state before the call. -/
theorem FrameRingTracker.onFramesProduced_lag (t : FrameRingTracker) (frames : Nat)
    (hring : t.ringFrames < U64_MOD) :
    (t.onFramesProduced frames).writeIndex
      ≤ (t.onFramesProduced frames).logicalReadIndex + t.ringFrames := by
  unfold FrameRingTracker.onFramesProduced
  dsimp only
  split
  · show u64add t.writeIndex frames
      ≤ u64sub (u64add t.writeIndex frames) t.ringFrames + t.ringFrames
    have := u64add_lt t.writeIndex frames
    unfold u64sub U64_MOD at *
    omega
  · rename_i h
    show u64add t.writeIndex frames ≤ t.logicalReadIndex + t.ringFrames
    have := u64add_le t.logicalReadIndex t.ringFrames
    omega

/-- One call, when no index can wrap: the ring lag bound is kept, the indices grow
by at most the frames of the call, and the reader stays behind the writer when the
call is not a read of frames that were never produced. -/
theorem FrameRingTracker.call_step (t : FrameRingTracker) (c : TrackerCall) (n : Nat)
    (hw : t.writeIndex + c.frames + n + t.ringFrames < U64_MOD)
    (hl : t.logicalReadIndex + c.frames + n + t.ringFrames < U64_MOD)
    (hlag : t.writeIndex ≤ t.logicalReadIndex + t.ringFrames) :
    (t.call c).ringFrames = t.ringFrames ∧
    (t.call c).writeIndex + n + t.ringFrames < U64_MOD ∧
    (t.call c).logicalReadIndex + n + t.ringFrames < U64_MOD ∧
    (t.call c).writeIndex ≤ (t.call c).logicalReadIndex + t.ringFrames ∧
    (t.logicalReadIndex ≤ t.writeIndex → t.readsWithinProduced [c] = true →
      (t.call c).logicalReadIndex ≤ (t.call c).writeIndex) := by
  cases c with
  | produced f =>
    simp only [TrackerCall.frames] at hw hl
    obtain ⟨h1, h2, h3⟩ := t.onFramesProduced_of_lt f (by omega) (by omega)
    simp only [FrameRingTracker.call]
    rw [h1, h2, h3]
    split <;> refine ⟨rfl, ?_, ?_, ?_, ?_⟩ <;> intros <;> omega
  | read f =>
    simp only [TrackerCall.frames] at hw hl
    obtain ⟨h1, h2, h3⟩ := t.onFramesRead_of_lt f (by omega)
    simp only [FrameRingTracker.call]
    rw [h1, h2, h3]
    refine ⟨rfl, by omega, by omega, by omega, ?_⟩
    intro _ hr
    simp only [FrameRingTracker.readsWithinProduced, Bool.and_true, decide_eq_true_eq] at hr
    omega

/-- The ring lag bound along a call sequence, from any state that satisfies it. -/
theorem FrameRingTracker.trace_lag (calls : List TrackerCall) :
    ∀ t : FrameRingTracker,
      t.writeIndex + totalFrames calls + t.ringFrames < U64_MOD →
      t.logicalReadIndex + totalFrames calls + t.ringFrames < U64_MOD →
      t.writeIndex ≤ t.logicalReadIndex + t.ringFrames →
      ∀ s ∈ t.trace calls,
        s.ringFrames = t.ringFrames ∧ s.writeIndex ≤ s.logicalReadIndex + s.ringFrames := by
  induction calls with
  | nil => intro t _ _ _ s hs; simp [FrameRingTracker.trace] at hs
  | cons c cs ih =>
    intro t hw hl hlag s hs
    simp only [totalFrames] at hw hl
    obtain ⟨h1, h2, h3, h4, _⟩ := t.call_step c (totalFrames cs) (by omega) (by omega) hlag
    simp only [FrameRingTracker.trace, List.mem_cons] at hs
    rcases hs with rfl | hs
    · exact ⟨h1, by rw [h1]; exact h4⟩
    · have := ih (t.call c) (by rw [h1]; omega) (by rw [h1]; omega) (by rw [h1]; exact h4) s hs
      exact ⟨this.1.trans h1, this.2⟩

/-- The reader stays behind the writer along a call sequence whose reads only report
frames already produced. -/
theorem FrameRingTracker.trace_reader_behind (calls : List TrackerCall) :
    ∀ t : FrameRingTracker,
      t.writeIndex + totalFrames calls + t.ringFrames < U64_MOD →
      t.logicalReadIndex + totalFrames calls + t.ringFrames < U64_MOD →
      t.writeIndex ≤ t.logicalReadIndex + t.ringFrames →
      t.logicalReadIndex ≤ t.writeIndex →
      t.readsWithinProduced calls = true →
      ∀ s ∈ t.trace calls, s.logicalReadIndex ≤ s.writeIndex := by
  induction calls with
  | nil => intro t _ _ _ _ _ s hs; simp [FrameRingTracker.trace] at hs
  | cons c cs ih =>
    intro t hw hl hlag hle hreads s hs
    simp only [totalFrames] at hw hl
    obtain ⟨h1, h2, h3, h4, h5⟩ := t.call_step c (totalFrames cs) (by omega) (by omega) hlag
    have hsplit : t.readsWithinProduced [c] = true ∧ (t.call c).readsWithinProduced cs = true := by
      cases c with
      | produced f =>
        simp only [FrameRingTracker.readsWithinProduced, FrameRingTracker.call] at hreads ⊢
        exact ⟨trivial, hreads⟩
      | read f =>
        simp only [FrameRingTracker.readsWithinProduced, FrameRingTracker.call,
          Bool.and_eq_true, decide_eq_true_eq, Bool.and_true] at hreads ⊢
        exact hreads
    have hle2 := h5 hle hsplit.1
    simp only [FrameRingTracker.trace, List.mem_cons] at hs
    rcases hs with rfl | hs
    · exact hle2
    · exact ih (t.call c) (by rw [h1]; omega) (by rw [h1]; omega) (by rw [h1]; exact h4)
        hle2 hsplit.2 s hs

/-- C2. Ring-lag invariant: from `reset()`, after each call of any sequence of
`onFramesProduced` / `onFramesRead` calls whose frame counts, together with the ring
capacity, stay inside the 64-bit index range, `writeIndex - logicalReadIndex` is at
most `ringFrames`: the read position is never more than one ring capacity behind
the write position. The bound is set up by every `onFramesProduced` from any state
whatever, and kept by every `onFramesRead` that does not wrap the 64-bit read
index. -/
theorem ring_lag_invariant (t : FrameRingTracker) (calls : List TrackerCall)
    (hrange : totalFrames calls + t.ringFrames < U64_MOD) :
    (∀ s ∈ t.reset.trace calls,
      (s.writeIndex : Int) - (s.logicalReadIndex : Int) ≤ (s.ringFrames : Int)) ∧
    (∀ (u : FrameRingTracker) (frames : Nat), u.ringFrames < U64_MOD →
      ((u.onFramesProduced frames).writeIndex : Int) - ((u.onFramesProduced frames).logicalReadIndex : Int)
        ≤ ((u.onFramesProduced frames).ringFrames : Int)) ∧
    (∀ (u : FrameRingTracker) (frames : Nat), u.logicalReadIndex + frames < U64_MOD →
      (u.writeIndex : Int) - (u.logicalReadIndex : Int) ≤ (u.ringFrames : Int) →
      ((u.onFramesRead frames).writeIndex : Int) - ((u.onFramesRead frames).logicalReadIndex : Int)
        ≤ ((u.onFramesRead frames).ringFrames : Int)) := by
  refine ⟨?_, ?_, ?_⟩
  · intro s hs
    have h := FrameRingTracker.trace_lag calls t.reset
      (by simp only [FrameRingTracker.reset]; omega)
      (by simp only [FrameRingTracker.reset]; omega)
      (by simp only [FrameRingTracker.reset]; omega) s hs
    omega
  · intro u frames hu
    have h := u.onFramesProduced_lag frames hu
    rw [u.onFramesProduced_ringFrames frames]
    omega
  · intro u frames hu hlag
    obtain ⟨h1, h2, h3⟩ := u.onFramesRead_of_lt frames hu
    rw [h1, h2, h3]
    omega

/-- An overrun followed by reads and more production, on a ring of 1024 frames. -/
theorem ring_lag_invariant_witness :
    totalFrames [TrackerCall.produced 5000, TrackerCall.read 300, TrackerCall.produced 900,
        TrackerCall.read 4000] + (FrameRingTracker.new 1024).ringFrames < U64_MOD ∧
    ∀ s ∈ (FrameRingTracker.new 1024).reset.trace
        [TrackerCall.produced 5000, TrackerCall.read 300, TrackerCall.produced 900,
         TrackerCall.read 4000],
      (s.writeIndex : Int) - (s.logicalReadIndex : Int) ≤ (s.ringFrames : Int) :=
  ⟨by decide, (ring_lag_invariant (FrameRingTracker.new 1024) _ (by decide)).1⟩

/-- C3, as stated, fails: right after `reset()` a single `onFramesRead(1)` puts the
logical read index at 1 while the write index is still 0. -/
theorem reader_ahead_counterexample :
    (FrameRingTracker.new 1024).reset.trace [TrackerCall.read 1]
        = [{ ringFrames := 1024, writeIndex := 0, hwReadIndex := 1, logicalReadIndex := 1 }] ∧
    ¬ (∀ s ∈ (FrameRingTracker.new 1024).reset.trace [TrackerCall.read 1],
        s.logicalReadIndex ≤ s.writeIndex) := by
  decide

/-- C3, amended. Reader-never-ahead invariant: from `reset()`, along every call
sequence in which each `onFramesRead(frames)` reports at most the frames produced
and not yet read (and whose frame counts stay inside the 64-bit index range),
`logicalReadIndex ≤ writeIndex` holds after every call. -/
theorem reader_never_ahead (t : FrameRingTracker) (calls : List TrackerCall)
    (hrange : totalFrames calls + t.ringFrames < U64_MOD)
    (hreads : t.reset.readsWithinProduced calls = true) :
    ∀ s ∈ t.reset.trace calls, s.logicalReadIndex ≤ s.writeIndex :=
  FrameRingTracker.trace_reader_behind calls t.reset
    (by simp only [FrameRingTracker.reset]; omega)
    (by simp only [FrameRingTracker.reset]; omega)
    (by simp only [FrameRingTracker.reset]; omega)
    (by simp only [FrameRingTracker.reset]; omega)
    hreads

/-- Production with an overrun, then reads of frames that exist. -/
theorem reader_never_ahead_witness :
    (FrameRingTracker.new 1024).reset.readsWithinProduced
        [TrackerCall.produced 5000, TrackerCall.read 300, TrackerCall.produced 900,
         TrackerCall.read 1024] = true ∧
    ∀ s ∈ (FrameRingTracker.new 1024).reset.trace
        [TrackerCall.produced 5000, TrackerCall.read 300, TrackerCall.produced 900,
         TrackerCall.read 1024],
      s.logicalReadIndex ≤ s.writeIndex :=
  ⟨by decide, reader_never_ahead (FrameRingTracker.new 1024) _ (by decide) (by decide)⟩

/-! ## The triggered fetch of `test_R2_v4` when the trigger has passed -/

theorem SamplerR2.discard_frames_zero (dev : Device) (fuel : Nat) (s : SamplerR2) :
    SamplerR2.discard_frames dev fuel s 0 = some (0, s) := by
  unfold SamplerR2.discard_frames
  cases fuel <;> simp [SamplerR2.discardLoop]

/-- C4, as stated, fails: with the read index 65536 frames past the trigger index the
`uint16_t` offset handed to the caller is 0, in `fetch` (here on a device that
delivers all 1280 frames) and at the head of `calculate`. -/
theorem trigger_passed_offset_counterexample :
    SamplerR2.fetch
        { i2s_read := fun _ n => { ok := true, bytesRead := n }, counter := fun _ => 100000 }
        20
        { readIndex := 65536, triggerIndex := 0, triggered := true, reads := 0, polls := 0 } 7
      = some { total_frames_read := 1280, offset := 0, discarded := 0,
               final := { readIndex := 66816, triggerIndex := 0, triggered := false,
                          reads := 10, polls := 11 } } ∧
    (Algorithm.calculateHead 65536 0).sig_offset = 0 := by
  decide

/-- C4, amended. Trigger already passed: for every triggered state with
`readIndex > triggerIndex`, the offset stored for the caller is
`(readIndex - triggerIndex) mod 2 ^ 16`, which is `readIndex - triggerIndex` itself
whenever that is below 65536, and the alignment `discard_frames` call is made with 0
and consumes nothing; `fetch` then returns what its delivery loop returns. The head
of `Algorithm::calculate` computes the same offset and skips its discard branch. -/
theorem trigger_passed_offset (dev : Device) (fuel : Nat) (s : SamplerR2) (offset : Nat)
    (hr : s.readIndex < U64_MOD) (ht : s.triggered = true)
    (hpassed : s.readIndex > s.triggerIndex) :
    SamplerR2.fetchOffset s = (0, (s.readIndex - s.triggerIndex) % U16_MOD) ∧
    SamplerR2.fetch dev fuel s offset
      = (SamplerR2.deliverLoop dev fuel { s with triggered := false, polls := s.polls + 1 } 0).map
          (fun p => { total_frames_read := p.1,
                      offset := (s.readIndex - s.triggerIndex) % U16_MOD,
                      discarded := 0, final := p.2 }) ∧
    (s.readIndex - s.triggerIndex < U16_MOD →
      (SamplerR2.fetchOffset s).2 = s.readIndex - s.triggerIndex ∧
      (Algorithm.calculateHead s.readIndex s.triggerIndex).sig_offset
        = s.readIndex - s.triggerIndex) ∧
    Algorithm.calculateHead s.readIndex s.triggerIndex
      = { frames_to_discard := 0, sig_offset := (s.readIndex - s.triggerIndex) % U16_MOD,
          discardRequest := none } := by
  have hsub : u64sub s.readIndex s.triggerIndex = s.readIndex - s.triggerIndex :=
    u64sub_of_le hr (by omega)
  have h1 : SamplerR2.fetchOffset s = (0, (s.readIndex - s.triggerIndex) % U16_MOD) := by
    unfold SamplerR2.fetchOffset
    simp only [if_pos hpassed, hsub]
  have h1' : SamplerR2.fetchOffset { s with triggered := false }
      = (0, (s.readIndex - s.triggerIndex) % U16_MOD) := by
    unfold SamplerR2.fetchOffset
    simp only [if_pos hpassed, hsub]
  have h4 : Algorithm.calculateHead s.readIndex s.triggerIndex
      = { frames_to_discard := 0, sig_offset := (s.readIndex - s.triggerIndex) % U16_MOD,
          discardRequest := none } := by
    unfold Algorithm.calculateHead
    simp only [if_pos hpassed, hsub]
  refine ⟨h1, ?_, ?_, h4⟩
  · unfold SamplerR2.fetch
    simp only [ht, Bool.true_eq_false, if_false, h1', Nat.zero_mod,
      SamplerR2.discard_frames_zero]
    cases SamplerR2.deliverLoop dev fuel { s with triggered := false, polls := s.polls + 1 } 0 with
    | none => rfl
    | some p => rfl
  · intro hlt
    rw [h1, h4]
    exact ⟨Nat.mod_eq_of_lt hlt, Nat.mod_eq_of_lt hlt⟩

/-- The read index 1000 frames past the trigger index. -/
theorem trigger_passed_offset_witness :
    SamplerR2.fetchOffset
        { readIndex := 5000, triggerIndex := 4000, triggered := true, reads := 0, polls := 0 }
      = (0, 1000) ∧
    (Algorithm.calculateHead 5000 4000).sig_offset = 1000 :=
  have h := trigger_passed_offset
    { i2s_read := fun _ n => { ok := true, bytesRead := n }, counter := fun _ => 100000 } 20
    { readIndex := 5000, triggerIndex := 4000, triggered := true, reads := 0, polls := 0 } 0
    (by decide) rfl (by decide)
  ⟨h.1, (h.2.2.1 (by decide)).2⟩

/-! ## `discard_frames` of `test_R2_v4` on a source that makes no progress -/

theorem SamplerR2.read_frames_zero_progress (dev : Device)
    (hzero : ∀ k n, (dev.i2s_read k n).ok = false ∨ (dev.i2s_read k n).bytesRead = 0)
    (fuel : Nat) (s : SamplerR2) (frames : Nat) :
    SamplerR2.read_frames dev fuel s frames = none ∨
      ∃ s1, SamplerR2.read_frames dev fuel s frames = some (0, s1) := by
  unfold SamplerR2.read_frames
  by_cases hf : frames = 0
  · right
    exact ⟨s, by simp [hf]⟩
  · simp only [hf, if_false]
    cases hwait : SamplerR2.waitLoop dev fuel s frames with
    | none => left; rfl
    | some s1 =>
      right
      simp only [hzero, if_true]
      exact ⟨_, rfl⟩

/-- With a source that never makes progress the loop of `discard_frames` is never
left: whatever the fuel, the run does not reach the `return`. -/
theorem SamplerR2.discardLoop_zero_progress (dev : Device)
    (hzero : ∀ k n, (dev.i2s_read k n).ok = false ∨ (dev.i2s_read k n).bytesRead = 0)
    (n : Nat) (hn : 0 < n) :
    ∀ (fuel : Nat) (s : SamplerR2), SamplerR2.discardLoop dev fuel s n 0 = none := by
  intro fuel
  induction fuel with
  | zero => intro s; simp [SamplerR2.discardLoop, hn]
  | succ fuel ih =>
    intro s
    unfold SamplerR2.discardLoop
    simp only [hn, if_true]
    rcases SamplerR2.read_frames_zero_progress dev hzero (fuel + 1) s
        (if n - 0 > SamplerR2.FRAMES_PER_READ then SamplerR2.FRAMES_PER_READ else n - 0) with
      h | ⟨s1, h⟩
    · rw [h]
    · rw [h]
      simpa using ih s1

/-- C7, the code at the failing input: `read_frames` returns 0 on a source whose
`i2s_read` reports zero bytes, and `discard_frames(1)` then never returns: it keeps
retrying instead of stopping early with the count consumed so far. On a source that
keeps delivering, `discard_frames(300)` returns 300 and has advanced the read index
by 300. -/
theorem discard_frames_zero_progress_never_returns (fuel : Nat) :
    SamplerR2.read_frames
        { i2s_read := fun _ _ => { ok := true, bytesRead := 0 }, counter := fun _ => 1000 }
        1 { readIndex := 0, triggerIndex := 0, triggered := false, reads := 0, polls := 0 } 1
      = some (0, { readIndex := 0, triggerIndex := 0, triggered := false, reads := 1, polls := 1 }) ∧
    SamplerR2.discard_frames
        { i2s_read := fun _ _ => { ok := true, bytesRead := 0 }, counter := fun _ => 1000 }
        fuel { readIndex := 0, triggerIndex := 0, triggered := false, reads := 0, polls := 0 } 1
      = none ∧
    SamplerR2.discard_frames
        { i2s_read := fun _ n => { ok := true, bytesRead := n }, counter := fun _ => 1000 }
        3 { readIndex := 0, triggerIndex := 0, triggered := false, reads := 0, polls := 0 } 300
      = some (300, { readIndex := 300, triggerIndex := 0, triggered := false, reads := 3,
                     polls := 3 }) :=
  ⟨by decide, SamplerR2.discardLoop_zero_progress _ (fun _ _ => Or.inr rfl) 1 (by decide) fuel _,
    by decide⟩

/-! ## `Sampler::fetch` of `ESP32 Kode/Sampler` -/

theorem u64add_assoc_mod (a b c : Nat) : u64add (u64add a b) c = u64add a (b + c) := by
  unfold u64add U64_MOD
  omega

theorem u64add_zero {a : Nat} (h : a < U64_MOD) : u64add a 0 = a := by
  unfold u64add
  exact Nat.mod_eq_of_lt h

/-- The discard loop on a source that returns every chunk in full: it consumes
exactly the requested frames, sixteen at a time. -/
theorem Sampler.discardLoop_full (dev : Device) (hfull : dev.full) :
    ∀ (fuel : Nat) (s : Sampler) (n : Nat), n ≤ fuel → n < U32_MOD → s.readIndex < U64_MOD →
      Sampler.discardLoop dev fuel s n
        = some { s with readIndex := u64add s.readIndex n, reads := s.reads + (n + 15) / 16,
                        bytesIn := s.bytesIn + 8 * n } := by
  intro fuel
  induction fuel with
  | zero =>
    intro s n hn _ hr
    have h0 : n = 0 := by omega
    subst h0
    simp [Sampler.discardLoop, u64add_zero hr]
  | succ fuel ih =>
    intro s n hn hn32 hr
    unfold Sampler.discardLoop
    by_cases h0 : n = 0
    · subst h0
      simp [u64add_zero hr]
    · have hpos : n > 0 := by omega
      simp only [hpos, if_true, Sampler.DISCARD_BUF_BYTES, Sampler.BYTES_PER_FRAME, hfull _ _]
      by_cases h16 : n < 16
      · have hb : (n * 8) % U32_MOD = n * 8 := Nat.mod_eq_of_lt (by unfold U32_MOD; omega)
        have hd : n * 8 / 8 = n := by omega
        simp [h16, hb, hd, h0]
        rw [ih _ 0 (by omega) (by unfold U32_MOD; omega) (u64add_lt _ _)]
        simp [u64add_assoc_mod]
        omega
      · have hb : (16 * 8) % U32_MOD = 128 := by decide
        simp [h16, hb]
        rw [ih _ (n - 16) (by omega) (by omega) (u64add_lt _ _)]
        simp [u64add_assoc_mod]
        refine ⟨?_, ?_, ?_⟩
        · congr 1; omega
        · omega
        · omega

/-- The delivery loop on a source that returns every chunk in full: it delivers all
requested frames, thirty-two at a time. -/
theorem Sampler.deliverLoop_full (dev : Device) (hfull : dev.full) :
    ∀ (fuel : Nat) (s : Sampler) (req total : Nat), total ≤ req → req - total ≤ fuel →
      req < U32_MOD → s.readIndex < U64_MOD →
      Sampler.deliverLoop dev fuel s req total
        = some (req, { s with readIndex := u64add s.readIndex (req - total),
                              reads := s.reads + (req - total + 31) / 32,
                              bytesIn := s.bytesIn + 8 * (req - total) }) := by
  intro fuel
  induction fuel with
  | zero =>
    intro s req total hle hfuel _ hr
    have h0 : total = req := by omega
    subst h0
    simp [Sampler.deliverLoop, u64add_zero hr]
  | succ fuel ih =>
    intro s req total hle hfuel hreq hr
    unfold Sampler.deliverLoop
    by_cases h0 : total = req
    · subst h0
      simp [u64add_zero hr]
    · have hlt : total < req := by omega
      simp only [hlt, if_true, Sampler.MAX_FRAMES_PER_READ, Sampler.BYTES_PER_FRAME, hfull _ _]
      by_cases h32 : req - total > 32
      · have hb : (32 * 8) % U32_MOD = 256 := by decide
        have ht : (total + 32) % U32_MOD = total + 32 :=
          Nat.mod_eq_of_lt (by unfold U32_MOD at *; omega)
        simp [h32, hb, ht]
        rw [ih _ req (total + 32) (by omega) (by omega) hreq (u64add_lt _ _)]
        simp [u64add_assoc_mod]
        refine ⟨?_, ?_, ?_⟩
        · congr 1; omega
        · omega
        · omega
      · have hb : ((req - total) * 8) % U32_MOD = (req - total) * 8 :=
          Nat.mod_eq_of_lt (by unfold U32_MOD; omega)
        have hd : (req - total) * 8 / 8 = req - total := by omega
        have hm : (req - total) * 8 % 8 = 0 := by omega
        have ht : (total + (req - total)) % U32_MOD = req := by
          rw [Nat.mod_eq_of_lt (by omega)]; omega
        have hne : req - total ≠ 0 := by omega
        simp [h32, hb, hd, hm, ht, hne]
        rw [ih _ req req (le_refl _) (by omega) hreq (u64add_lt _ _)]
        simp [u64add_assoc_mod]
        omega

/-- The discard loop ends on every source that hands out whole frames, and touches
neither the trigger state nor the ring capacity. -/
theorem Sampler.discardLoop_wholeFrames (dev : Device) (hw : dev.wholeFrames) :
    ∀ (fuel : Nat) (s : Sampler) (n : Nat), n ≤ fuel → s.readIndex < U64_MOD →
      ∃ s1, Sampler.discardLoop dev fuel s n = some s1 ∧ s1.readIndex < U64_MOD ∧
        s1.triggered = s.triggered ∧
        s1.alignedAfterTrigger = s.alignedAfterTrigger ∧ s1.triggerFrame = s.triggerFrame ∧
        s1.ringFrames = s.ringFrames ∧ s1.polls = s.polls := by
  intro fuel
  induction fuel with
  | zero =>
    intro s n hn hlt
    have h0 : n = 0 := by omega
    subst h0
    exact ⟨s, by simp [Sampler.discardLoop], hlt, rfl, rfl, rfl, rfl, rfl⟩
  | succ fuel ih =>
    intro s n hn hlt
    unfold Sampler.discardLoop
    by_cases h0 : n > 0
    · simp only [h0, if_true, Sampler.DISCARD_BUF_BYTES, Sampler.BYTES_PER_FRAME]
      generalize hr : dev.i2s_read s.reads
        ((if n < 128 / 8 then n else 128 / 8) * 8 % U32_MOD) = r
      have hr8 : r.bytesRead % 8 = 0 := by
        rw [← hr]
        exact (hw _ _).2 (by unfold U32_MOD; omega)
      by_cases hbreak : r.ok = false ∨ r.bytesRead = 0
      · simp only [hbreak, if_true]
        exact ⟨_, rfl, hlt, rfl, rfl, rfl, rfl, rfl⟩
      · simp only [hbreak, if_false]
        have hpos : r.bytesRead / 8 ≥ 1 := by
          have : r.bytesRead ≠ 0 := fun h => hbreak (Or.inr h)
          omega
        simp only [show ¬ (128 / 8 = 0) by decide, if_false]
        split
        · exact ih _ 0 (by omega) (u64add_lt _ _)
        · exact ih _ (n - r.bytesRead / 8) (by omega) (u64add_lt _ _)
    · simp only [h0, if_false]
      exact ⟨s, rfl, hlt, rfl, rfl, rfl, rfl, rfl⟩

/-- The delivery loop ends on every source that never returns more bytes than asked
for; it advances the read index by exactly the frames it adds to `totalFramesOut`,
and touches neither the trigger state nor the ring capacity. -/
theorem Sampler.deliverLoop_contract (dev : Device)
    (hc : ∀ k n, (dev.i2s_read k n).bytesRead ≤ n) :
    ∀ (fuel : Nat) (s : Sampler) (req total : Nat), total ≤ req → req - total ≤ fuel →
      req < U32_MOD → s.readIndex < U64_MOD →
      ∃ out s1, Sampler.deliverLoop dev fuel s req total = some (out, s1) ∧
        total ≤ out ∧ out ≤ req ∧ s1.readIndex = u64add s.readIndex (out - total) ∧
        s1.triggered = s.triggered ∧ s1.alignedAfterTrigger = s.alignedAfterTrigger ∧
        s1.triggerFrame = s.triggerFrame ∧ s1.ringFrames = s.ringFrames := by
  intro fuel
  induction fuel with
  | zero =>
    intro s req total hle hfuel _ hr
    have h0 : ¬ total < req := by omega
    exact ⟨total, s, by simp [Sampler.deliverLoop, h0], le_refl _, hle,
      by simp [u64add_zero hr], rfl, rfl, rfl, rfl⟩
  | succ fuel ih =>
    intro s req total hle hfuel hreq hr
    unfold Sampler.deliverLoop
    by_cases hlt : total < req
    · simp only [hlt, if_true, Sampler.MAX_FRAMES_PER_READ, Sampler.BYTES_PER_FRAME]
      generalize hb : (if req - total > 32 then 32 else req - total) * 8 % U32_MOD = bytes
      have hbytes : bytes ≤ (req - total) * 8 ∧ bytes ≤ 256 := by
        rw [← hb]
        split <;> (unfold U32_MOD; omega)
      generalize hres : dev.i2s_read s.reads bytes = r
      have hrle : r.bytesRead ≤ bytes := by rw [← hres]; exact hc _ _
      by_cases hbreak : r.ok = false ∨ r.bytesRead = 0
      · simp only [hbreak, if_true]
        exact ⟨total, _, rfl, le_refl _, hle, by simp [u64add_zero hr], rfl, rfl, rfl, rfl⟩
      · simp only [hbreak, if_false]
        by_cases hz : r.bytesRead / 8 = 0
        · simp only [hz, if_true]
          exact ⟨total, _, rfl, le_refl _, hle, by simp [u64add_zero hr], rfl, rfl, rfl, rfl⟩
        · simp only [hz, if_false]
          have ht : (total + r.bytesRead / 8) % U32_MOD = total + r.bytesRead / 8 :=
            Nat.mod_eq_of_lt (by unfold U32_MOD at *; omega)
          rw [ht]
          by_cases hrem : r.bytesRead % 8 ≠ 0
          · rw [if_pos hrem]
            refine ⟨_, _, rfl, by omega, by omega, ?_, rfl, rfl, rfl, rfl⟩
            show u64add s.readIndex (r.bytesRead / 8) = _
            congr 1
            omega
          · rw [if_neg hrem]
            obtain ⟨out, s1, h1, h2, h3, h4, h5⟩ :=
              ih (Sampler.mk s.triggered s.alignedAfterTrigger s.triggerFrame
                    (u64add s.readIndex (r.bytesRead / 8)) s.ringFrames (s.reads + 1) s.polls
                    (s.bytesIn + r.bytesRead))
                req (total + r.bytesRead / 8) (by omega) (by omega) hreq (u64add_lt _ _)
            refine ⟨out, s1, h1, by omega, h3, ?_, h5⟩
            rw [h4]
            simp only [u64add_assoc_mod]
            congr 1
            omega
    · simp only [hlt, if_false]
      exact ⟨total, s, rfl, le_refl _, hle, by simp [u64add_zero hr], rfl, rfl, rfl, rfl⟩

/-- With the trigger inside the ring, the read index that `syncReadPointer` leaves
is at most the trigger frame and at most one ring capacity before it. -/
theorem syncReadPointer_inside (r w T : Nat) (ring : Int)
    (hring : 0 ≤ ring ∧ ring < 2147483648) (hw : w < U64_MOD) (hr : r ≤ T)
    (h1 : w ≤ T + ring.toNat) (h2 : T ≤ w) :
    syncReadPointer r w ring ≤ T ∧ T ≤ syncReadPointer r w ring + ring.toNat ∧
    (w ≤ r + ring.toNat → r + ring.toNat < U64_MOD → syncReadPointer r w ring = r) := by
  have hn : ring.toNat < 2147483648 := by omega
  unfold syncReadPointer
  rw [intToU64_of_nonneg hring.1 hring.2]
  unfold u64add u64sub U64_MOD at *
  split <;> refine ⟨?_, ?_, ?_⟩ <;> intros <;> omega

/-- C5. Trigger alignment of `Sampler::fetch` over a source that returns every chunk
in full: when the first fetch after `trigger()` (non-null `dest`, a positive frame
count) finds the read index at or before the trigger frame and the trigger still
inside the ring, then, given fuel for the iterations, `fetch` returns; its discard
phase consumes exactly `triggerFrame - readIndex` frames, `readIndex` being the read
index the overrun sync leaves (the one at the call when there is no overrun), so the
read index equals `triggerFrame` when delivery starts, and the delivered frames are
the `framesRequested` frames from `triggerFrame` on. -/
theorem trigger_alignment (dev : Device) (fuel : Nat) (s : Sampler) (framesRequested : Nat)
    (hfull : dev.full)
    (htrig : s.triggered = true) (hfirst : s.alignedAfterTrigger = false)
    (hreq : 0 < framesRequested ∧ framesRequested < U32_MOD)
    (hring : 0 ≤ s.ringFrames ∧ s.ringFrames < 2147483648)
    (hw : dev.counter s.polls < U64_MOD)
    (hread : s.readIndex ≤ s.triggerFrame)
    (hinside : dev.counter s.polls ≤ s.triggerFrame + s.ringFrames.toNat ∧
      s.triggerFrame ≤ dev.counter s.polls)
    (hfuel : s.ringFrames.toNat ≤ fuel ∧ framesRequested ≤ fuel) :
    ∃ run, Sampler.fetch dev fuel s false framesRequested = some run ∧
      run.afterSync.readIndex = syncReadPointer s.readIndex (dev.counter s.polls) s.ringFrames ∧
      (dev.counter s.polls ≤ s.readIndex + s.ringFrames.toNat →
        s.readIndex + s.ringFrames.toNat < U64_MOD → run.afterSync.readIndex = s.readIndex) ∧
      run.afterSync.readIndex ≤ s.triggerFrame ∧
      run.afterAlign.bytesIn = s.bytesIn + 8 * (s.triggerFrame - run.afterSync.readIndex) ∧
      run.afterAlign.readIndex = s.triggerFrame ∧
      run.afterAlign.alignedAfterTrigger = true ∧
      run.totalFramesOut = framesRequested ∧
      run.final.readIndex = u64add s.triggerFrame framesRequested ∧
      run.final.bytesIn = run.afterAlign.bytesIn + 8 * framesRequested := by
  obtain ⟨hs1, hs2, hs3⟩ := syncReadPointer_inside s.readIndex (dev.counter s.polls)
    s.triggerFrame s.ringFrames hring hw hread hinside.1 hinside.2
  have hn : s.ringFrames.toNat < 2147483648 := by omega
  have hT : s.triggerFrame < U64_MOD := by omega
  generalize hR : syncReadPointer s.readIndex (dev.counter s.polls) s.ringFrames = R at hs1 hs2 hs3
  have hRlt : R < U64_MOD := by omega
  have hsub : u64sub s.triggerFrame R = s.triggerFrame - R := u64sub_of_le hT hs1
  have hpre : (if s.triggerFrame > R then
        if u64sub s.triggerFrame R > intToU64 s.ringFrames then intToU64 s.ringFrames
        else u64sub s.triggerFrame R
      else 0) = s.triggerFrame - R := by
    rw [hsub, intToU64_of_nonneg hring.1 hring.2]
    split
    · rw [if_neg (by omega)]
    · omega
  have hdisc := Sampler.discardLoop_full dev hfull fuel
    (Sampler.mk s.triggered false s.triggerFrame R s.ringFrames s.reads (s.polls + 1) s.bytesIn)
    (s.triggerFrame - R) (by omega) (by unfold U32_MOD; omega) hRlt
  have hTR : u64add R (s.triggerFrame - R) = s.triggerFrame := by
    rw [u64add_of_lt (by omega)]; omega
  simp only [hTR] at hdisc
  have hdel := fun st h => Sampler.deliverLoop_full dev hfull fuel st framesRequested 0
    (by omega) (by omega) hreq.2 h
  unfold Sampler.fetch
  have hguard : ¬ (s.triggered = false ∨ false = true ∨ framesRequested = 0) := by
    rw [htrig]
    simp
    omega
  simp only [hguard, if_false, hR, hfirst, if_true, hpre]
  rw [hdisc]
  simp only [Option.map_some']
  rw [hdel _ hT]
  exact ⟨_, rfl, rfl, hs3, hs1, rfl, rfl, rfl, rfl, rfl, rfl⟩

/-- A first fetch that finds the read index an overrun behind: ring of 1024 frames,
trigger at frame 1500, counter at 2000, 64 frames requested. -/
theorem trigger_alignment_witness :
    ∃ run, Sampler.fetch
        { i2s_read := fun _ n => { ok := true, bytesRead := n }, counter := fun _ => 2000 } 2000
        { triggered := true, alignedAfterTrigger := false, triggerFrame := 1500, readIndex := 0,
          ringFrames := 1024, reads := 0, polls := 0, bytesIn := 0 } false 64 = some run ∧
      run.afterSync.readIndex = 976 ∧ run.afterAlign.readIndex = 1500 ∧
      run.afterAlign.bytesIn = 8 * 524 ∧ run.totalFramesOut = 64 ∧
      run.final.readIndex = 1564 := by
  obtain ⟨run, h1, h2, _, _, h5, h6, _, h8, h9, _⟩ := trigger_alignment
    { i2s_read := fun _ n => { ok := true, bytesRead := n }, counter := fun _ => 2000 } 2000
    { triggered := true, alignedAfterTrigger := false, triggerFrame := 1500, readIndex := 0,
      ringFrames := 1024, reads := 0, polls := 0, bytesIn := 0 } 64
    (fun _ _ => rfl) rfl rfl (by decide) (by decide) (by decide) (by decide) (by decide)
    (by decide)
  have h2' : run.afterSync.readIndex = 976 := by rw [h2]; decide
  refine ⟨run, h1, h2', h6, ?_, h8, ?_⟩
  · rw [h5, h2']
    rfl
  · rw [h9]; decide

/-! ## The armed / aligned state machine of `Sampler` -/

theorem syncReadPointer_lt (r w : Nat) (ring : Int) (hr : r < U64_MOD) :
    syncReadPointer r w ring < U64_MOD := by
  unfold syncReadPointer
  split
  · exact u64sub_lt _ _
  · exact hr

theorem intToU64_lt (x : Int) : intToU64 x < U64_MOD := by
  unfold intToU64 U64_MOD
  have h := Int.emod_lt_of_pos x (show (0 : Int) < ((18446744073709551616 : Nat) : Int) by decide)
  have h0 := Int.emod_nonneg x (show (((18446744073709551616 : Nat) : Int)) ≠ 0 by decide)
  omega

/-- C6, as stated, fails: a first fetch after `trigger()` that asks for zero frames
returns at the argument guard and leaves `alignedAfterTrigger` clear, so the fetch
after it still performs the alignment discard: it returns 64 frames and moves the
read index by 164. -/
theorem aligned_state_machine_counterexample :
    (Sampler.fetch
        { i2s_read := fun _ n => { ok := true, bytesRead := n }, counter := fun _ => 2000 } 2000
        (Sampler.trigger
          { i2s_read := fun _ n => { ok := true, bytesRead := n }, counter := fun _ => 2000 }
          { triggered := false, alignedAfterTrigger := true, triggerFrame := 0, readIndex := 1900,
            ringFrames := 1024, reads := 0, polls := 0, bytesIn := 0 })
        false 0).map (fun run => (run.final, run.totalFramesOut))
      = some ({ triggered := true, alignedAfterTrigger := false, triggerFrame := 2000,
                readIndex := 1900, ringFrames := 1024, reads := 0, polls := 1, bytesIn := 0 }, 0) ∧
    (Sampler.fetch
        { i2s_read := fun _ n => { ok := true, bytesRead := n }, counter := fun _ => 2000 } 2000
        { triggered := true, alignedAfterTrigger := false, triggerFrame := 2000,
          readIndex := 1900, ringFrames := 1024, reads := 0, polls := 1, bytesIn := 0 }
        false 64).map
          (fun run => (run.afterSync.readIndex, run.afterAlign.readIndex, run.final.readIndex,
            run.totalFramesOut))
      = some (1900, 2000, 2064, 64) := by
  decide

/-- C6, amended. `trigger()` always sets `triggered` and clears `alignedAfterTrigger`.
On a source that hands out whole frames every `fetch` returns, given fuel for the
iterations. A fetch that the argument guard turns away (not triggered, null `dest`
or zero frames) returns 0 and changes nothing; every other fetch leaves
`alignedAfterTrigger` set. A fetch made while `alignedAfterTrigger` is set performs
no alignment discard, and in every fetch the delivery advances the read index by
exactly the number of frames returned, so apart from the overrun sync a fetch in the
aligned state advances `readIndex` by exactly the frames it returns. -/
theorem aligned_state_machine (dev : Device) (fuel : Nat) (s : Sampler) (destNull : Bool)
    (framesRequested : Nat)
    (hw : dev.wholeFrames) (hreq : framesRequested < U32_MOD)
    (hr : s.readIndex < U64_MOD)
    (hfuel : intToU64 s.ringFrames ≤ fuel ∧ framesRequested ≤ fuel) :
    ((Sampler.trigger dev s).triggered = true ∧
      (Sampler.trigger dev s).alignedAfterTrigger = false ∧
      (Sampler.trigger dev s).triggerFrame = dev.counter s.polls ∧
      (Sampler.trigger dev s).readIndex = s.readIndex) ∧
    ∃ run, Sampler.fetch dev fuel s destNull framesRequested = some run ∧
      ((s.triggered = false ∨ destNull = true ∨ framesRequested = 0) →
        run.final = s ∧ run.totalFramesOut = 0) ∧
      (s.triggered = true → destNull = false → 0 < framesRequested →
        run.final.alignedAfterTrigger = true ∧ run.final.triggered = true ∧
        run.final.triggerFrame = s.triggerFrame ∧
        run.afterSync.readIndex
          = syncReadPointer s.readIndex (dev.counter s.polls) s.ringFrames) ∧
      (s.alignedAfterTrigger = true → run.afterAlign = run.afterSync) ∧
      run.final.readIndex = u64add run.afterAlign.readIndex run.totalFramesOut ∧
      run.totalFramesOut ≤ framesRequested := by
  refine ⟨⟨rfl, rfl, rfl, rfl⟩, ?_⟩
  by_cases hguard : s.triggered = false ∨ destNull = true ∨ framesRequested = 0
  · refine ⟨{ afterSync := s, afterAlign := s, final := s, totalFramesOut := 0 }, ?_, ?_, ?_, ?_, ?_, ?_⟩
    · unfold Sampler.fetch
      rw [if_pos hguard]
    · intro _; exact ⟨rfl, rfl⟩
    · intro h1 h2 h3
      rcases hguard with h | h | h
      · rw [h1] at h; cases h
      · rw [h2] at h; cases h
      · omega
    · intro _; rfl
    · exact (u64add_zero hr).symm
    · exact Nat.zero_le _
  · have hRlt := syncReadPointer_lt s.readIndex (dev.counter s.polls) s.ringFrames hr
    generalize hR : syncReadPointer s.readIndex (dev.counter s.polls) s.ringFrames = R at hRlt
    have hdel := fun st h => Sampler.deliverLoop_contract dev (fun k n => (hw k n).1) fuel st
      framesRequested 0 (Nat.zero_le _) (by omega) hreq h
    by_cases hal : s.alignedAfterTrigger = false
    · have hpre : (if s.triggerFrame > R then
            if u64sub s.triggerFrame R > intToU64 s.ringFrames then intToU64 s.ringFrames
            else u64sub s.triggerFrame R
          else 0) ≤ fuel := by
        split
        · split <;> omega
        · omega
      obtain ⟨s1, hd1, hd2, hd3, hd4, hd5, hd6, hd7⟩ := Sampler.discardLoop_wholeFrames dev hw fuel
        (Sampler.mk s.triggered false s.triggerFrame R s.ringFrames s.reads (s.polls + 1) s.bytesIn)
        _ hpre hRlt
      obtain ⟨out, s2, he1, he2, he3, he4, he5, he6, he7, he8⟩ :=
        hdel (Sampler.mk s1.triggered true s1.triggerFrame s1.readIndex s1.ringFrames s1.reads
          s1.polls s1.bytesIn) hd2
      refine ⟨{ afterSync := Sampler.mk s.triggered false s.triggerFrame R s.ringFrames s.reads
                  (s.polls + 1) s.bytesIn,
                afterAlign := Sampler.mk s1.triggered true s1.triggerFrame s1.readIndex
                  s1.ringFrames s1.reads s1.polls s1.bytesIn,
                final := s2, totalFramesOut := out }, ?_, ?_, ?_, ?_, ?_, ?_⟩
      · unfold Sampler.fetch
        simp only [hguard, if_false, hR, hal, if_true]
        rw [hd1]
        simp only [Option.map_some']
        rw [he1]
      · intro h; exact absurd h hguard
      · intro h1 _ _
        refine ⟨he6, ?_, ?_, rfl⟩
        · rw [he5]; exact hd3.trans h1
        · rw [he7]; exact hd5
      · intro h; rw [hal] at h; cases h
      · simpa using he4
      · exact he3
    · have hal' : s.alignedAfterTrigger = true := by
        cases h : s.alignedAfterTrigger
        · exact absurd h hal
        · rfl
      obtain ⟨out, s2, he1, he2, he3, he4, he5, he6, he7, he8⟩ :=
        hdel (Sampler.mk s.triggered true s.triggerFrame R s.ringFrames s.reads
          (s.polls + 1) s.bytesIn) hRlt
      refine ⟨{ afterSync := Sampler.mk s.triggered true s.triggerFrame R s.ringFrames s.reads
                  (s.polls + 1) s.bytesIn,
                afterAlign := Sampler.mk s.triggered true s.triggerFrame R s.ringFrames s.reads
                  (s.polls + 1) s.bytesIn,
                final := s2, totalFramesOut := out }, ?_, ?_, ?_, ?_, ?_, ?_⟩
      · unfold Sampler.fetch
        simp only [hguard, if_false, hR, hal', Bool.true_eq_false]
        rw [he1]
      · intro h; exact absurd h hguard
      · intro h1 _ _
        exact ⟨he6, by rw [he5]; exact h1, he7, rfl⟩
      · intro _; rfl
      · simpa using he4
      · exact he3

/-- A triggered, not yet aligned sampler 100 frames before its trigger frame, on a
source that returns every chunk in full: the fetch of 64 frames returns and leaves
`alignedAfterTrigger` set. -/
theorem aligned_state_machine_witness :
    ∃ run, Sampler.fetch
        { i2s_read := fun _ n => { ok := true, bytesRead := n }, counter := fun _ => 2000 } 2000
        { triggered := true, alignedAfterTrigger := false, triggerFrame := 2000,
          readIndex := 1900, ringFrames := 1024, reads := 0, polls := 1, bytesIn := 0 }
        false 64 = some run ∧
      run.final.alignedAfterTrigger = true ∧
      run.final.readIndex = u64add run.afterAlign.readIndex run.totalFramesOut := by
  obtain ⟨_, run, h1, _, h3, _, h5, _⟩ := aligned_state_machine
    { i2s_read := fun _ n => { ok := true, bytesRead := n }, counter := fun _ => 2000 } 2000
    { triggered := true, alignedAfterTrigger := false, triggerFrame := 2000,
      readIndex := 1900, ringFrames := 1024, reads := 0, polls := 1, bytesIn := 0 }
    false 64 (fun _ _ => ⟨le_refl _, fun h => h⟩) (by decide) (by decide) (by decide)
  exact ⟨run, h1, (h3 rfl rfl (by decide)).1, h5⟩

/-! ## `detect_start` -/

namespace SignalAnalyzer

section
set_option linter.unusedSectionVars false
variable {α : Type} [Zero α] [Add α] [Sub α] [Mul α] [Neg α] [LE α] [LT α]
  [DecidableRel (fun a b : α => a ≤ b)] [DecidableRel (fun a b : α => a < b)]

theorem szadd_of_lt {a b : Nat} (h : a + b < U32_MOD) : szadd a b = a + b := by
  unfold szadd
  exact Nat.mod_eq_of_lt h

/-- On a window that fits, `sum_square_window` is the energy of the specification. -/
theorem sum_square_window_eq (samples : Nat → α) (n i : Nat) (hn : n < U32_MOD)
    (hfit : i + ENERGY_WINDOW ≤ n) :
    sum_square_window samples n i = windowEnergy samples i := by
  unfold sum_square_window
  rw [szadd_of_lt (by omega)]
  have h1 : ¬ (i + ENERGY_WINDOW > n) := by omega
  simp only [h1, if_false]
  have h2 : i + ENERGY_WINDOW - i = 8 := by unfold ENERGY_WINDOW; omega
  rw [h2]
  simp [sumSquares, windowEnergy, ENERGY_WINDOW, List.range_succ, add_assoc]

/-- The coarse loop from a coarse position `p` on: it ends, with no hit at or after
`p`, or at the first hit at or after `p`. -/
theorem coarseScan_spec (samples : Nat → α) (thr : α) (n : Nat) (hn : n < 2147483648) :
    ∀ (fuel p : Nat), p % COARSE_STEP = 0 → p ≤ n + COARSE_STEP →
      n < p + ENERGY_WINDOW + COARSE_STEP * fuel →
      (coarseScan samples thr n fuel p = some none ∧
        ∀ q, p ≤ q → coarsePosition n q → ¬ thr ≤ sum_square_window samples n q) ∨
      (∃ c, coarseScan samples thr n fuel p = some (some c) ∧ p ≤ c ∧ coarsePosition n c ∧
        thr ≤ sum_square_window samples n c ∧
        ∀ q, p ≤ q → q < c → coarsePosition n q → ¬ thr ≤ sum_square_window samples n q) := by
  intro fuel
  induction fuel with
  | zero =>
    intro p hp hpn hfuel
    left
    simp only [COARSE_STEP, ENERGY_WINDOW] at hp hpn hfuel
    have h8 : szadd p 8 = p + 8 := szadd_of_lt (by unfold U32_MOD; omega)
    refine ⟨?_, ?_⟩
    · unfold coarseScan
      rw [ENERGY_WINDOW, h8, if_neg (by omega)]
    · intro q hq hc
      unfold coarsePosition COARSE_STEP ENERGY_WINDOW at hc
      omega
  | succ fuel ih =>
    intro p hp hpn hfuel
    simp only [COARSE_STEP, ENERGY_WINDOW] at hp hpn hfuel
    have h8 : szadd p 8 = p + 8 := szadd_of_lt (by unfold U32_MOD; omega)
    have h32 : szadd p 32 = p + 32 := szadd_of_lt (by unfold U32_MOD; omega)
    unfold coarseScan
    simp only [ENERGY_WINDOW, COARSE_STEP, h8, h32]
    by_cases hfit : p + 8 ≤ n
    · simp only [hfit, if_true]
      by_cases hit : thr ≤ sum_square_window samples n p
      · right
        simp only [hit, if_true]
        refine ⟨p, rfl, le_refl _, ⟨hp, hfit⟩, hit, ?_⟩
        intro q h1 h2
        omega
      · simp only [hit, if_false]
        have hrec := ih (p + 32) (by unfold COARSE_STEP; omega) (by unfold COARSE_STEP; omega)
          (by unfold COARSE_STEP ENERGY_WINDOW; omega)
        have hstep : ∀ q, p ≤ q → coarsePosition n q → q = p ∨ p + 32 ≤ q := by
          intro q hq hc
          unfold coarsePosition COARSE_STEP at hc
          omega
        rcases hrec with ⟨h1, h2⟩ | ⟨c, h1, h2, h3, h4, h5⟩
        · left
          refine ⟨h1, ?_⟩
          intro q hq hc
          rcases hstep q hq hc with rfl | h
          · exact hit
          · exact h2 q h hc
        · right
          refine ⟨c, h1, by omega, h3, h4, ?_⟩
          intro q hq hqc hc
          rcases hstep q hq hc with rfl | h
          · exact hit
          · exact h5 q h hqc hc
    · left
      simp only [hfit, if_false]
      refine ⟨trivial, ?_⟩
      intro q hq hc
      unfold coarsePosition COARSE_STEP ENERGY_WINDOW at hc
      omega

/-- The fine loop from `i` up to a coarse hit `c`: it returns the first index from `i`
on whose window reaches the threshold, and never falls through. -/
theorem fineScan_spec (samples : Nat → α) (thr : α) (n c : Nat) (hn : n < 2147483648)
    (hfit : c + ENERGY_WINDOW ≤ n) (hit : thr ≤ sum_square_window samples n c) :
    ∀ (fuel i : Nat), i ≤ c → c < i + fuel →
      ∃ j, fineScan samples thr n c fuel i = some (some j) ∧ i ≤ j ∧ j ≤ c ∧
        thr ≤ sum_square_window samples n j ∧
        ∀ k, i ≤ k → k < j → ¬ thr ≤ sum_square_window samples n k := by
  intro fuel
  induction fuel with
  | zero => intro i h1 h2; omega
  | succ fuel ih =>
    intro i hic hfuel
    unfold ENERGY_WINDOW at hfit
    have h8 : szadd i 8 = i + 8 := szadd_of_lt (by unfold U32_MOD; omega)
    have h1 : szadd i 1 = i + 1 := szadd_of_lt (by unfold U32_MOD; omega)
    unfold fineScan
    simp only [ENERGY_WINDOW, h8, h1, hic, if_true]
    rw [if_neg (by omega)]
    by_cases hi : thr ≤ sum_square_window samples n i
    · simp only [hi, if_true]
      exact ⟨i, rfl, le_refl _, hic, hi, fun k h1 h2 => by omega⟩
    · simp only [hi, if_false]
      have hne : i ≠ c := fun h => hi (h ▸ hit)
      obtain ⟨j, hj1, hj2, hj3, hj4, hj5⟩ := ih (i + 1) (by omega) (by omega)
      refine ⟨j, hj1, by omega, hj3, hj4, ?_⟩
      intro k hk1 hk2
      by_cases hki : k = i
      · rw [hki]; exact hi
      · exact hj5 k (by omega) hk2

/-- C8. Specification of `detect_start`, with `E(i) = windowEnergy samples i` the sum
of squares of `samples[i .. i + ENERGY_WINDOW)`: given fuel for its loops the call
returns; it returns false exactly when no coarse position has `E(p) ≥
signal_threshold`; and when `c` is the first coarse position with `E(c) ≥
signal_threshold` it returns true with `signal_start` the smallest index `i` of
`[max(c - COARSE_STEP, 0), c]` with `E(i) ≥ signal_threshold`, so the `return false`
after the fine scan is never reached. -/
theorem detect_start_spec (samples : Nat → α) (signal_threshold : α) (n_samples fuel : Nat)
    (hn : n_samples < 2147483648) (hfuel : n_samples ≤ fuel) :
    (detect_start samples signal_threshold n_samples fuel = some none ↔
      ∀ p, coarsePosition n_samples p → ¬ signal_threshold ≤ windowEnergy samples p) ∧
    (∀ c, coarsePosition n_samples c → signal_threshold ≤ windowEnergy samples c →
      (∀ p, p < c → coarsePosition n_samples p → ¬ signal_threshold ≤ windowEnergy samples p) →
      ∃ i, detect_start samples signal_threshold n_samples fuel = some (some i) ∧
        c - COARSE_STEP ≤ i ∧ i ≤ c ∧ signal_threshold ≤ windowEnergy samples i ∧
        ∀ j, c - COARSE_STEP ≤ j → j < i → ¬ signal_threshold ≤ windowEnergy samples j) := by
  have hn32 : n_samples < U32_MOD := by unfold U32_MOD; omega
  have hE : ∀ q, q + ENERGY_WINDOW ≤ n_samples →
      sum_square_window samples n_samples q = windowEnergy samples q :=
    fun q hq => sum_square_window_eq samples n_samples q hn32 hq
  have hfine : ∀ c, coarsePosition n_samples c →
      signal_threshold ≤ sum_square_window samples n_samples c →
      ∃ i, fineScan samples signal_threshold n_samples c fuel
          (if c ≥ COARSE_STEP then c - COARSE_STEP else c) = some (some i) ∧
        c - COARSE_STEP ≤ i ∧ i ≤ c ∧ signal_threshold ≤ windowEnergy samples i ∧
        ∀ j, c - COARSE_STEP ≤ j → j < i → ¬ signal_threshold ≤ windowEnergy samples j := by
    intro c hc hit
    have hc' := hc
    unfold coarsePosition COARSE_STEP ENERGY_WINDOW at hc'
    have hstart : (if c ≥ COARSE_STEP then c - COARSE_STEP else c) = c - COARSE_STEP := by
      unfold COARSE_STEP
      split <;> omega
    rw [hstart]
    obtain ⟨i, h1, h2, h3, h4, h5⟩ := fineScan_spec samples signal_threshold n_samples c hn hc.2 hit
      fuel (c - COARSE_STEP) (Nat.sub_le _ _) (by unfold COARSE_STEP; omega)
    refine ⟨i, h1, h2, h3, ?_, ?_⟩
    · rw [← hE i (by unfold ENERGY_WINDOW; omega)]; exact h4
    · intro j hj1 hj2
      rw [← hE j (by unfold ENERGY_WINDOW; omega)]
      exact h5 j hj1 hj2
  have hcoarse := coarseScan_spec samples signal_threshold n_samples hn fuel 0 (by decide)
    (Nat.zero_le _) (by unfold ENERGY_WINDOW COARSE_STEP; omega)
  rcases hcoarse with ⟨h1, h2⟩ | ⟨c0, h1, _, h3, h4, h5⟩
  · have hret : detect_start samples signal_threshold n_samples fuel = some none := by
      unfold detect_start
      rw [h1]
    have hnone : ∀ p, coarsePosition n_samples p → ¬ signal_threshold ≤ windowEnergy samples p := by
      intro p hp
      rw [← hE p hp.2]
      exact h2 p (Nat.zero_le _) hp
    refine ⟨⟨fun _ => hnone, fun _ => hret⟩, ?_⟩
    intro c hc hit _
    exact absurd hit (hnone c hc)
  · obtain ⟨i, hi1, hi2⟩ := hfine c0 h3 h4
    have hret : detect_start samples signal_threshold n_samples fuel = some (some i) := by
      unfold detect_start
      rw [h1]
      exact hi1
    refine ⟨⟨?_, ?_⟩, ?_⟩
    · intro h
      rw [hret] at h
      cases h
    · intro h
      exact absurd (by rw [← hE c0 h3.2]; exact h4) (h c0 h3)
    · intro c hc hit hfirst
      have hcc : c = c0 := by
        rcases Nat.lt_trichotomy c c0 with h | h | h
        · exact absurd (by rw [hE c hc.2]; exact hit) (h5 c (Nat.zero_le _) h hc)
        · exact h
        · exact absurd (by rw [← hE c0 h3.2]; exact h4) (hfirst c0 h h3)
      subst hcc
      exact ⟨i, hret, hi2⟩

end

/-- A unit step at index 40 in 100 integer samples and threshold 1: the first coarse
hit is at 64, and the fine scan reports index 33, the first window that holds a
step sample. -/
theorem detect_start_spec_witness :
    ∃ i, detect_start (fun k => if 40 ≤ k then (1 : Int) else 0) 1 100 100 = some (some i) ∧
      64 - COARSE_STEP ≤ i ∧ i ≤ 64 ∧
      (1 : Int) ≤ windowEnergy (fun k => if 40 ≤ k then (1 : Int) else 0) i ∧
      ∀ j, 64 - COARSE_STEP ≤ j → j < i →
        ¬ (1 : Int) ≤ windowEnergy (fun k => if 40 ≤ k then (1 : Int) else 0) j :=
  (detect_start_spec (fun k => if 40 ≤ k then (1 : Int) else 0) 1 100 100
    (by decide) (by decide)).2 64 (by decide) (by decide) (by decide)

/-! ## `detect_start` on a step -/

/-- A window that lies entirely before a step at `s` has energy zero. -/
theorem windowEnergy_zero_before {α : Type} [LinearOrderedRing α] (samples : Nat → α)
    (s j : Nat) (hzero : ∀ k, k < s → samples k = 0) (hj : j + ENERGY_WINDOW ≤ s) :
    windowEnergy samples j = 0 := by
  unfold ENERGY_WINDOW at hj
  have hk : ∀ k, k < 8 → samples (j + k) = 0 := fun k hk => hzero (j + k) (by omega)
  have h0 : samples j = 0 := hzero j (by omega)
  simp [windowEnergy, ENERGY_WINDOW, List.range_succ, hk, h0]

/-- C9, as stated, fails: on the integer samples that are 0 before index 40 and 1 from
there on, with threshold 1 (every window from 40 on has energy 8), `detect_start` on
100 samples reports 33, the first window that contains the step sample, not 40; and
on the first 60 samples it fails, because no coarse position at or after the step
fits. -/
theorem step_detection_counterexample :
    detect_start (fun k => if 40 ≤ k then (1 : Int) else 0) 1 100 100 = some (some 33) ∧
    detect_start (fun k => if 40 ≤ k then (1 : Int) else 0) 1 60 60 = some none ∧
    windowEnergy (fun k => if 40 ≤ k then (1 : Int) else 0) 40 = 8 := by
  decide

/-- C9, amended. Step detection in exact arithmetic: when the samples are zero before
index `s`, every window that starts at or after `s` has energy at least
`signal_threshold > 0`, and a coarse position at or after `s` fits into the array,
`detect_start` succeeds and reports an index `i` with `s - (ENERGY_WINDOW - 1) ≤ i ≤ s`
whose window reaches the threshold; it reports `s` itself when no window that
starts before `s` reaches the threshold. -/
theorem step_detection {α : Type} [LinearOrderedRing α] (samples : Nat → α)
    (signal_threshold : α) (n_samples fuel s : Nat)
    (hn : n_samples < 2147483648) (hfuel : n_samples ≤ fuel)
    (hzero : ∀ k, k < s → samples k = 0)
    (hthr : 0 < signal_threshold)
    (hstep : ∀ i, s ≤ i → i + ENERGY_WINDOW ≤ n_samples →
      signal_threshold ≤ windowEnergy samples i)
    (hcoarse : ∃ p, coarsePosition n_samples p ∧ s ≤ p) :
    ∃ i, detect_start samples signal_threshold n_samples fuel = some (some i) ∧
      s ≤ i + (ENERGY_WINDOW - 1) ∧ i ≤ s ∧ signal_threshold ≤ windowEnergy samples i ∧
      ((∀ j, j < s → ¬ signal_threshold ≤ windowEnergy samples j) → i = s) := by
  have hn32 : n_samples < U32_MOD := by unfold U32_MOD; omega
  have hE : ∀ q, q + ENERGY_WINDOW ≤ n_samples →
      sum_square_window samples n_samples q = windowEnergy samples q :=
    fun q hq => sum_square_window_eq samples n_samples q hn32 hq
  have hlow : ∀ j, signal_threshold ≤ windowEnergy samples j → s < j + ENERGY_WINDOW := by
    intro j hj
    by_contra hcon
    rw [windowEnergy_zero_before samples s j hzero (by omega)] at hj
    exact absurd hthr (not_lt_of_le hj)
  obtain ⟨p0, hp0, hsp0⟩ := hcoarse
  have hcs := coarseScan_spec samples signal_threshold n_samples hn fuel 0 (by decide)
    (Nat.zero_le _) (by unfold ENERGY_WINDOW COARSE_STEP; omega)
  rcases hcs with ⟨_, h2⟩ | ⟨c, h1, _, h3, h4, h5⟩
  · exact absurd (by rw [hE p0 hp0.2]; exact hstep p0 hsp0 hp0.2) (h2 p0 (Nat.zero_le _) hp0)
  · have h3' := h3
    unfold coarsePosition COARSE_STEP ENERGY_WINDOW at h3'
    have hcE : signal_threshold ≤ windowEnergy samples c := by rw [← hE c h3.2]; exact h4
    have hclow := hlow c hcE
    have hrange : c - COARSE_STEP ≤ s := by
      by_contra hcon
      have hcp : coarsePosition n_samples (c - COARSE_STEP) := by
        unfold coarsePosition COARSE_STEP ENERGY_WINDOW at *
        omega
      have hlt : c - COARSE_STEP < c := by unfold COARSE_STEP at *; omega
      refine absurd ?_ (h5 (c - COARSE_STEP) (Nat.zero_le _) hlt hcp)
      rw [hE _ hcp.2]
      exact hstep _ (by omega) hcp.2
    have hstart : (if c ≥ COARSE_STEP then c - COARSE_STEP else c) = c - COARSE_STEP := by
      unfold COARSE_STEP
      split <;> omega
    obtain ⟨i, hi1, hi2, hi3, hi4, hi5⟩ := fineScan_spec samples signal_threshold n_samples c hn
      h3.2 h4 fuel (c - COARSE_STEP) (Nat.sub_le _ _) (by unfold COARSE_STEP; omega)
    have hiE : signal_threshold ≤ windowEnergy samples i := by
      rw [← hE i (by unfold ENERGY_WINDOW; omega)]; exact hi4
    have hilow := hlow i hiE
    have his : i ≤ s := by
      by_contra hcon
      have hsc : s ≤ c := by omega
      refine absurd ?_ (hi5 s hrange (by omega))
      rw [hE s (by unfold ENERGY_WINDOW; omega)]
      exact hstep s (le_refl _) (by unfold ENERGY_WINDOW; omega)
    refine ⟨i, ?_, by unfold ENERGY_WINDOW at *; omega, his, hiE, ?_⟩
    · unfold detect_start
      rw [h1]
      simp only [hstart]
      exact hi1
    · intro hnone
      by_contra hne
      exact hnone i (by omega) hiE

/-- A step of height 1 at index 64 in 100 integer samples with threshold 8: only a
window that lies entirely on the step reaches the threshold, and the step index is
reported. -/
theorem step_detection_witness :
    ∃ i, detect_start (fun k => if 64 ≤ k then (1 : Int) else 0) 8 100 100 = some (some i) ∧
      i = 64 := by
  obtain ⟨i, h1, _, _, _, h5⟩ := step_detection (fun k => if 64 ≤ k then (1 : Int) else 0) 8
    100 100 64 (by decide) (by decide)
    (fun k hk => by simp; omega) (by decide)
    (fun i h1 h2 => by
      have hk : ∀ k, (if 64 ≤ i + k then (1 : Int) else 0) = 1 := fun k => by
        rw [if_pos (by omega)]
      simp only [windowEnergy, ENERGY_WINDOW, List.range_succ, List.range_zero, hk]
      decide)
    ⟨64, by decide, le_refl _⟩
  refine ⟨i, h1, h5 ?_⟩
  intro j hj
  have hjj : j < 64 := hj
  interval_cases j <;> decide

/-! ## `detect_peaks` -/

theorem toInt32_of_lt {x : Nat} (h : x < 2147483648) : toInt32 x = (x : Int) := by
  unfold toInt32 U32_MOD
  have h1 : x % 4294967296 = x := Nat.mod_eq_of_lt (by omega)
  rw [h1, if_pos h]

theorem intToSize_natCast (x : Nat) (h : x < U32_MOD) : intToSize (x : Int) = x := by
  unfold intToSize
  rw [← Int.natCast_mod, Int.toNat_natCast]
  exact Nat.mod_eq_of_lt h

section
set_option linter.unusedSectionVars false
variable {α : Type} [Zero α] [Add α] [Sub α] [Mul α] [Neg α] [LE α] [LT α]
  [DecidableRel (fun a b : α => a ≤ b)] [DecidableRel (fun a b : α => a < b)]

theorem PeakOut.of_eq {base n_samples : Nat} {st st1 : PeakScan}
    (h : PeakOut base n_samples st) (h1 : st1.peak_i = st.peak_i) (h2 : st1.peaks = st.peaks) :
    PeakOut base n_samples st1 :=
  ⟨by rw [h1, h2]; exact h.len, by rw [h1]; exact h.le, by rw [h2]; exact h.chain,
    by rw [h2]; exact h.mem⟩

/-- One pass through the loop body keeps the invariant, or returns with peaks that
satisfy the output condition. -/
theorem peakStep_inv (samples : Nat → α) (eps : α) (base n_samples i : Nat) (st : PeakScan)
    (hn : n_samples < 2147483648) (hi : i < n_samples) (h : PeakInv base n_samples i st) :
    ((peakStep samples eps i st).2 = true → PeakOut base n_samples (peakStep samples eps i st).1) ∧
    ((peakStep samples eps i st).2 = false →
      PeakInv base n_samples (i + 1) (peakStep samples eps i st).1) := by
  obtain ⟨hout, hlt, hlast, hphase⟩ := h
  rcases hphase with ⟨hs, hc0, hc1, hb⟩ | ⟨hs, hb⟩ | ⟨hs, hc0, hc1, hb⟩
  · unfold peakStep
    simp only [hs, if_true]
    split_ifs with h1 h2 h2
    · exact ⟨fun h => by simp at h, fun _ => ⟨hout.of_eq rfl rfl, hlt, hlast,
        Or.inr (Or.inl ⟨rfl, by omega⟩)⟩⟩
    · exact ⟨fun h => by simp at h, fun _ => ⟨hout.of_eq rfl rfl, hlt, hlast,
        Or.inl ⟨rfl, by show (0:Int) ≤ st.count + 1; omega, by show st.count + 1 ≤ 1; omega,
          by show (base : Int) + (st.count + 1) ≤ ((i + 1 : Nat) : Int); omega⟩⟩⟩
    · omega
    · exact ⟨fun h => by simp at h, fun _ => ⟨hout.of_eq rfl rfl, hlt, hlast,
        Or.inl ⟨rfl, le_refl _, by show (0 : Int) ≤ 1; decide,
          by show (base : Int) + 0 ≤ ((i + 1 : Nat) : Int); omega⟩⟩⟩
  · unfold peakStep
    simp only [hs, show ¬ ((1 : Int) = 0) by decide, if_false, if_true]
    split_ifs with h1 h2 h3
    · exact ⟨fun h => by simp at h, fun _ => ⟨hout.of_eq rfl rfl, hlt, hlast,
        Or.inr (Or.inl ⟨hs, by omega⟩)⟩⟩
    · exact ⟨fun h => by simp at h, fun _ => ⟨hout.of_eq rfl rfl, hlt, hlast,
        Or.inr (Or.inr ⟨rfl, le_refl _, by show (0 : Int) ≤ 1; decide, by omega⟩)⟩⟩
    · exact ⟨fun h => by simp at h, fun _ => ⟨hout.of_eq rfl rfl, hlt, hlast,
        Or.inr (Or.inr ⟨rfl, by show (0 : Int) ≤ 1; decide, le_refl _, by omega⟩)⟩⟩
    · exact ⟨fun h => by simp at h, fun _ => ⟨hout.of_eq rfl rfl, hlt, hlast,
        Or.inr (Or.inl ⟨hs, by omega⟩)⟩⟩
  · have hti : toInt32 i = (i : Int) := toInt32_of_lt (by omega)
    unfold peakStep
    simp only [hs, show ¬ ((2 : Int) = 0) by decide, show ¬ ((2 : Int) = 1) by decide,
      if_false, if_true]
    by_cases hd : samples i - samples ((i + U32_MOD - 1) % U32_MOD) < -eps
    · simp only [hd, if_true]
      by_cases hc : st.count + 1 ≥ 2
      · simp only [hc, if_true]
        have hcount : st.count + 1 = 2 := by omega
        simp only [hcount, hti]
        have hcast : (i : Int) - 2 = ((i - 2 : Nat) : Int) := by omega
        have hP : intToSize ((i : Int) - 2) = i - 2 := by
          rw [hcast]
          exact intToSize_natCast _ (by unfold U32_MOD; omega)
        have hPi : toInt32 (i - 2) = ((i - 2 : Nat) : Int) := toInt32_of_lt (by omega)
        have hsz : szadd st.peak_i 1 = st.peak_i + 1 :=
          szadd_of_lt (by unfold N_PEAKS at hlt; unfold U32_MOD; omega)
        rw [hP, hPi, hsz]
        by_cases hbad : st.first = false ∧
            ((i : Int) - 2 - st.last_peak < MIN_I_DIFF ∨ (i : Int) - 2 - st.last_peak > MAX_I_DIFF)
        · simp only [hbad, and_self, if_true]
          exact ⟨fun _ => hout.of_eq rfl rfl, fun h => by simp at h⟩
        · rw [if_neg hbad]
          have hout2 : ∀ st2 : PeakScan, st2.peak_i = st.peak_i + 1 →
              st2.peaks = st.peaks ++ [i - 2] → PeakOut base n_samples st2 := by
            intro st2 e1 e2
            refine ⟨?_, ?_, ?_, ?_⟩
            · rw [e1, e2, hout.len]; simp
            · rw [e1]; exact hlt
            · rw [e2]
              refine List.Chain'.append hout.chain (List.chain'_singleton _) ?_
              intro x hx y hy
              simp only [List.head?_cons, Option.mem_def, Option.some.injEq] at hy
              subst hy
              obtain ⟨hf, hl⟩ := hlast x hx
              unfold peakGap
              unfold MIN_I_DIFF MAX_I_DIFF at hbad ⊢
              rw [hl] at hbad
              have hb2 : ¬ ((i : Int) - 2 - x < 4 ∨ (i : Int) - 2 - x > 6) := fun h => hbad ⟨hf, h⟩
              omega
            · rw [e2]
              intro q hq
              rcases List.mem_append.mp hq with h | h
              · exact hout.mem q h
              · simp only [List.mem_singleton] at h
                omega
          by_cases hfull : st.peak_i + 1 ≥ N_PEAKS
          · simp only [hfull, if_true]
            exact ⟨fun _ => hout2 _ rfl rfl, fun h => by simp at h⟩
          · simp only [hfull, if_false]
            refine ⟨fun h => by simp at h, fun _ => ⟨hout2 _ rfl rfl, by show st.peak_i + 1 < N_PEAKS; omega, ?_,
              Or.inl ⟨rfl, le_refl _, by show (0 : Int) ≤ 1; decide,
                by show (base : Int) + 0 ≤ ((i + 1 : Nat) : Int); omega⟩⟩⟩
            intro l hl
            simp only [List.getLast?_append, List.getLast?_singleton, Option.or,
              Option.mem_def, Option.some.injEq] at hl
            subst hl
            exact ⟨rfl, rfl⟩
      · simp only [hc, if_false]
        exact ⟨fun h => by simp at h, fun _ => ⟨hout.of_eq rfl rfl, hlt, hlast,
          Or.inr (Or.inr ⟨rfl, by show (0 : Int) ≤ st.count + 1; omega,
            by show st.count + 1 ≤ 1; omega, by omega⟩)⟩⟩
    · simp only [hd, if_false, show ¬ ((0 : Int) ≥ 2) by decide]
      exact ⟨fun h => by simp at h, fun _ => ⟨hout.of_eq rfl rfl, hlt, hlast,
        Or.inl ⟨rfl, le_refl _, by show (0 : Int) ≤ 1; decide,
          by show (base : Int) + 0 ≤ ((i + 1 : Nat) : Int); omega⟩⟩⟩

/-- From any loop entry that satisfies the invariant the loop of `detect_peaks` ends,
given fuel for the indices left, with peaks that satisfy the output condition. -/
theorem peakLoop_out (samples : Nat → α) (eps : α) (base n_samples : Nat)
    (hn : n_samples < 2147483648) :
    ∀ (fuel i : Nat) (st : PeakScan), n_samples ≤ i + fuel → PeakInv base n_samples i st →
      ∃ st1, peakLoop samples eps n_samples fuel i st = some st1 ∧ PeakOut base n_samples st1 := by
  intro fuel
  induction fuel with
  | zero =>
    intro i st hfuel hinv
    exact ⟨st, by simp [peakLoop]; omega, hinv.out⟩
  | succ fuel ih =>
    intro i st hfuel hinv
    unfold peakLoop
    by_cases hi : i < n_samples
    · obtain ⟨hret, hcont⟩ := peakStep_inv samples eps base n_samples i st hn hi hinv
      simp only [hi, if_true]
      by_cases hr : (peakStep samples eps i st).2 = true
      · simp only [hr, if_true]
        exact ⟨_, rfl, hret hr⟩
      · simp only [hr, if_false]
        have hr' : (peakStep samples eps i st).2 = false := by
          cases h : (peakStep samples eps i st).2
          · rfl
          · exact absurd h hr
        rw [szadd_of_lt (by unfold U32_MOD; omega)]
        exact ih (i + 1) _ (by omega) (hcont hr')
    · simp only [hi, if_false]
      exact ⟨st, rfl, hinv.out⟩

/-- C10. EstimatedPeak invariant: for every sample array, `n_samples` and
`start_index`, `detect_peaks` returns (given fuel for its loop); the count it returns
is the number of indices it wrote and is at most `N_PEAKS`; the indices are strictly
ascending, and each gap between consecutive indices lies in
`[MIN_I_DIFF, MAX_I_DIFF] = [4, 6]`. -/
theorem detect_peaks_invariant (samples : Nat → α) (eps : α) (n_samples start_index fuel : Nat)
    (hn : n_samples < 2147483648) (hfuel : n_samples ≤ fuel) :
    ∃ count peaks, detect_peaks samples eps n_samples start_index fuel = some (count, peaks) ∧
      count = peaks.length ∧ count ≤ N_PEAKS ∧
      List.Pairwise (fun a b : Nat => a < b) peaks ∧
      List.Chain' (fun a b : Nat => a + 4 ≤ b ∧ b ≤ a + 6) peaks := by
  have hinit : PeakInv (szadd start_index 1) n_samples (szadd start_index 1) PeakScan.init := by
    refine ⟨⟨rfl, Nat.zero_le _, List.chain'_nil, ?_⟩, by decide, ?_, ?_⟩
    · intro q hq
      simp [PeakScan.init] at hq
    · intro l hl
      simp [PeakScan.init] at hl
    · left
      refine ⟨rfl, le_refl _, by show (0 : Int) ≤ 1; decide, ?_⟩
      show ((szadd start_index 1 : Nat) : Int) + 0 ≤ _
      omega
  obtain ⟨st1, h1, h2⟩ := peakLoop_out samples eps (szadd start_index 1) n_samples hn fuel
    (szadd start_index 1) PeakScan.init (by omega) hinit
  have hgap : List.Chain' (fun a b : Nat => a + 4 ≤ b ∧ b ≤ a + 6) st1.peaks := by
    refine List.Chain'.imp ?_ h2.chain
    intro a b hab
    unfold peakGap MIN_I_DIFF MAX_I_DIFF at hab
    omega
  have hasc : List.Pairwise (fun a b : Nat => a < b) st1.peaks := by
    have hc : List.Chain' (fun a b : Nat => a < b) st1.peaks :=
      List.Chain'.imp (fun a b hab => by omega) hgap
    exact List.chain'_iff_pairwise.mp hc
  refine ⟨st1.peak_i, st1.peaks, ?_, h2.len, h2.le, hasc, hgap⟩
  unfold detect_peaks
  rw [h1]
  rfl

end

/-- Integer samples that repeat the triangular pulse 0, 1, 2, 1, 0: on 30 samples the
scan reports the six apexes, five samples apart. -/
theorem detect_peaks_invariant_witness :
    detect_peaks (fun k => ([0, 1, 2, 1, 0] : List Int).getD (k % 5) 0) 0 30 0 30
      = some (6, [2, 7, 12, 17, 22, 27]) ∧
    ∃ count peaks,
      detect_peaks (fun k => ([0, 1, 2, 1, 0] : List Int).getD (k % 5) 0) 0 30 0 30
        = some (count, peaks) ∧
      count = peaks.length ∧ count ≤ N_PEAKS ∧
      List.Pairwise (fun a b : Nat => a < b) peaks ∧
      List.Chain' (fun a b : Nat => a + 4 ≤ b ∧ b ≤ a + 6) peaks :=
  ⟨by decide, detect_peaks_invariant _ 0 30 0 30 (by decide) (by decide)⟩

end SignalAnalyzer

/-! ## `detect_peaks` on a regular pulse train -/

namespace SignalAnalyzer

theorem prevIndex_eq {i : Nat} (h1 : 1 ≤ i) (h2 : i < 2147483648) :
    (i + U32_MOD - 1) % U32_MOD = i - 1 := by
  unfold U32_MOD
  omega

section
set_option linter.unusedSectionVars false
variable {α : Type} [Zero α] [Add α] [Sub α] [Mul α] [Neg α] [LE α] [LT α]
  [DecidableRel (fun a b : α => a ≤ b)] [DecidableRel (fun a b : α => a < b)]

theorem peakLoop_continue (samples : Nat → α) (eps : α) (n_samples fuel i : Nat) (st st1 : PeakScan)
    (hn : n_samples < 2147483648) (hi : i < n_samples)
    (hstep : peakStep samples eps i st = (st1, false)) :
    peakLoop samples eps n_samples (fuel + 1) i st = peakLoop samples eps n_samples fuel (i + 1) st1 := by
  rw [peakLoop]
  simp only [hi, if_true, hstep, Bool.false_eq_true, if_false]
  rw [szadd_of_lt (by unfold U32_MOD; omega)]

theorem peakLoop_return (samples : Nat → α) (eps : α) (n_samples fuel i : Nat) (st st1 : PeakScan)
    (hi : i < n_samples) (hstep : peakStep samples eps i st = (st1, true)) :
    peakLoop samples eps n_samples (fuel + 1) i st = some st1 := by
  rw [peakLoop]
  simp only [hi, if_true, hstep]

end

section
variable {α : Type} [LinearOrderedRing α]

/-- State 0, the step does not rise: the count is reset. -/
theorem peakStep_ready_flat (samples : Nat → α) (eps : α) (i : Nat) (st : PeakScan)
    (h1 : 1 ≤ i) (h2 : i < 2147483648) (hs : st.state = 0) (hd : ¬ rises samples eps i) :
    peakStep samples eps i st = ({ st with count := 0 }, false) := by
  unfold rises at hd
  unfold peakStep
  simp only [prevIndex_eq h1 h2, hs, if_true, hd, if_false, show ¬ ((0 : Int) ≥ 2) by decide]

/-- State 0 with count 0, the step rises: the count becomes 1. -/
theorem peakStep_ready_rise0 (samples : Nat → α) (eps : α) (i : Nat) (st : PeakScan)
    (h1 : 1 ≤ i) (h2 : i < 2147483648) (hs : st.state = 0) (hc : st.count = 0)
    (hd : rises samples eps i) :
    peakStep samples eps i st = ({ st with count := 1 }, false) := by
  unfold rises at hd
  unfold peakStep
  simp only [prevIndex_eq h1 h2, hs, if_true, hd, hc, show (0 : Int) + 1 = 1 by decide,
    show ¬ ((1 : Int) ≥ 2) by decide, if_false]

/-- State 0 with count 1, the step rises: two rises seen, state 1. -/
theorem peakStep_ready_rise1 (samples : Nat → α) (eps : α) (i : Nat) (st : PeakScan)
    (h1 : 1 ≤ i) (h2 : i < 2147483648) (hs : st.state = 0) (hc : st.count = 1)
    (hd : rises samples eps i) :
    peakStep samples eps i st = ({ st with count := 0, state := 1 }, false) := by
  unfold rises at hd
  unfold peakStep
  simp only [prevIndex_eq h1 h2, hs, if_true, hd, hc, show ((1 : Int) + 1 ≥ 2) by decide]

/-- State 1, the step rises: nothing changes. -/
theorem peakStep_rising_rise (samples : Nat → α) (eps : α) (i : Nat) (st : PeakScan)
    (h1 : 1 ≤ i) (h2 : i < 2147483648) (hs : st.state = 1) (hd : rises samples eps i) :
    peakStep samples eps i st = (st, false) := by
  unfold rises at hd
  unfold peakStep
  simp only [prevIndex_eq h1 h2, hs, show ¬ ((1 : Int) = 0) by decide, if_false, if_true, hd]

/-- State 1, the step falls: state 2 with the first fall counted. -/
theorem peakStep_rising_fall (samples : Nat → α) (eps : α) (i : Nat) (st : PeakScan)
    (h1 : 1 ≤ i) (h2 : i < 2147483648) (heps : 0 ≤ eps) (hs : st.state = 1)
    (hd : falls samples eps i) :
    peakStep samples eps i st = ({ st with count := 1, state := 2 }, false) := by
  unfold falls at hd
  have hneg : -eps ≤ eps := le_trans (neg_nonpos.mpr heps) heps
  have hnr : ¬ eps < samples i - samples (i - 1) :=
    not_lt.mpr (le_of_lt (lt_of_lt_of_le hd hneg))
  have hnf : ¬ (samples i - samples (i - 1) ≤ eps ∧ -eps ≤ samples i - samples (i - 1)) :=
    fun h => absurd hd (not_lt.mpr h.2)
  unfold peakStep
  simp only [prevIndex_eq h1 h2, hs, show ¬ ((1 : Int) = 0) by decide, if_false, if_true, hnr,
    hnf, hd]

theorem apexes_succ (a j : Nat) : apexes a (j + 1) = apexes a j ++ [a + 5 * j] := by
  unfold apexes
  rw [List.range_succ, List.map_append]
  rfl

/-- State 2 with one fall counted, the step falls, in the train after `j` accepted
apexes: the apex `a + 5 * j` two samples back is accepted. -/
theorem peakStep_accept (samples : Nat → α) (eps : α) (a j : Nat)
    (h2 : a + 5 * j + 2 < 2147483648) (hj : j < N_PEAKS)
    (hd : falls samples eps (a + 5 * j + 2)) :
    peakStep samples eps (a + 5 * j + 2) (trainScan a j 2 1)
      = (if j + 1 ≥ N_PEAKS then (trainScan a (j + 1) 2 2, true)
         else (trainScan a (j + 1) 0 0, false)) := by
  unfold falls at hd
  have hti : toInt32 (a + 5 * j + 2) = ((a + 5 * j + 2 : Nat) : Int) := toInt32_of_lt h2
  have hcast : ((a + 5 * j + 2 : Nat) : Int) - 2 = ((a + 5 * j : Nat) : Int) := by omega
  have hP : intToSize ((a + 5 * j : Nat) : Int) = a + 5 * j :=
    intToSize_natCast _ (by unfold U32_MOD; omega)
  have hPi : toInt32 (a + 5 * j) = ((a + 5 * j : Nat) : Int) := toInt32_of_lt (by omega)
  have hsz : szadd j 1 = j + 1 :=
    szadd_of_lt (by unfold N_PEAKS at hj; unfold U32_MOD; omega)
  have hbad : ¬ ((trainScan a j 2 1).first = false ∧
      (((a + 5 * j : Nat) : Int) - (trainScan a j 2 1).last_peak < MIN_I_DIFF ∨
       ((a + 5 * j : Nat) : Int) - (trainScan a j 2 1).last_peak > MAX_I_DIFF)) := by
    unfold trainScan MIN_I_DIFF MAX_I_DIFF
    by_cases h0 : j = 0
    · subst h0
      simp
    · simp only [h0, if_false, decide_False, true_and]
      omega
  unfold peakStep
  simp only [prevIndex_eq (show 1 ≤ a + 5 * j + 2 by omega) h2, hd, if_true]
  simp only [show (trainScan a j 2 1).state = 2 from rfl, show (trainScan a j 2 1).count = 1 from rfl,
    show ¬ ((2 : Int) = 0) by decide, show ¬ ((2 : Int) = 1) by decide, if_false, if_true,
    show ((1 : Int) + 1 ≥ 2) by decide, show (1 : Int) + 1 = 2 by decide, hti, hcast]
  rw [if_neg hbad]
  simp only [hP, hPi, show (trainScan a j 2 1).peak_i = j from rfl, hsz,
    show (trainScan a j 2 1).peaks = apexes a j from rfl, ← apexes_succ]
  by_cases hfull : j + 1 ≥ N_PEAKS
  · simp only [hfull, if_true]
    simp [trainScan]
  · simp only [hfull, if_false]
    simp [trainScan]

/-- The four steps of one pulse: entered one sample before the first rising step in
state 0, the scan accepts the apex and either returns (last pulse) or goes on in
state 0 three samples after the apex. -/
theorem peakLoop_pulse (samples : Nat → α) (eps : α) (n_samples a j fuel : Nat) (c : Int)
    (hn : n_samples < 2147483648) (heps : 0 ≤ eps) (ha : 2 ≤ a) (hj : j < N_PEAKS)
    (hfit : a + 5 * j + 2 < n_samples) (hc : c = 0 ∨ c = 1)
    (hr1 : rises samples eps (a + 5 * j - 1)) (hr2 : rises samples eps (a + 5 * j))
    (hf1 : falls samples eps (a + 5 * j + 1)) (hf2 : falls samples eps (a + 5 * j + 2)) :
    peakLoop samples eps n_samples (fuel + 4) (a + 5 * j - 1) (trainScan a j 0 c)
      = if j + 1 ≥ N_PEAKS then some (trainScan a (j + 1) 2 2)
        else peakLoop samples eps n_samples fuel (a + 5 * j + 3) (trainScan a (j + 1) 0 0) := by
  have e1 : a + 5 * j - 1 + 1 = a + 5 * j := by omega
  have hmid : peakLoop samples eps n_samples (fuel + 4) (a + 5 * j - 1) (trainScan a j 0 c)
      = peakLoop samples eps n_samples (fuel + 2) (a + 5 * j + 1) (trainScan a j 1 0) := by
    rcases hc with rfl | rfl
    · rw [peakLoop_continue samples eps n_samples (fuel + 3) (a + 5 * j - 1) _ (trainScan a j 0 1)
        hn (by omega)
        (peakStep_ready_rise0 samples eps _ _ (by omega) (by omega) rfl rfl hr1), e1]
      rw [peakLoop_continue samples eps n_samples (fuel + 2) (a + 5 * j) _ (trainScan a j 1 0)
        hn (by omega)
        (peakStep_ready_rise1 samples eps _ _ (by omega) (by omega) rfl rfl hr2)]
    · rw [peakLoop_continue samples eps n_samples (fuel + 3) (a + 5 * j - 1) _ (trainScan a j 1 0)
        hn (by omega)
        (peakStep_ready_rise1 samples eps _ _ (by omega) (by omega) rfl rfl hr1), e1]
      rw [peakLoop_continue samples eps n_samples (fuel + 2) (a + 5 * j) _ (trainScan a j 1 0)
        hn (by omega)
        (peakStep_rising_rise samples eps _ _ (by omega) (by omega) rfl hr2)]
  rw [hmid]
  rw [peakLoop_continue samples eps n_samples (fuel + 1) (a + 5 * j + 1) _ (trainScan a j 2 1)
    hn (by omega)
    (peakStep_rising_fall samples eps _ _ (by omega) (by omega) heps rfl hf1)]
  have hacc := peakStep_accept samples eps a j (by omega) hj hf2
  by_cases hfull : j + 1 ≥ N_PEAKS
  · rw [if_pos hfull] at hacc
    rw [if_pos hfull]
    exact peakLoop_return samples eps n_samples fuel _ _ _ (by omega) hacc
  · rw [if_neg hfull] at hacc
    rw [if_neg hfull]
    exact peakLoop_continue samples eps n_samples fuel _ _ _ hn (by omega) hacc

/-- From the entry of any pulse of the train on, the scan collects the remaining
apexes and returns after the last one. -/
theorem peakLoop_train (samples : Nat → α) (eps : α) (n_samples a : Nat)
    (hn : n_samples < 2147483648) (heps : 0 ≤ eps) (ha : 2 ≤ a)
    (hfit : a + 5 * (N_PEAKS - 1) + 2 < n_samples)
    (hpulse : ∀ j, j < N_PEAKS →
      rises samples eps (a + 5 * j - 1) ∧ rises samples eps (a + 5 * j) ∧
      falls samples eps (a + 5 * j + 1) ∧ falls samples eps (a + 5 * j + 2))
    (hflat : ∀ j, j + 1 < N_PEAKS → ¬ rises samples eps (a + 5 * j + 3)) :
    ∀ (k j fuel : Nat) (c : Int), j + k = N_PEAKS → 1 ≤ k → 5 * k ≤ fuel → (c = 0 ∨ c = 1) →
      peakLoop samples eps n_samples fuel (a + 5 * j - 1) (trainScan a j 0 c)
        = some (trainScan a N_PEAKS 2 2) := by
  intro k
  induction k with
  | zero => intro j fuel c _ h; omega
  | succ k ih =>
    intro j fuel c hjk _ hfuel hc
    have hj : j < N_PEAKS := by omega
    obtain ⟨hr1, hr2, hf1, hf2⟩ := hpulse j hj
    have hN : N_PEAKS = 20 := rfl
    obtain ⟨f4, rfl⟩ : ∃ f4, fuel = f4 + 4 := ⟨fuel - 4, by omega⟩
    rw [peakLoop_pulse samples eps n_samples a j f4 c hn heps ha hj (by omega) hc hr1 hr2 hf1 hf2]
    by_cases hfull : j + 1 ≥ N_PEAKS
    · rw [if_pos hfull]
      have : j + 1 = N_PEAKS := by omega
      rw [this]
    · rw [if_neg hfull]
      obtain ⟨f1, rfl⟩ : ∃ f1, f4 = f1 + 1 := ⟨f4 - 1, by omega⟩
      rw [peakLoop_continue samples eps n_samples f1 (a + 5 * j + 3) _ (trainScan a (j + 1) 0 0)
        hn (by omega)
        (peakStep_ready_flat samples eps _ _ (by omega) (by omega) rfl (hflat j (by omega)))]
      have e : a + 5 * j + 3 + 1 = a + 5 * (j + 1) - 1 := by omega
      rw [e]
      exact ih (j + 1) f1 0 (by omega) (by omega) (by omega) (Or.inl rfl)

/-- The stretch before the first pulse: as long as the samples never rise twice in a
row there, the scan reaches the first pulse in state 0 and then collects the train. -/
theorem peakLoop_before_train (samples : Nat → α) (eps : α) (n_samples start_index a : Nat)
    (hn : n_samples < 2147483648) (heps : 0 ≤ eps)
    (hfit : a + 5 * (N_PEAKS - 1) + 2 < n_samples)
    (hpulse : ∀ j, j < N_PEAKS →
      rises samples eps (a + 5 * j - 1) ∧ rises samples eps (a + 5 * j) ∧
      falls samples eps (a + 5 * j + 1) ∧ falls samples eps (a + 5 * j + 2))
    (hflat : ∀ j, j + 1 < N_PEAKS → ¬ rises samples eps (a + 5 * j + 3))
    (hbefore : ∀ i, start_index + 1 < i → i + 2 ≤ a →
      ¬ (rises samples eps (i - 1) ∧ rises samples eps i)) :
    ∀ (m i fuel : Nat) (c : Int), i + m + 1 = a → start_index + 1 ≤ i → 100 + m ≤ fuel →
      (c = 0 ∨ c = 1) → (c = 1 → start_index + 1 < i ∧ rises samples eps (i - 1)) →
      peakLoop samples eps n_samples fuel i (trainScan a 0 0 c)
        = some (trainScan a N_PEAKS 2 2) := by
  have hN : N_PEAKS = 20 := rfl
  intro m
  induction m with
  | zero =>
    intro i fuel c him hi hfuel hc _
    have e : i = a + 5 * 0 - 1 := by omega
    rw [e]
    exact peakLoop_train samples eps n_samples a hn heps (by omega) hfit hpulse hflat
      N_PEAKS 0 fuel c (by omega) (by omega) (by omega) hc
  | succ m ih =>
    intro i fuel c him hi hfuel hc hinv
    obtain ⟨f1, rfl⟩ : ∃ f1, fuel = f1 + 1 := ⟨fuel - 1, by omega⟩
    by_cases hr : rises samples eps i
    · have hc0 : c = 0 := by
        rcases hc with h | h
        · exact h
        · exact absurd ⟨(hinv h).2, hr⟩ (hbefore i (hinv h).1 (by omega))
      subst hc0
      rw [peakLoop_continue samples eps n_samples f1 i _ (trainScan a 0 0 1) hn (by omega)
        (peakStep_ready_rise0 samples eps _ _ (by omega) (by omega) rfl rfl hr)]
      exact ih (i + 1) f1 1 (by omega) (by omega) (by omega) (Or.inr rfl)
        (fun _ => ⟨by omega, by simpa using hr⟩)
    · have hstep : peakStep samples eps i (trainScan a 0 0 c) = (trainScan a 0 0 0, false) :=
        peakStep_ready_flat samples eps _ _ (by omega) (by omega) rfl hr
      rw [peakLoop_continue samples eps n_samples f1 i _ (trainScan a 0 0 0) hn (by omega) hstep]
      exact ih (i + 1) f1 0 (by omega) (by omega) (by omega) (Or.inl rfl)
        (fun h => absurd h (by decide))

/-- C11, as stated, fails: integer samples that ramp 0, 1, 2 up to a base level of 2
and then carry twenty triangular pulses (apexes at 5, 10, ..., 100, two rising and
two falling steps of 1 each, flat in between). Scanned from index 0 with `eps = 0`,
`detect_peaks` misses the first apex and returns 19 peaks. -/
theorem pulse_train_counterexample :
    (∀ j, j < N_PEAKS →
      rises rampedPulseTrain 0 (5 + 5 * j - 1) ∧ rises rampedPulseTrain 0 (5 + 5 * j) ∧
      falls rampedPulseTrain 0 (5 + 5 * j + 1) ∧ falls rampedPulseTrain 0 (5 + 5 * j + 2) ∧
      rampedPulseTrain (5 + 5 * j + 3) = rampedPulseTrain (5 + 5 * j + 2)) ∧
    detect_peaks rampedPulseTrain 0 104 0 104
      = some (19, [10, 15, 20, 25, 30, 35, 40, 45, 50, 55, 60, 65, 70, 75, 80, 85, 90, 95, 100]) := by
  unfold rises falls
  decide

/-- C11, amended. Peak detection on a regular pulse train, in exact arithmetic with
`0 ≤ _EPS`: when the array holds `N_PEAKS` pulses with apexes at `a, a + 5, ...`, each
with two rising and two falling steps larger than `_EPS` and no rise in the one step
between two pulses, `start_index` is at least two samples before the first apex, and
the samples between `start_index` and the first pulse never rise by more than `_EPS`
twice in a row, `detect_peaks` returns `N_PEAKS` and reports exactly the apex
indices in order. -/
theorem detect_peaks_pulse_train (samples : Nat → α) (eps : α)
    (n_samples start_index fuel a : Nat)
    (hn : n_samples < 2147483648) (hfuel : n_samples ≤ fuel) (heps : 0 ≤ eps)
    (hstart : start_index + 2 ≤ a)
    (hfit : a + 5 * (N_PEAKS - 1) + 2 < n_samples)
    (hpulse : ∀ j, j < N_PEAKS →
      rises samples eps (a + 5 * j - 1) ∧ rises samples eps (a + 5 * j) ∧
      falls samples eps (a + 5 * j + 1) ∧ falls samples eps (a + 5 * j + 2))
    (hflat : ∀ j, j + 1 < N_PEAKS → ¬ rises samples eps (a + 5 * j + 3))
    (hbefore : ∀ i, start_index + 1 < i → i + 2 ≤ a →
      ¬ (rises samples eps (i - 1) ∧ rises samples eps i)) :
    detect_peaks samples eps n_samples start_index fuel = some (N_PEAKS, apexes a N_PEAKS) := by
  have hN : N_PEAKS = 20 := rfl
  have h := peakLoop_before_train samples eps n_samples start_index a hn heps hfit hpulse hflat
    hbefore (a - start_index - 2) (start_index + 1) fuel 0 (by omega) (le_refl _) (by omega)
    (Or.inl rfl) (fun h => absurd h (by decide))
  unfold detect_peaks
  rw [szadd_of_lt (by unfold U32_MOD; omega)]
  have hinit : PeakScan.init = trainScan a 0 0 0 := rfl
  rw [hinit, h]
  rfl

end

/-- Integer samples that repeat the triangular pulse 0, 1, 2, 1, 0 on a flat base,
scanned from index 0: the twenty apexes 2, 7, ..., 97 are reported. -/
theorem detect_peaks_pulse_train_witness :
    detect_peaks (fun k => ([0, 1, 2, 1, 0] : List Int).getD (k % 5) 0) 0 110 0 110
      = some (N_PEAKS, apexes 2 N_PEAKS) :=
  detect_peaks_pulse_train (fun k => ([0, 1, 2, 1, 0] : List Int).getD (k % 5) 0) 0 110 0 110 2
    (by decide) (by decide) (by decide) (by decide) (by decide)
    (by unfold rises falls; decide)
    (by
      intro j hj
      have hj19 : j < 19 := by unfold N_PEAKS at hj; omega
      unfold rises
      interval_cases j <;> decide)
    (by intro i h1 h2; omega)

end SignalAnalyzer

/-! ## `SignalAnalyzer::handle` -/

namespace SignalAnalyzer

section
variable {α : Type} [LinearOrderedField α]

theorem foldl_pair_sum (f g : Nat → α) (n : Nat) :
    (List.range n).foldl (fun s i => (s.1 + f i, s.2 + g i)) ((0 : α), (0 : α))
      = (∑ i in Finset.range n, f i, ∑ i in Finset.range n, g i) := by
  induction n with
  | zero => simp
  | succ n ih =>
    rw [List.range_succ, List.foldl_append, ih]
    simp [Finset.sum_range_succ]

theorem handleSums_eq (noise_samples : Nat → α) (i_start : Nat) :
    handleSums noise_samples i_start
      = (∑ i in Finset.range HANDLE_N_SAMPLES, noise_samples (i_start + i) * noise_samples (i_start + i),
         ∑ i in Finset.range HANDLE_N_SAMPLES,
           noise_samples (i_start + i) * noise_samples (i_start + i)
             * (noise_samples (i_start + i) * noise_samples (i_start + i))) := by
  unfold handleSums
  exact foldl_pair_sum _ _ _

theorem ite_lt_zero_eq_max (x : α) : (if x < 0 then 0 else x) = max 0 x := by
  split_ifs with hx
  · exact (max_eq_left (le_of_lt hx)).symm
  · exact (max_eq_right (not_lt.mp hx)).symm

theorem ite_lt_floor_eq_max (c x : α) : (if x < c then c else x) = max c x := by
  split_ifs with hx
  · exact (max_eq_left (le_of_lt hx)).symm
  · exact (max_eq_right (not_lt.mp hx)).symm

theorem handle_eq_spec (sqrtf : α → α) (n_samples : Nat) (noise_samples : Nat → α)
    (signal_threshold : α) (h : HANDLE_N_SAMPLES ≤ n_samples) :
    handle sqrtf n_samples noise_samples signal_threshold
      = thresholdSpec sqrtf n_samples noise_samples := by
  unfold handle thresholdSpec
  rw [if_neg (not_lt.mpr h)]
  simp only [handleSums_eq, ite_lt_zero_eq_max, ite_lt_floor_eq_max, mul_assoc]

theorem thresholdSpec_congr (sqrtf : α → α) (n_samples : Nat) (noise_samples other : Nat → α)
    (h : ∀ i, i < HANDLE_N_SAMPLES →
      other (n_samples - HANDLE_N_SAMPLES + i) = noise_samples (n_samples - HANDLE_N_SAMPLES + i)) :
    thresholdSpec sqrtf n_samples other = thresholdSpec sqrtf n_samples noise_samples := by
  unfold thresholdSpec
  have h1 : ∑ i in Finset.range HANDLE_N_SAMPLES,
      other (n_samples - HANDLE_N_SAMPLES + i) * other (n_samples - HANDLE_N_SAMPLES + i)
      = ∑ i in Finset.range HANDLE_N_SAMPLES,
      noise_samples (n_samples - HANDLE_N_SAMPLES + i) * noise_samples (n_samples - HANDLE_N_SAMPLES + i) :=
    Finset.sum_congr rfl (fun i hi => by rw [h i (Finset.mem_range.mp hi)])
  have h2 : ∑ i in Finset.range HANDLE_N_SAMPLES,
      other (n_samples - HANDLE_N_SAMPLES + i) * other (n_samples - HANDLE_N_SAMPLES + i)
        * (other (n_samples - HANDLE_N_SAMPLES + i) * other (n_samples - HANDLE_N_SAMPLES + i))
      = ∑ i in Finset.range HANDLE_N_SAMPLES,
      noise_samples (n_samples - HANDLE_N_SAMPLES + i) * noise_samples (n_samples - HANDLE_N_SAMPLES + i)
        * (noise_samples (n_samples - HANDLE_N_SAMPLES + i) * noise_samples (n_samples - HANDLE_N_SAMPLES + i)) :=
    Finset.sum_congr rfl (fun i hi => by rw [h i (Finset.mem_range.mp hi)])
  simp only [h1, h2]

/-- C12: `handle` leaves `signal_threshold` unchanged when `n_samples <
HANDLE_N_SAMPLES`; otherwise, with `q i` the squares of the trailing
`HANDLE_N_SAMPLES` samples, `mean = avg q` and `var = max(0, avg (q ^ 2) - mean ^ 2)`,
it sets the threshold to `max(1e-3, mean * ENERGY_WINDOW + K * sqrt(var) *
sqrt(ENERGY_WINDOW))` (`thresholdSpec`), which is never below `1e-3` and is the same
for any other buffer with the same trailing `HANDLE_N_SAMPLES` samples and any other
previous threshold. -/
theorem handle_threshold_update (sqrtf : α → α) (n_samples : Nat) (noise_samples : Nat → α)
    (signal_threshold : α) :
    (n_samples < HANDLE_N_SAMPLES →
      handle sqrtf n_samples noise_samples signal_threshold = signal_threshold) ∧
    (HANDLE_N_SAMPLES ≤ n_samples →
      handle sqrtf n_samples noise_samples signal_threshold
        = thresholdSpec sqrtf n_samples noise_samples ∧
      1 / 1000 ≤ handle sqrtf n_samples noise_samples signal_threshold ∧
      ∀ (other : Nat → α) (other_threshold : α),
        (∀ i, i < HANDLE_N_SAMPLES →
          other (n_samples - HANDLE_N_SAMPLES + i)
            = noise_samples (n_samples - HANDLE_N_SAMPLES + i)) →
        handle sqrtf n_samples other other_threshold
          = handle sqrtf n_samples noise_samples signal_threshold) := by
  refine ⟨fun h => ?_, fun h => ⟨handle_eq_spec sqrtf _ _ _ h, ?_, ?_⟩⟩
  · unfold handle
    rw [if_pos h]
  · rw [handle_eq_spec sqrtf _ _ _ h]
    unfold thresholdSpec
    exact le_max_left _ _
  · intro other other_threshold hother
    rw [handle_eq_spec sqrtf _ _ _ h, handle_eq_spec sqrtf _ _ _ h]
    exact thresholdSpec_congr sqrtf n_samples noise_samples other hother

end

theorem handle_threshold_update_witness :
    (19 < HANDLE_N_SAMPLES ∧
      handle Real.sqrt 19 (fun _ => (1 : ℝ)) 5 = 5) ∧
    (HANDLE_N_SAMPLES ≤ 25 ∧
      handle Real.sqrt 25 (fun _ => (1 : ℝ)) 5 = thresholdSpec Real.sqrt 25 (fun _ => (1 : ℝ)) ∧
      1 / 1000 ≤ handle Real.sqrt 25 (fun _ => (1 : ℝ)) 5) :=
  ⟨⟨by decide, (handle_threshold_update Real.sqrt 19 (fun _ => (1 : ℝ)) 5).1 (by decide)⟩,
   ⟨by decide,
    ((handle_threshold_update Real.sqrt 25 (fun _ => (1 : ℝ)) 5).2 (by decide)).1,
    ((handle_threshold_update Real.sqrt 25 (fun _ => (1 : ℝ)) 5).2 (by decide)).2.1⟩⟩

end SignalAnalyzer

namespace SignalAnalyzer

theorem sqrt_eight_gt : (14 / 5 : ℝ) < Real.sqrt 8 := by
  rw [Real.lt_sqrt (by norm_num)]
  norm_num

/-- C13 as stated fails: twenty samples alternating between `1` and `-1` have zero
mean and standard deviation `1`, and `handle` sets the threshold to `8`, while
`K * sigma * sqrt(ENERGY_WINDOW)` exceeds `28`. -/
theorem threshold_adaptation_counterexample :
    (∑ i in Finset.range HANDLE_N_SAMPLES, (if i % 2 = 0 then (1 : ℝ) else -1)) = 0 ∧
    (∑ i in Finset.range HANDLE_N_SAMPLES, ((if i % 2 = 0 then (1 : ℝ) else -1) - 0) ^ 2)
      / (HANDLE_N_SAMPLES : ℝ) = 1 ^ 2 ∧
    handle Real.sqrt HANDLE_N_SAMPLES (fun i => if i % 2 = 0 then (1 : ℝ) else -1) 0 = 8 ∧
    (8 : ℝ) + 20 < (K : ℝ) * 1 * Real.sqrt (ENERGY_WINDOW : ℝ) := by
  refine ⟨?_, ?_, ?_, ?_⟩
  · simp [HANDLE_N_SAMPLES, Finset.sum_range_succ]
  · simp [HANDLE_N_SAMPLES, Finset.sum_range_succ]
  · rw [handle_eq_spec Real.sqrt _ _ _ (le_refl _)]
    simp [thresholdSpec, HANDLE_N_SAMPLES, ENERGY_WINDOW, K, Finset.sum_range_succ]
    norm_num
  · have h := sqrt_eight_gt
    simp only [K, ENERGY_WINDOW]
    push_cast
    linarith

end SignalAnalyzer

namespace SignalAnalyzer

theorem thresholdSpec_of_moments (sqrtf : ℝ → ℝ) (n_samples : Nat) (noise_samples : Nat → ℝ)
    (m2 m4 : ℝ)
    (h2 : (∑ i in Finset.range HANDLE_N_SAMPLES,
        noise_samples (n_samples - HANDLE_N_SAMPLES + i)
          * noise_samples (n_samples - HANDLE_N_SAMPLES + i)) / (HANDLE_N_SAMPLES : ℝ) = m2)
    (h4 : (∑ i in Finset.range HANDLE_N_SAMPLES,
        noise_samples (n_samples - HANDLE_N_SAMPLES + i)
          * noise_samples (n_samples - HANDLE_N_SAMPLES + i)
          * (noise_samples (n_samples - HANDLE_N_SAMPLES + i)
            * noise_samples (n_samples - HANDLE_N_SAMPLES + i))) / (HANDLE_N_SAMPLES : ℝ) = m4) :
    thresholdSpec sqrtf n_samples noise_samples
      = max (1 / 1000) ((ENERGY_WINDOW : ℝ) * m2
          + (K : ℝ) * sqrtf (ENERGY_WINDOW : ℝ) * sqrtf (max 0 (m4 - m2 * m2))) := by
  unfold thresholdSpec
  simp only []
  rw [h2, h4]
  congr 1
  ring

theorem sqrt_eight_mul_sqrt (s : ℝ) : Real.sqrt 8 * Real.sqrt (2 * (s * s)) = 4 * |s| := by
  rw [← Real.sqrt_mul (by norm_num : (0 : ℝ) ≤ 8)]
  have h : (8 : ℝ) * (2 * (s * s)) = (4 * s) * (4 * s) := by ring
  rw [h, Real.sqrt_mul_self_eq_abs, abs_mul]
  norm_num

/-- C13 (amended): when the trailing `HANDLE_N_SAMPLES` samples have zero mean and
standard deviation `sigma`, `handle` sets the threshold to `max(1e-3, ENERGY_WINDOW *
sigma ^ 2 + K * sqrt(ENERGY_WINDOW) * sqrt(max(0, m4 - sigma ^ 4)))`, with `m4` the
mean fourth power of those samples: it follows the statistics of the squared samples.
The result is never below the floor `1e-3`, and for samples of Gaussian shape
(`m4 = 3 * sigma ^ 4`) it is `max(1e-3, 48 * sigma ^ 2)`. -/
theorem handle_zero_mean_noise (n_samples : Nat) (noise_samples : Nat → ℝ)
    (signal_threshold sigma : ℝ) (hn : HANDLE_N_SAMPLES ≤ n_samples)
    (hmean : ∑ i in Finset.range HANDLE_N_SAMPLES,
      noise_samples (n_samples - HANDLE_N_SAMPLES + i) = 0)
    (hstd : (∑ i in Finset.range HANDLE_N_SAMPLES,
        (noise_samples (n_samples - HANDLE_N_SAMPLES + i)
          - (∑ j in Finset.range HANDLE_N_SAMPLES,
              noise_samples (n_samples - HANDLE_N_SAMPLES + j)) / (HANDLE_N_SAMPLES : ℝ)) ^ 2)
        / (HANDLE_N_SAMPLES : ℝ) = sigma ^ 2) :
    handle Real.sqrt n_samples noise_samples signal_threshold
      = max (1 / 1000) ((ENERGY_WINDOW : ℝ) * sigma ^ 2
          + (K : ℝ) * Real.sqrt (ENERGY_WINDOW : ℝ)
            * Real.sqrt (max 0
                ((∑ i in Finset.range HANDLE_N_SAMPLES,
                    noise_samples (n_samples - HANDLE_N_SAMPLES + i) ^ 4)
                  / (HANDLE_N_SAMPLES : ℝ) - sigma ^ 4))) ∧
    1 / 1000 ≤ handle Real.sqrt n_samples noise_samples signal_threshold ∧
    ((∑ i in Finset.range HANDLE_N_SAMPLES,
          noise_samples (n_samples - HANDLE_N_SAMPLES + i) ^ 4) / (HANDLE_N_SAMPLES : ℝ)
        = 3 * sigma ^ 4 →
      handle Real.sqrt n_samples noise_samples signal_threshold
        = max (1 / 1000) (48 * sigma ^ 2)) := by
  have h2 : (∑ i in Finset.range HANDLE_N_SAMPLES,
      noise_samples (n_samples - HANDLE_N_SAMPLES + i)
        * noise_samples (n_samples - HANDLE_N_SAMPLES + i)) / (HANDLE_N_SAMPLES : ℝ)
      = sigma ^ 2 := by
    rw [← hstd, hmean]
    congr 1
    exact Finset.sum_congr rfl (fun i _ => by ring)
  have h4 : (∑ i in Finset.range HANDLE_N_SAMPLES,
      noise_samples (n_samples - HANDLE_N_SAMPLES + i)
        * noise_samples (n_samples - HANDLE_N_SAMPLES + i)
        * (noise_samples (n_samples - HANDLE_N_SAMPLES + i)
          * noise_samples (n_samples - HANDLE_N_SAMPLES + i))) / (HANDLE_N_SAMPLES : ℝ)
      = (∑ i in Finset.range HANDLE_N_SAMPLES,
          noise_samples (n_samples - HANDLE_N_SAMPLES + i) ^ 4) / (HANDLE_N_SAMPLES : ℝ) := by
    congr 1
    exact Finset.sum_congr rfl (fun i _ => by ring)
  have hs : sigma ^ 2 * sigma ^ 2 = sigma ^ 4 := by ring
  have e := thresholdSpec_of_moments Real.sqrt n_samples noise_samples _ _ h2 h4
  rw [hs] at e
  rw [handle_eq_spec Real.sqrt _ _ _ hn]
  refine ⟨e, ?_, ?_⟩
  · rw [e]
    exact le_max_left _ _
  · intro hg
    rw [e, hg]
    have h0 : max 0 (3 * sigma ^ 4 - sigma ^ 4) = 2 * (sigma ^ 2 * sigma ^ 2) := by
      rw [max_eq_right]
      · ring
      · nlinarith [sq_nonneg (sigma ^ 2)]
    have hk : (K : ℝ) = 10 := by simp [K]
    have hw : (ENERGY_WINDOW : ℝ) = 8 := by simp [ENERGY_WINDOW]
    rw [h0, hk, hw, mul_assoc, sqrt_eight_mul_sqrt, abs_of_nonneg (sq_nonneg sigma)]
    congr 1
    ring

theorem handle_zero_mean_noise_witness :
    handle Real.sqrt 20 (fun i => if i % 2 = 0 then (1 : ℝ) else -1) 0
      = max (1 / 1000) ((ENERGY_WINDOW : ℝ) * 1 ^ 2
          + (K : ℝ) * Real.sqrt (ENERGY_WINDOW : ℝ)
            * Real.sqrt (max 0
                ((∑ i in Finset.range HANDLE_N_SAMPLES,
                    (if (20 - HANDLE_N_SAMPLES + i) % 2 = 0 then (1 : ℝ) else -1) ^ 4)
                  / (HANDLE_N_SAMPLES : ℝ) - 1 ^ 4))) :=
  (handle_zero_mean_noise 20 (fun i => if i % 2 = 0 then (1 : ℝ) else -1) 0 1 (by decide)
    (by simp [HANDLE_N_SAMPLES, Finset.sum_range_succ])
    (by simp [HANDLE_N_SAMPLES, Finset.sum_range_succ])).1

end SignalAnalyzer

/-! ## `PeakInterpolator`: the parabolic fit -/

namespace PeakInterpolator

section
variable {α : Type} [LinearOrderedField α]

theorem szadd_one_eq (index : Nat) (h : index + 1 < U32_MOD) :
    SignalAnalyzer.szadd index 1 = index + 1 := by
  unfold SignalAnalyzer.szadd
  exact Nat.mod_eq_of_lt h

theorem interpolate_peak_parabolic_false_iff (samples : Nat → α) (n_samples index : Nat)
    (t val : α) :
    (interpolate_peak_parabolic samples n_samples index t val).1 = false ↔
      (index = 0 ∨ SignalAnalyzer.szadd index 1 ≥ n_samples) := by
  unfold interpolate_peak_parabolic
  by_cases h : index = 0 ∨ SignalAnalyzer.szadd index 1 ≥ n_samples
  · rw [if_pos h]
    simp [h]
  · rw [if_neg h]
    simp [h]

theorem interpolate_peak_parabolic_unchanged (samples : Nat → α) (n_samples index : Nat)
    (t val : α) (h : (interpolate_peak_parabolic samples n_samples index t val).1 = false) :
    (interpolate_peak_parabolic samples n_samples index t val).2 = (t, val) := by
  have hb := (interpolate_peak_parabolic_false_iff samples n_samples index t val).mp h
  unfold interpolate_peak_parabolic
  rw [if_pos hb]

theorem interpolateLoop_false_iff (samples : Nat → α) (n_samples : Nat) (est_peaks : List Nat) :
    ∀ (j : Nat) (peaks time : Nat → α),
      (interpolateLoop samples n_samples est_peaks j peaks time).1 = false ↔
        ∃ p, p ∈ est_peaks ∧ (p = 0 ∨ SignalAnalyzer.szadd p 1 ≥ n_samples) := by
  induction est_peaks with
  | nil =>
    intro j peaks time
    simp [interpolateLoop]
  | cons p rest ih =>
    intro j peaks time
    unfold interpolateLoop
    by_cases h : (interpolate_peak_parabolic samples n_samples p (time j) (peaks j)).1 = false
    · rw [if_pos h]
      have hb := (interpolate_peak_parabolic_false_iff samples n_samples p _ _).mp h
      constructor
      · intro _
        exact ⟨p, List.mem_cons_self _ _, hb⟩
      · intro _
        rfl
    · rw [if_neg h, ih]
      have hb : ¬ (p = 0 ∨ SignalAnalyzer.szadd p 1 ≥ n_samples) := fun hb =>
        h ((interpolate_peak_parabolic_false_iff samples n_samples p _ _).mpr hb)
      constructor
      · rintro ⟨q, hq, hqb⟩
        exact ⟨q, List.mem_cons_of_mem _ hq, hqb⟩
      · rintro ⟨q, hq, hqb⟩
        rcases List.mem_cons.mp hq with rfl | hq
        · exact absurd hqb hb
        · exact ⟨q, hq, hqb⟩

/-- C14: `interpolate_peak_parabolic` returns false if and only if `index == 0` or
`index + 1 >= n_samples` (the sum as the code computes it in `size_t`, which is the
plain sum for every index below the largest `size_t` value), and then leaves `t` and
`val` as they were; `interpolate_peaks_parabolic` returns false if and only if one of
the listed peaks is such a boundary index. -/
theorem parabolic_fails_at_boundary (samples : Nat → α) (n_samples index : Nat) (t val : α)
    (est_peaks : List Nat) (peaks time : Nat → α) :
    ((interpolate_peak_parabolic samples n_samples index t val).1 = false ↔
      (index = 0 ∨ SignalAnalyzer.szadd index 1 ≥ n_samples)) ∧
    (index + 1 < U32_MOD →
      ((interpolate_peak_parabolic samples n_samples index t val).1 = false ↔
        (index = 0 ∨ index + 1 ≥ n_samples))) ∧
    ((interpolate_peak_parabolic samples n_samples index t val).1 = false →
      (interpolate_peak_parabolic samples n_samples index t val).2 = (t, val)) ∧
    ((interpolate_peaks_parabolic samples n_samples est_peaks peaks time).1 = false ↔
      ∃ p, p ∈ est_peaks ∧ (p = 0 ∨ SignalAnalyzer.szadd p 1 ≥ n_samples)) ∧
    ((∀ p, p ∈ est_peaks → p + 1 < U32_MOD) →
      ((interpolate_peaks_parabolic samples n_samples est_peaks peaks time).1 = false ↔
        ∃ p, p ∈ est_peaks ∧ (p = 0 ∨ p + 1 ≥ n_samples))) := by
  have hloop : (interpolate_peaks_parabolic samples n_samples est_peaks peaks time).1 = false ↔
      ∃ p, p ∈ est_peaks ∧ (p = 0 ∨ SignalAnalyzer.szadd p 1 ≥ n_samples) := by
    unfold interpolate_peaks_parabolic
    exact interpolateLoop_false_iff _ n_samples est_peaks 0 peaks time
  refine ⟨interpolate_peak_parabolic_false_iff samples n_samples index t val, ?_,
    interpolate_peak_parabolic_unchanged samples n_samples index t val, hloop, ?_⟩
  · intro h
    rw [interpolate_peak_parabolic_false_iff, szadd_one_eq index h]
  · intro h
    rw [hloop]
    constructor
    · rintro ⟨p, hp, hb⟩
      rw [szadd_one_eq p (h p hp)] at hb
      exact ⟨p, hp, hb⟩
    · rintro ⟨p, hp, hb⟩
      refine ⟨p, hp, ?_⟩
      rw [szadd_one_eq p (h p hp)]
      exact hb

end

theorem parabolic_fails_at_boundary_witness :
    (9 + 1 < U32_MOD ∧
      ((interpolate_peak_parabolic (fun _ => (1 : ℚ)) 10 9 0 0).1 = false ↔
        (9 = 0 ∨ 9 + 1 ≥ 10))) ∧
    ((interpolate_peak_parabolic (fun _ => (1 : ℚ)) 10 9 0 0).1 = false ∧
      (interpolate_peak_parabolic (fun _ => (1 : ℚ)) 10 9 0 0).2 = (0, 0)) ∧
    ((∀ p, p ∈ [3, 9, 5] → p + 1 < U32_MOD) ∧
      ((interpolate_peaks_parabolic (fun _ => (1 : ℚ)) 10 [3, 9, 5] (fun _ => 0) (fun _ => 0)).1
          = false ↔
        ∃ p, p ∈ [3, 9, 5] ∧ (p = 0 ∨ p + 1 ≥ 10))) :=
  ⟨⟨by decide,
    (parabolic_fails_at_boundary (fun _ => (1 : ℚ)) 10 9 0 0 [3, 9, 5] (fun _ => 0)
      (fun _ => 0)).2.1 (by decide)⟩,
   ⟨by
      rw [interpolate_peak_parabolic_false_iff]
      decide,
    (parabolic_fails_at_boundary (fun _ => (1 : ℚ)) 10 9 0 0 [3, 9, 5] (fun _ => 0)
      (fun _ => 0)).2.2.1 (by
        rw [interpolate_peak_parabolic_false_iff]
        decide)⟩,
   ⟨by decide,
    (parabolic_fails_at_boundary (fun _ => (1 : ℚ)) 10 9 0 0 [3, 9, 5] (fun _ => 0)
      (fun _ => 0)).2.2.2.2 (by decide)⟩⟩

end PeakInterpolator

namespace PeakInterpolator

section
variable {α : Type} [LinearOrderedField α]

/-- C15: on the samples of an exact parabola `y(x) = A * (x - v) ^ 2 + C` with
`|2 * A| ≥ 1e-9`, at an interior index `k` with `|v - k| ≤ 0.5`,
`interpolate_peak_parabolic` succeeds and returns `t = v * SAMPLE_T_US` (that is,
`delta = v - k`) and `val = C`. -/
theorem parabolic_round_trip (samples : Nat → α) (n_samples k : Nat) (A v C t val : α)
    (hs : ∀ i : Nat, samples i = A * ((i : α) - v) ^ 2 + C)
    (hn : n_samples < U32_MOD) (hk : 1 ≤ k) (hkn : k + 1 < n_samples)
    (hA : 1 / 1000000000 ≤ abs (2 * A)) (hv : abs (v - (k : α)) ≤ 1 / 2) :
    interpolate_peak_parabolic samples n_samples k t val = (true, v * SAMPLE_T_US, C) := by
  have hsz : SignalAnalyzer.szadd k 1 = k + 1 := szadd_one_eq k (by omega)
  have hguard : ¬ (k = 0 ∨ SignalAnalyzer.szadd k 1 ≥ n_samples) := by
    rw [hsz]
    omega
  have hA0 : A ≠ 0 := by
    intro h0
    rw [h0] at hA
    norm_num at hA
  have hkm : ((k - 1 : Nat) : α) = (k : α) - 1 := by
    rw [Nat.cast_sub hk, Nat.cast_one]
  have hkp : ((k + 1 : Nat) : α) = (k : α) + 1 := by
    rw [Nat.cast_add, Nat.cast_one]
  have ha : 1 / 2 * (samples (k - 1) + samples (k + 1)) - samples k = A := by
    rw [hs, hs, hs, hkm, hkp]
    ring
  have hb : 1 / 2 * (samples (k + 1) - samples (k - 1)) = -(2 * A * (v - (k : α))) := by
    rw [hs, hs, hkm, hkp]
    ring
  have hd : -(-(2 * A * (v - (k : α)))) / (2 * A) = v - (k : α) := by
    field_simp
  have hv2 := abs_le.mp hv
  unfold interpolate_peak_parabolic
  rw [if_neg hguard]
  simp only [hsz, ha, hb, hd]
  rw [if_neg (not_lt.mpr hA), if_neg (not_lt.mpr hv2.2), if_neg (not_lt.mpr hv2.1)]
  refine Prod.ext rfl (Prod.ext ?_ ?_)
  · show ((k : α) + (v - (k : α))) * 1000 / 192 = v * SAMPLE_T_US
    unfold SAMPLE_T_US
    ring
  · show (A * (v - (k : α)) + -(2 * A * (v - (k : α)))) * (v - (k : α)) + samples k = C
    rw [hs]
    ring

end

theorem parabolic_round_trip_witness :
    interpolate_peak_parabolic (fun i : Nat => (2 : ℚ) * ((i : ℚ) - 13 / 4) ^ 2 + 7) 10 3 0 0
      = (true, 13 / 4 * SAMPLE_T_US, 7) :=
  parabolic_round_trip (fun i : Nat => (2 : ℚ) * ((i : ℚ) - 13 / 4) ^ 2 + 7) 10 3 2 (13 / 4) 7 0 0
    (fun _ => rfl) (by decide) (by decide) (by decide) (by norm_num)
    (abs_le.mpr ⟨by norm_num, by norm_num⟩)

end PeakInterpolator

/-! ## `PeakInterpolator`: the sub-sample offset -/

namespace PeakInterpolator

section
variable {α : Type} [LinearOrderedField α]

theorem clamp_half_bounds (d : α) :
    -(1 / 2) ≤ (if (if d > 1 / 2 then 1 / 2 else d) < -(1 / 2) then -(1 / 2)
        else (if d > 1 / 2 then 1 / 2 else d)) ∧
    (if (if d > 1 / 2 then 1 / 2 else d) < -(1 / 2) then -(1 / 2)
        else (if d > 1 / 2 then 1 / 2 else d)) ≤ (1 / 2 : α) := by
  have hneg : -(1 / 2 : α) ≤ 1 / 2 := by norm_num
  by_cases h1 : d > 1 / 2
  · rw [if_pos h1]
    rw [if_neg (not_lt.mpr hneg)]
    exact ⟨hneg, le_refl _⟩
  · rw [if_neg h1]
    by_cases h2 : d < -(1 / 2)
    · rw [if_pos h2]
      exact ⟨le_refl _, hneg⟩
    · rw [if_neg h2]
      exact ⟨not_lt.mp h2, not_lt.mp h1⟩

theorem secantLoop_bounds (g : α → α) :
    ∀ (iters : Nat) (delta0 g0 delta1 g1 : α), -(1 / 2) ≤ delta1 → delta1 ≤ 1 / 2 →
      -(1 / 2) ≤ secantLoop g iters delta0 g0 delta1 g1 ∧
      secantLoop g iters delta0 g0 delta1 g1 ≤ 1 / 2 := by
  intro iters
  induction iters with
  | zero =>
    intro delta0 g0 delta1 g1 hlo hhi
    exact ⟨hlo, hhi⟩
  | succ iters ih =>
    intro delta0 g0 delta1 g1 hlo hhi
    unfold secantLoop
    simp only []
    by_cases hbreak : abs (g1 - g0) < 1 / 1000000 ∨ abs g1 < 1 / 1000000
    · rw [if_pos hbreak]
      exact ⟨hlo, hhi⟩
    · rw [if_neg hbreak]
      exact ih _ _ _ _ (clamp_half_bounds _).1 (clamp_half_bounds _).2

theorem interpolate_peak_parabolic_true_iff (samples : Nat → α) (n_samples index : Nat)
    (t val : α) :
    (interpolate_peak_parabolic samples n_samples index t val).1 = true ↔
      ¬ (index = 0 ∨ SignalAnalyzer.szadd index 1 ≥ n_samples) := by
  rw [← interpolate_peak_parabolic_false_iff samples n_samples index t val]
  simp

theorem interpolate_peak_true_iff (sinf cosf : α → α) (samples : Nat → α)
    (n_samples index : Nat) (t val : α) :
    (interpolate_peak sinf cosf samples n_samples index t val).1 = true ↔
      ¬ (index < INTERPOLATION_NEIGHBOURS ∨
        SignalAnalyzer.szadd index INTERPOLATION_NEIGHBOURS ≥ n_samples) := by
  unfold interpolate_peak
  by_cases h : index < INTERPOLATION_NEIGHBOURS ∨
      SignalAnalyzer.szadd index INTERPOLATION_NEIGHBOURS ≥ n_samples
  · rw [if_pos h]
    simp [h]
  · rw [if_neg h]
    simp [h]

theorem half_period_of_delta (index : Nat) (delta t : α) (hlo : -(1 / 2) ≤ delta)
    (hhi : delta ≤ 1 / 2) (ht : t = ((index : α) + delta) * SAMPLE_T_US) :
    abs (t - (index : α) * SAMPLE_T_US) ≤ SAMPLE_T_US / 2 := by
  have hT : (0 : α) ≤ SAMPLE_T_US := by
    unfold SAMPLE_T_US
    norm_num
  have e : t - (index : α) * SAMPLE_T_US = delta * SAMPLE_T_US := by
    rw [ht]
    ring
  rw [e, abs_le]
  constructor
  · have := mul_le_mul_of_nonneg_right hlo hT
    linarith
  · have := mul_le_mul_of_nonneg_right hhi hT
    linarith

/-- C16: whenever `interpolate_peak_parabolic` or `interpolate_peak` succeeds, the
returned time is `t = (index + delta) * SAMPLE_T_US` for a `delta` with
`-0.5 ≤ delta ≤ 0.5`, so it is at most half a sample period away from the time of the
integer index. -/
theorem sub_sample_bound (sinf cosf : α → α) (samples : Nat → α) (n_samples index : Nat)
    (t val : α) :
    ((interpolate_peak_parabolic samples n_samples index t val).1 = true →
      (∃ delta : α, -(1 / 2) ≤ delta ∧ delta ≤ 1 / 2 ∧
        (interpolate_peak_parabolic samples n_samples index t val).2.1
          = ((index : α) + delta) * SAMPLE_T_US) ∧
      abs ((interpolate_peak_parabolic samples n_samples index t val).2.1
          - (index : α) * SAMPLE_T_US) ≤ SAMPLE_T_US / 2) ∧
    ((interpolate_peak sinf cosf samples n_samples index t val).1 = true →
      (∃ delta : α, -(1 / 2) ≤ delta ∧ delta ≤ 1 / 2 ∧
        (interpolate_peak sinf cosf samples n_samples index t val).2.1
          = ((index : α) + delta) * SAMPLE_T_US) ∧
      abs ((interpolate_peak sinf cosf samples n_samples index t val).2.1
          - (index : α) * SAMPLE_T_US) ≤ SAMPLE_T_US / 2) := by
  constructor
  · intro h
    have hg := (interpolate_peak_parabolic_true_iff samples n_samples index t val).mp h
    have key : ∃ delta : α, -(1 / 2) ≤ delta ∧ delta ≤ 1 / 2 ∧
        (interpolate_peak_parabolic samples n_samples index t val).2.1
          = ((index : α) + delta) * SAMPLE_T_US := by
      unfold interpolate_peak_parabolic
      rw [if_neg hg]
      simp only []
      by_cases hden : abs (2 * (1 / 2 * (samples (index - 1)
          + samples (SignalAnalyzer.szadd index 1)) - samples index)) < 1 / 1000000000
      · rw [if_pos hden]
        refine ⟨0, by norm_num, by norm_num, ?_⟩
        unfold SAMPLE_T_US
        ring
      · rw [if_neg hden]
        refine ⟨_,
          (clamp_half_bounds (-(1 / 2 * (samples (SignalAnalyzer.szadd index 1)
            - samples (index - 1))) / (2 * (1 / 2 * (samples (index - 1)
            + samples (SignalAnalyzer.szadd index 1)) - samples index)))).1,
          (clamp_half_bounds (-(1 / 2 * (samples (SignalAnalyzer.szadd index 1)
            - samples (index - 1))) / (2 * (1 / 2 * (samples (index - 1)
            + samples (SignalAnalyzer.szadd index 1)) - samples index)))).2, ?_⟩
        unfold SAMPLE_T_US
        ring
    obtain ⟨delta, hlo, hhi, ht⟩ := key
    exact ⟨⟨delta, hlo, hhi, ht⟩, half_period_of_delta index delta _ hlo hhi ht⟩
  · intro h
    have hg := (interpolate_peak_true_iff sinf cosf samples n_samples index t val).mp h
    have key : ∃ delta : α, -(1 / 2) ≤ delta ∧ delta ≤ 1 / 2 ∧
        (interpolate_peak sinf cosf samples n_samples index t val).2.1
          = ((index : α) + delta) * SAMPLE_T_US := by
      unfold interpolate_peak
      rw [if_neg hg]
      simp only []
      have hb := secantLoop_bounds (windowed_sinc_pi_der sinf cosf samples index) 10
        (-(1 / 100)) (windowed_sinc_pi_der sinf cosf samples index (-(1 / 100)))
        (1 / 100) (windowed_sinc_pi_der sinf cosf samples index (1 / 100))
        (by norm_num) (by norm_num)
      refine ⟨_, hb.1, hb.2, ?_⟩
      unfold SAMPLE_T_US
      rfl
    obtain ⟨delta, hlo, hhi, ht⟩ := key
    exact ⟨⟨delta, hlo, hhi, ht⟩, half_period_of_delta index delta _ hlo hhi ht⟩

end

theorem sub_sample_bound_witness :
    (abs ((interpolate_peak_parabolic (fun i : Nat => ((i : ℝ) - 4) ^ 2) 20 7 0 0).2.1
        - ((7 : Nat) : ℝ) * SAMPLE_T_US) ≤ SAMPLE_T_US / 2) ∧
    (abs ((interpolate_peak Real.sin Real.cos (fun i : Nat => ((i : ℝ) - 4) ^ 2) 20 7 0 0).2.1
        - ((7 : Nat) : ℝ) * SAMPLE_T_US) ≤ SAMPLE_T_US / 2) :=
  ⟨((sub_sample_bound Real.sin Real.cos (fun i : Nat => ((i : ℝ) - 4) ^ 2) 20 7 0 0).1
      ((interpolate_peak_parabolic_true_iff _ 20 7 0 0).mpr (by decide))).2,
   ((sub_sample_bound Real.sin Real.cos (fun i : Nat => ((i : ℝ) - 4) ^ 2) 20 7 0 0).2
      ((interpolate_peak_true_iff Real.sin Real.cos _ 20 7 0 0).mpr (by decide))).2⟩

end PeakInterpolator

/-! ## The lag search of `find_peak_diff` -/

namespace Algorithm

section
variable {α : Type} [LinearOrderedField α]

theorem N_eq : N = 20 := rfl

theorem L_eq : L = 10 := by decide

theorem W_eq : W = 10 := by decide

theorem tie_eps_pos : (0 : α) < TIE_EPS := by
  unfold TIE_EPS
  norm_num

theorem tie_eps_lt_one : (TIE_EPS : α) < 1 := by
  unfold TIE_EPS
  norm_num

theorem foldl_triple_sum (f g h : Nat → α) (n : Nat) :
    (List.range n).foldl (fun s i => (s.1 + f i, s.2.1 + g i, s.2.2 + h i))
      ((0 : α), (0 : α), (0 : α))
      = (∑ i in Finset.range n, f i, ∑ i in Finset.range n, g i, ∑ i in Finset.range n, h i) := by
  induction n with
  | zero => simp
  | succ n ih =>
    rw [List.range_succ, List.foldl_append, ih]
    simp [Finset.sum_range_succ]

theorem corrSums_eq (a b : Nat → α) (n : Nat) :
    corrSums a b n
      = (∑ i in Finset.range n, a i * b i, ∑ i in Finset.range n, a i * a i,
         ∑ i in Finset.range n, b i * b i) := by
  unfold corrSums
  exact foldl_triple_sum _ _ _ n

theorem corr_norm_eq (sqrtf : α → α) (a b : Nat → α) (n : Nat) :
    corr_norm sqrtf a b n
      = if sqrtf ((∑ i in Finset.range n, a i * a i) * (∑ i in Finset.range n, b i * b i))
            < 1 / 1000000000000 then -1
        else (∑ i in Finset.range n, a i * b i)
          / sqrtf ((∑ i in Finset.range n, a i * a i) * (∑ i in Finset.range n, b i * b i)) := by
  unfold corr_norm
  simp only [corrSums_eq]

theorem corr_norm_comm (sqrtf : α → α) (a b : Nat → α) (n : Nat) :
    corr_norm sqrtf a b n = corr_norm sqrtf b a n := by
  rw [corr_norm_eq, corr_norm_eq]
  have h1 : ∑ i in Finset.range n, a i * b i = ∑ i in Finset.range n, b i * a i :=
    Finset.sum_congr rfl (fun i _ => mul_comm _ _)
  rw [h1, mul_comm (∑ i in Finset.range n, a i * a i)]

theorem sqrt_mul_self_of_isSqrt (sqrtf : α → α) (hs : IsSqrt sqrtf) (y : α) (hy : 0 ≤ y) :
    sqrtf (y * y) = y := by
  obtain ⟨h0, h1⟩ := hs (y * y) (mul_self_nonneg y)
  rcases mul_self_eq_mul_self_iff.mp h1 with h | h
  · exact h
  · have : y = 0 := by linarith
    rw [h, this]
    simp

theorem sum_mul_self_nonneg (a : Nat → α) (n : Nat) :
    0 ≤ ∑ i in Finset.range n, a i * a i :=
  Finset.sum_nonneg (fun i _ => mul_self_nonneg (a i))

theorem corr_norm_bounds (sqrtf : α → α) (hs : IsSqrt sqrtf) (a b : Nat → α) (n : Nat) :
    -1 ≤ corr_norm sqrtf a b n ∧ corr_norm sqrtf a b n ≤ 1 := by
  rw [corr_norm_eq]
  by_cases hden : sqrtf ((∑ i in Finset.range n, a i * a i) * (∑ i in Finset.range n, b i * b i))
      < 1 / 1000000000000
  · rw [if_pos hden]
    constructor
    · exact le_refl _
    · norm_num
  · rw [if_neg hden]
    have hnn : 0 ≤ (∑ i in Finset.range n, a i * a i) * (∑ i in Finset.range n, b i * b i) :=
      mul_nonneg (sum_mul_self_nonneg a n) (sum_mul_self_nonneg b n)
    obtain ⟨_, hsq⟩ := hs _ hnn
    have hD : (0 : α) < sqrtf ((∑ i in Finset.range n, a i * a i)
        * (∑ i in Finset.range n, b i * b i)) :=
      lt_of_lt_of_le (by norm_num) (not_lt.mp hden)
    have hcs : (∑ i in Finset.range n, a i * b i) ^ 2
        ≤ (∑ i in Finset.range n, a i ^ 2) * (∑ i in Finset.range n, b i ^ 2) :=
      Finset.sum_mul_sq_le_sq_mul_sq _ _ _
    simp only [pow_two] at hcs
    rw [← hsq] at hcs
    have habs := abs_le_of_sq_le_sq (by simpa [pow_two] using hcs) (le_of_lt hD)
    obtain ⟨hlo, hhi⟩ := abs_le.mp habs
    constructor
    · rw [le_div_iff₀ hD]
      linarith
    · rw [div_le_one hD]
      exact hhi

theorem corrAt_bounds (sqrtf : α → α) (hs : IsSqrt sqrtf) (peaks_l peaks_r : Nat → α)
    (lag : Int) :
    -1 ≤ corrAt sqrtf peaks_l peaks_r lag ∧ corrAt sqrtf peaks_l peaks_r lag ≤ 1 := by
  unfold corrAt
  exact corr_norm_bounds sqrtf hs _ _ _

theorem corrAt_swap (sqrtf : α → α) (peaks_l peaks_r : Nat → α) (lag : Int) :
    corrAt sqrtf peaks_r peaks_l (-lag) = corrAt sqrtf peaks_l peaks_r lag := by
  unfold corrAt
  rw [corr_norm_comm]
  rcases lt_trichotomy lag 0 with h | h | h
  · have h1 : ¬ (-lag < 0) := by omega
    rw [if_neg h1, if_pos h]
    have e1 : ((0 : Int) + -lag).toNat = (-lag).toNat := by rw [zero_add]
    have e2 : (-lag + lag).toNat = (0 : Int).toNat := by rw [neg_add_cancel]
    rw [e1, e2]
  · subst h
    simp
  · have h1 : -lag < 0 := by omega
    have h2 : ¬ (lag < 0) := by omega
    rw [if_pos h1, if_neg h2]
    have e1 : (- -lag + -lag).toNat = (0 : Int).toNat := by
      rw [neg_neg, add_neg_cancel]
    have e2 : (- -lag).toNat = ((0 : Int) + lag).toNat := by rw [neg_neg, zero_add]
    rw [e1, e2]

theorem lagSearchUpTo_succ (sqrtf : α → α) (peaks_l peaks_r : Nat → α) (k : Nat) :
    lagSearchUpTo sqrtf peaks_l peaks_r (k + 1)
      = lagStep sqrtf peaks_l peaks_r (lagSearchUpTo sqrtf peaks_l peaks_r k) (-L + (k : Int)) := by
  unfold lagSearchUpTo
  rw [List.range_succ, List.foldl_append]
  rfl

theorem lagStep_eq (sqrtf : α → α) (peaks_l peaks_r : Nat → α) (best : LagSearch α) (lag : Int)
    (h1 : -10 ≤ lag) (h2 : lag ≤ 10) :
    lagStep sqrtf peaks_l peaks_r best lag
      = if corrAt sqrtf peaks_l peaks_r lag > best.bestCorr + TIE_EPS ∨
            (abs (corrAt sqrtf peaks_l peaks_r lag - best.bestCorr) ≤ TIE_EPS ∧
              abs lag < abs best.bestLag) then
          ⟨lag, corrAt sqrtf peaks_l peaks_r lag⟩
        else best := by
  unfold lagStep
  have hg : ¬ ((if lag < 0 then -lag else 0) + W > N) := by
    rw [W_eq, N_eq]
    split_ifs <;> omega
  rw [if_neg hg]

end

end Algorithm

namespace Algorithm

section
variable {α : Type} [LinearOrderedField α]

theorem lagSearchUpTo_range (sqrtf : α → α) (peaks_l peaks_r : Nat → α) :
    ∀ k : Nat, k ≤ 21 →
      -10 ≤ (lagSearchUpTo sqrtf peaks_l peaks_r k).bestLag ∧
      (lagSearchUpTo sqrtf peaks_l peaks_r k).bestLag ≤ 10 := by
  intro k
  induction k with
  | zero =>
    intro _
    show (-10 : Int) ≤ 0 ∧ (0 : Int) ≤ 10
    exact ⟨by decide, by decide⟩
  | succ k ih =>
    intro hk
    rw [lagSearchUpTo_succ, L_eq, lagStep_eq _ _ _ _ _ (by omega) (by omega)]
    split_ifs
    · exact ⟨by show (-10 : Int) ≤ -10 + (k : Int); omega, by show -10 + (k : Int) ≤ 10; omega⟩
    · exact ih (by omega)

theorem lagSearch_eq_upTo (sqrtf : α → α) (peaks_l peaks_r : Nat → α) :
    lagSearch sqrtf peaks_l peaks_r = lagSearchUpTo sqrtf peaks_l peaks_r 21 := rfl

/-- Under a true square root the first pass adopts lag `-L`, and from then on
`bestCorr` is the correlation of `bestLag`, which no lag examined later beats by more
than `TIE_EPS` or ties with a smaller absolute value. -/
theorem lagSearchUpTo_later (sqrtf : α → α) (hs : IsSqrt sqrtf) (peaks_l peaks_r : Nat → α) :
    ∀ k : Nat, 1 ≤ k → k ≤ 21 →
      ∃ j : Nat, j < k ∧
        lagSearchUpTo sqrtf peaks_l peaks_r k
          = ⟨-10 + (j : Int), corrAt sqrtf peaks_l peaks_r (-10 + (j : Int))⟩ ∧
        ∀ i : Nat, j < i → i < k →
          corrAt sqrtf peaks_l peaks_r (-10 + (i : Int))
            ≤ corrAt sqrtf peaks_l peaks_r (-10 + (j : Int)) + TIE_EPS ∧
          ¬ (abs (corrAt sqrtf peaks_l peaks_r (-10 + (i : Int))
                - corrAt sqrtf peaks_l peaks_r (-10 + (j : Int))) ≤ TIE_EPS ∧
              abs (-10 + (i : Int)) < abs (-10 + (j : Int))) := by
  intro k
  induction k with
  | zero =>
    intro h
    omega
  | succ k ih =>
    intro _ hk
    rw [lagSearchUpTo_succ, L_eq, lagStep_eq _ _ _ _ _ (by omega) (by omega)]
    rcases Nat.eq_zero_or_pos k with h0 | hpos
    · subst h0
      have hb := (corrAt_bounds sqrtf hs peaks_l peaks_r (-10 + ((0 : Nat) : Int))).1
      have hc : corrAt sqrtf peaks_l peaks_r (-10 + ((0 : Nat) : Int))
          > (lagSearchUpTo sqrtf peaks_l peaks_r 0).bestCorr + TIE_EPS := by
        show corrAt sqrtf peaks_l peaks_r (-10 + ((0 : Nat) : Int)) > -2 + TIE_EPS
        have := tie_eps_lt_one (α := α)
        linarith
      rw [if_pos (Or.inl hc)]
      exact ⟨0, by omega, rfl, fun i h1 h2 => by omega⟩
    · obtain ⟨j, hj, hbest, hlater⟩ := ih hpos (by omega)
      by_cases hc : corrAt sqrtf peaks_l peaks_r (-10 + (k : Int))
            > (lagSearchUpTo sqrtf peaks_l peaks_r k).bestCorr + TIE_EPS ∨
          (abs (corrAt sqrtf peaks_l peaks_r (-10 + (k : Int))
              - (lagSearchUpTo sqrtf peaks_l peaks_r k).bestCorr) ≤ TIE_EPS ∧
            abs (-10 + (k : Int)) < abs (lagSearchUpTo sqrtf peaks_l peaks_r k).bestLag)
      · rw [if_pos hc]
        exact ⟨k, by omega, rfl, fun i h1 h2 => by omega⟩
      · rw [if_neg hc]
        refine ⟨j, by omega, hbest, ?_⟩
        intro i h1 h2
        rcases Nat.lt_or_ge i k with hik | hik
        · exact hlater i h1 hik
        · have hi : i = k := by omega
          subst hi
          rw [hbest] at hc
          push_neg at hc
          exact ⟨hc.1, fun h => absurd h.2 (not_lt.mpr (hc.2 h.1))⟩

/-- When the correlation at `m` exceeds that at every other lag by more than
`TIE_EPS`, the search ends with `m`. -/
theorem lagSearchUpTo_separated (sqrtf : α → α) (hs : IsSqrt sqrtf) (peaks_l peaks_r : Nat → α)
    (m : Int) (hm1 : -10 ≤ m) (hm2 : m ≤ 10)
    (hsep : ∀ lag : Int, -10 ≤ lag → lag ≤ 10 → lag ≠ m →
      corrAt sqrtf peaks_l peaks_r lag + TIE_EPS < corrAt sqrtf peaks_l peaks_r m) :
    ∀ k : Nat, k ≤ 21 →
      ((k : Int) ≤ m + 10 →
        (lagSearchUpTo sqrtf peaks_l peaks_r k = ⟨0, -2⟩ ∨
          ∃ j : Nat, j < k ∧ lagSearchUpTo sqrtf peaks_l peaks_r k
            = ⟨-10 + (j : Int), corrAt sqrtf peaks_l peaks_r (-10 + (j : Int))⟩)) ∧
      (m + 10 < (k : Int) →
        lagSearchUpTo sqrtf peaks_l peaks_r k = ⟨m, corrAt sqrtf peaks_l peaks_r m⟩) := by
  have heps := tie_eps_pos (α := α)
  have heps1 := tie_eps_lt_one (α := α)
  intro k
  induction k with
  | zero =>
    intro _
    exact ⟨fun _ => Or.inl rfl, fun h => by omega⟩
  | succ k ih =>
    intro hk
    obtain ⟨ih1, ih2⟩ := ih (by omega)
    rw [lagSearchUpTo_succ, L_eq, lagStep_eq _ _ _ _ _ (by omega) (by omega)]
    constructor
    · intro hle
      have hb := ih1 (by push_cast at hle; omega)
      split_ifs
      · exact Or.inr ⟨k, by omega, rfl⟩
      · rcases hb with hb | ⟨j, hj, hb⟩
        · exact Or.inl hb
        · exact Or.inr ⟨j, by omega, hb⟩
    · intro hlt
      rcases lt_or_ge (m + 10) (k : Int) with hgt | hle
      · have hb := ih2 hgt
        rw [hb]
        have hne : -10 + (k : Int) ≠ m := by omega
        have hlt2 := hsep (-10 + (k : Int)) (by omega) (by omega) hne
        have hc : ¬ (corrAt sqrtf peaks_l peaks_r (-10 + (k : Int))
              > corrAt sqrtf peaks_l peaks_r m + TIE_EPS ∨
            (abs (corrAt sqrtf peaks_l peaks_r (-10 + (k : Int))
                - corrAt sqrtf peaks_l peaks_r m) ≤ TIE_EPS ∧
              abs (-10 + (k : Int)) < abs m)) := by
          rintro (h | ⟨h, _⟩)
          · linarith
          · have := (abs_le.mp h).1
            linarith
        rw [if_neg hc]
      · have hkm : -10 + (k : Int) = m := by push_cast at hlt; omega
        rw [hkm]
        have hc : corrAt sqrtf peaks_l peaks_r m
            > (lagSearchUpTo sqrtf peaks_l peaks_r k).bestCorr + TIE_EPS := by
          rcases ih1 hle with hb | ⟨j, hj, hb⟩
          · rw [hb]
            show corrAt sqrtf peaks_l peaks_r m > -2 + TIE_EPS
            have := (corrAt_bounds sqrtf hs peaks_l peaks_r m).1
            linarith
          · rw [hb]
            have hne : -10 + (j : Int) ≠ m := by omega
            exact hsep (-10 + (j : Int)) (by omega) (by omega) hne
        rw [if_pos (Or.inl hc)]

theorem lagSearch_separated (sqrtf : α → α) (hs : IsSqrt sqrtf) (peaks_l peaks_r : Nat → α)
    (m : Int) (hm1 : -10 ≤ m) (hm2 : m ≤ 10)
    (hsep : ∀ lag : Int, -10 ≤ lag → lag ≤ 10 → lag ≠ m →
      corrAt sqrtf peaks_l peaks_r lag + TIE_EPS < corrAt sqrtf peaks_l peaks_r m) :
    lagSearch sqrtf peaks_l peaks_r = ⟨m, corrAt sqrtf peaks_l peaks_r m⟩ := by
  rw [lagSearch_eq_upTo]
  exact (lagSearchUpTo_separated sqrtf hs peaks_l peaks_r m hm1 hm2 hsep 21 (le_refl _)).2
    (by push_cast; omega)

/-- When the correlation at lag `0` is `1`, the search ends with lag `0`. -/
theorem lagSearchUpTo_zero (sqrtf : α → α) (hs : IsSqrt sqrtf) (peaks_l peaks_r : Nat → α)
    (h0 : corrAt sqrtf peaks_l peaks_r 0 = 1) :
    ∀ k : Nat, k ≤ 21 →
      (k ≤ 10 →
        (lagSearchUpTo sqrtf peaks_l peaks_r k = ⟨0, -2⟩ ∨
          ((lagSearchUpTo sqrtf peaks_l peaks_r k).bestLag < 0 ∧
            (lagSearchUpTo sqrtf peaks_l peaks_r k).bestCorr ≤ 1))) ∧
      (10 < k → lagSearchUpTo sqrtf peaks_l peaks_r k = ⟨0, 1⟩) := by
  have heps := tie_eps_pos (α := α)
  have heps1 := tie_eps_lt_one (α := α)
  intro k
  induction k with
  | zero =>
    intro _
    exact ⟨fun _ => Or.inl rfl, fun h => by omega⟩
  | succ k ih =>
    intro hk
    obtain ⟨ih1, ih2⟩ := ih (by omega)
    rw [lagSearchUpTo_succ, L_eq, lagStep_eq _ _ _ _ _ (by omega) (by omega)]
    constructor
    · intro hle
      have hb := ih1 (by omega)
      split_ifs
      · exact Or.inr ⟨by show -10 + (k : Int) < 0; omega,
          (corrAt_bounds sqrtf hs peaks_l peaks_r _).2⟩
      · exact hb
    · intro hlt
      rcases Nat.lt_or_ge 10 k with hgt | hle
      · have hb := ih2 hgt
        rw [hb]
        have hc : ¬ (corrAt sqrtf peaks_l peaks_r (-10 + (k : Int)) > 1 + TIE_EPS ∨
            (abs (corrAt sqrtf peaks_l peaks_r (-10 + (k : Int)) - 1) ≤ TIE_EPS ∧
              abs (-10 + (k : Int)) < abs (0 : Int))) := by
          rintro (h | ⟨_, h⟩)
          · have := (corrAt_bounds sqrtf hs peaks_l peaks_r (-10 + (k : Int))).2
            linarith
          · rw [abs_zero] at h
            exact absurd h (not_lt.mpr (abs_nonneg _))
        rw [if_neg hc]
      · have hk10 : k = 10 := by omega
        subst hk10
        have hlag : -10 + ((10 : Nat) : Int) = 0 := by decide
        rw [hlag, h0]
        have hc : (1 : α) > (lagSearchUpTo sqrtf peaks_l peaks_r 10).bestCorr + TIE_EPS ∨
            (abs (1 - (lagSearchUpTo sqrtf peaks_l peaks_r 10).bestCorr) ≤ TIE_EPS ∧
              abs (0 : Int) < abs (lagSearchUpTo sqrtf peaks_l peaks_r 10).bestLag) := by
          rcases ih1 (le_refl _) with hb | ⟨hb1, hb2⟩
          · left
            rw [hb]
            show (1 : α) > -2 + TIE_EPS
            linarith
          · by_cases hgt : (1 : α) > (lagSearchUpTo sqrtf peaks_l peaks_r 10).bestCorr + TIE_EPS
            · exact Or.inl hgt
            · right
              constructor
              · rw [abs_le]
                constructor <;> linarith [not_lt.mp hgt]
              · rw [abs_zero]
                exact abs_pos.mpr (by omega)
        rw [if_pos hc]

theorem lagSearch_zero (sqrtf : α → α) (hs : IsSqrt sqrtf) (peaks_l peaks_r : Nat → α)
    (h0 : corrAt sqrtf peaks_l peaks_r 0 = 1) :
    lagSearch sqrtf peaks_l peaks_r = ⟨0, 1⟩ := by
  rw [lagSearch_eq_upTo]
  exact (lagSearchUpTo_zero sqrtf hs peaks_l peaks_r h0 21 (le_refl _)).2 (by omega)

end

end Algorithm

/-! ## The sort and the median of `find_peak_diff` -/

namespace Algorithm

section
variable {α : Type} [LinearOrderedField α]

theorem selectMin_fold (dt : List α) (i : Nat) : ∀ c : Nat,
    i ≤ (List.range c).foldl
        (fun mi k => if dt.getD (i + 1 + k) 0 < dt.getD mi 0 then i + 1 + k else mi) i ∧
    (List.range c).foldl
        (fun mi k => if dt.getD (i + 1 + k) 0 < dt.getD mi 0 then i + 1 + k else mi) i ≤ i + c ∧
    ∀ q, i ≤ q → q ≤ i + c →
      dt.getD ((List.range c).foldl
        (fun mi k => if dt.getD (i + 1 + k) 0 < dt.getD mi 0 then i + 1 + k else mi) i) 0
        ≤ dt.getD q 0 := by
  intro c
  induction c with
  | zero =>
    refine ⟨le_refl _, le_refl _, ?_⟩
    intro q h1 h2
    have hq : q = i := by omega
    subst hq
    exact le_refl _
  | succ c ih =>
    obtain ⟨h1, h2, h3⟩ := ih
    rw [List.range_succ, List.foldl_append]
    simp only [List.foldl_cons, List.foldl_nil]
    by_cases hlt : dt.getD (i + 1 + c) 0 < dt.getD ((List.range c).foldl
        (fun mi k => if dt.getD (i + 1 + k) 0 < dt.getD mi 0 then i + 1 + k else mi) i) 0
    · rw [if_pos hlt]
      refine ⟨by omega, by omega, ?_⟩
      intro q hq1 hq2
      rcases Nat.lt_or_ge q (i + 1 + c) with hq | hq
      · exact le_trans (le_of_lt hlt) (h3 q hq1 (by omega))
      · have hq3 : q = i + 1 + c := by omega
        subst hq3
        exact le_refl _
    · rw [if_neg hlt]
      refine ⟨h1, by omega, ?_⟩
      intro q hq1 hq2
      rcases Nat.lt_or_ge q (i + 1 + c) with hq | hq
      · exact h3 q hq1 (by omega)
      · have hq3 : q = i + 1 + c := by omega
        subst hq3
        exact not_lt.mp hlt

theorem selectMin_spec (dt : List α) (i : Nat) (hi : i < dt.length) :
    i ≤ selectMin dt i ∧ selectMin dt i < dt.length ∧
    ∀ q, i ≤ q → q < dt.length → dt.getD (selectMin dt i) 0 ≤ dt.getD q 0 := by
  obtain ⟨h1, h2, h3⟩ := selectMin_fold dt i (dt.length - (i + 1))
  unfold selectMin
  refine ⟨h1, by omega, ?_⟩
  intro q hq1 hq2
  exact h3 q hq1 (by omega)

theorem swapAt_length (dt : List α) (i mi : Nat) : (swapAt dt i mi).length = dt.length := by
  unfold swapAt
  split_ifs <;> simp

theorem swapAt_getD (dt : List α) (i mi : Nat) (hi : i < dt.length) (hmi : mi < dt.length)
    (q : Nat) :
    (swapAt dt i mi).getD q 0
      = if q = i then dt.getD mi 0 else if q = mi then dt.getD i 0 else dt.getD q 0 := by
  unfold swapAt
  by_cases h : mi = i
  · subst h
    simp only [ne_eq, not_true_eq_false, if_false]
    split_ifs with h1 <;> simp [h1]
  · rw [if_pos h]
    simp only [List.getD_eq_getElem?_getD, List.getElem?_set, List.length_set]
    by_cases h1 : q = i
    · subst h1
      simp [h, hi]
    · by_cases h2 : q = mi
      · subst h2
        simp [hmi, h1]
      · have h3 : ¬ mi = q := fun e => h2 e.symm
        have h4 : ¬ i = q := fun e => h1 e.symm
        simp [h1, h2, h3, h4]

theorem swapAt_perm (dt : List α) (i mi : Nat) (hi : i < dt.length) (hmi : mi < dt.length) :
    (swapAt dt i mi).Perm dt := by
  unfold swapAt
  by_cases h : mi = i
  · simp [h]
  · rw [if_pos h]
    rw [List.perm_iff_count]
    intro b
    have hmi2 : mi < (dt.set i (dt.getD mi 0)).length := by simpa using hmi
    rw [List.count_set _ _ _ _ hmi2, List.count_set _ _ _ _ hi]
    have e1 : (dt.set i (dt.getD mi 0))[mi] = dt[mi] := by
      rw [List.getElem_set]
      rw [if_neg (fun e => h e.symm)]
    have e2 : dt.getD mi 0 = dt[mi] := List.getD_eq_getElem dt 0 hmi
    have e3 : dt.getD i 0 = dt[i] := List.getD_eq_getElem dt 0 hi
    rw [e1, e2, e3]
    have hpos : dt[i] = b → 0 < List.count b dt := by
      intro e
      rw [List.count_pos_iff]
      rw [← e]
      exact List.getElem_mem hi
    by_cases hx : dt[i] = b <;> by_cases hy : dt[mi] = b
    · have := hpos hx
      simp [hx, hy]
      omega
    · have := hpos hx
      simp [hx, hy]
      omega
    · simp [hx, hy]
    · simp [hx, hy]

theorem selectionSort_fold (dt : List α) : ∀ c : Nat, c ≤ dt.length - 1 →
    ((List.range c).foldl (fun d i => swapAt d i (selectMin d i)) dt).length = dt.length ∧
    ((List.range c).foldl (fun d i => swapAt d i (selectMin d i)) dt).Perm dt ∧
    ∀ p q, p < c → p < q → q < dt.length →
      ((List.range c).foldl (fun d i => swapAt d i (selectMin d i)) dt).getD p 0
        ≤ ((List.range c).foldl (fun d i => swapAt d i (selectMin d i)) dt).getD q 0 := by
  intro c
  induction c with
  | zero =>
    intro _
    exact ⟨rfl, List.Perm.refl _, fun p q h => by omega⟩
  | succ c ih =>
    intro hc
    obtain ⟨hlen, hperm, hord⟩ := ih (by omega)
    rw [List.range_succ, List.foldl_append]
    simp only [List.foldl_cons, List.foldl_nil]
    generalize (List.range c).foldl (fun d i => swapAt d i (selectMin d i)) dt = d at hlen hperm hord
    have hcl : c < d.length := by omega
    obtain ⟨hm1, hm2, hm3⟩ := selectMin_spec d c hcl
    refine ⟨by rw [swapAt_length, hlen], (swapAt_perm d c _ hcl hm2).trans hperm, ?_⟩
    intro p q hp hpq hq
    rw [swapAt_getD d c _ hcl hm2, swapAt_getD d c _ hcl hm2]
    rcases Nat.lt_or_ge p c with hpc | hpc
    · rw [if_neg (by omega), if_neg (by omega)]
      split_ifs
      · exact hord p _ hpc (by omega) (by omega)
      · exact hord p _ hpc (by omega) (by omega)
      · exact hord p _ hpc (by omega) (by omega)
    · have hpe : p = c := by omega
      subst hpe
      rw [if_pos rfl, if_neg (by omega)]
      split_ifs
      · exact hm3 _ (le_refl _) hcl
      · exact hm3 q (by omega) (by omega)

theorem selectionSort_length (dt : List α) : (selectionSort dt).length = dt.length :=
  (selectionSort_fold dt (dt.length - 1) (le_refl _)).1

theorem selectionSort_perm (dt : List α) : (selectionSort dt).Perm dt :=
  (selectionSort_fold dt (dt.length - 1) (le_refl _)).2.1

theorem selectionSort_getD_le (dt : List α) (p q : Nat) (hpq : p < q) (hq : q < dt.length) :
    (selectionSort dt).getD p 0 ≤ (selectionSort dt).getD q 0 :=
  (selectionSort_fold dt (dt.length - 1) (le_refl _)).2.2 p q (by omega) hpq hq

theorem selectionSort_sorted (dt : List α) :
    (selectionSort dt).Sorted (fun x y => x ≤ y) := by
  unfold List.Sorted
  rw [List.pairwise_iff_getElem]
  intro i j hi hj hij
  have h := selectionSort_getD_le dt i j hij (by rw [← selectionSort_length dt]; exact hj)
  rw [List.getD_eq_getElem _ 0 hi, List.getD_eq_getElem _ 0 hj] at h
  exact h

theorem selectionSort_eq_insertionSort (dt : List α) :
    selectionSort dt = dt.insertionSort (fun x y => x ≤ y) :=
  List.eq_of_perm_of_sorted
    ((selectionSort_perm dt).trans (List.perm_insertionSort _ dt).symm)
    (selectionSort_sorted dt) (List.sorted_insertionSort _ dt)

theorem getD_mem_of_lt (l : List α) (n : Nat) (h : n < l.length) : l.getD n 0 ∈ l := by
  rw [List.getD_eq_getElem l 0 h]
  exact List.getElem_mem h

end

end Algorithm

namespace Algorithm

section
variable {α : Type} [LinearOrderedField α]

theorem filter_range_add (k : Nat) (hk : k ≤ 10) :
    (List.range 20).filter (fun i => decide (i + k < 20)) = List.range (20 - k) := by
  interval_cases k <;> rfl

theorem timeDiffs_eq_pairDifferences (time_l time_r : Nat → α) (b : Int)
    (h1 : -10 ≤ b) (h2 : b ≤ 10) :
    timeDiffs time_l time_r b = pairDifferences time_l time_r b := by
  unfold timeDiffs pairDifferences
  rw [N_eq]
  have hN : SignalAnalyzer.N_PEAKS = 20 := rfl
  rw [hN]
  by_cases hb : 0 ≤ b
  · rw [if_pos hb, if_pos hb]
    obtain ⟨k, rfl⟩ := Int.eq_ofNat_of_zero_le hb
    have hk : k ≤ 10 := by omega
    have e1 : (List.range 20).filter (fun (i : Nat) => decide ((i : Int) + (k : Int) < ((20 : Nat) : Int)))
        = (List.range 20).filter (fun i => decide (i + k < 20)) := by
      congr 1
      funext i
      congr 1
      apply propext
      constructor <;> intro h <;> omega
    rw [e1, filter_range_add k hk]
    have e2 : ((20 : Int) - (k : Int)).toNat = 20 - k := by omega
    rw [e2]
    apply List.map_congr_left
    intro i _
    have e3 : ((i : Int) + (k : Int)).toNat = i + (k : Int).toNat := by omega
    rw [e3]
  · have hb2 : ¬ b ≥ 0 := hb
    rw [if_neg hb2, if_neg hb]
    obtain ⟨k, hk0⟩ := Int.eq_ofNat_of_zero_le (show 0 ≤ -b by omega)
    have hbk : b = -(k : Int) := by omega
    subst hbk
    have hk : k ≤ 10 := by omega
    have e1 : (List.range 20).filter
          (fun (i : Nat) => decide ((i : Int) - -(k : Int) < ((20 : Nat) : Int)))
        = (List.range 20).filter (fun i => decide (i + k < 20)) := by
      congr 1
      funext i
      congr 1
      apply propext
      constructor <;> intro h <;> omega
    rw [e1, filter_range_add k hk]
    have e2 : ((20 : Int) - - -(k : Int)).toNat = 20 - k := by omega
    rw [e2]
    apply List.map_congr_left
    intro i _
    have e3 : ((i : Int) - -(k : Int)).toNat = i + (- -(k : Int)).toNat := by omega
    rw [e3]

theorem timeDiffs_length (time_l time_r : Nat → α) (b : Int) (h1 : -10 ≤ b) (h2 : b ≤ 10) :
    10 ≤ (timeDiffs time_l time_r b).length ∧ (timeDiffs time_l time_r b).length ≤ 20 := by
  unfold timeDiffs
  rw [N_eq]
  split_ifs <;> simp only [List.length_map, List.length_range] <;> omega

theorem selectionSort_getD_mono (dt : List α) (p q : Nat) (hpq : p ≤ q) (hq : q < dt.length) :
    (selectionSort dt).getD p 0 ≤ (selectionSort dt).getD q 0 := by
  rcases Nat.lt_or_ge p q with h | h
  · exact selectionSort_getD_le dt p q h hq
  · have e : p = q := by omega
    rw [e]

theorem medianOfSorted_eq_medianSpec (dt : List α) (h : 0 < dt.length) :
    medianOfSorted (selectionSort dt) = medianSpec dt := by
  unfold medianOfSorted medianSpec
  rw [← selectionSort_eq_insertionSort, selectionSort_length]
  rw [if_neg (by omega)]
  split_ifs
  · rfl
  · ring

theorem medianOfSorted_bounds (dt : List α) (h : 0 < dt.length) :
    ∃ lo, lo ∈ dt ∧ ∃ hi, hi ∈ dt ∧ (∀ x, x ∈ dt → lo ≤ x ∧ x ≤ hi) ∧
      lo ≤ medianOfSorted (selectionSort dt) ∧ medianOfSorted (selectionSort dt) ≤ hi := by
  have hlen := selectionSort_length dt
  have hperm := selectionSort_perm dt
  have hmem : ∀ n, n < dt.length → (selectionSort dt).getD n 0 ∈ dt := fun n hn =>
    hperm.subset (getD_mem_of_lt _ n (by omega))
  refine ⟨(selectionSort dt).getD 0 0, hmem 0 h,
    (selectionSort dt).getD (dt.length - 1) 0, hmem _ (by omega), ?_, ?_⟩
  · intro x hx
    have hx2 : x ∈ selectionSort dt := hperm.symm.subset hx
    obtain ⟨n, hn, rfl⟩ := List.mem_iff_getElem.mp hx2
    rw [← List.getD_eq_getElem _ 0 hn]
    exact ⟨selectionSort_getD_mono dt 0 n (by omega) (by omega),
      selectionSort_getD_mono dt n _ (by omega) (by omega)⟩
  · unfold medianOfSorted
    rw [hlen, if_neg (by omega)]
    split_ifs with hodd
    · exact ⟨selectionSort_getD_mono dt 0 _ (by omega) (by omega),
        selectionSort_getD_mono dt _ _ (by omega) (by omega)⟩
    · have a1 := selectionSort_getD_mono dt 0 (dt.length / 2 - 1) (by omega) (by omega)
      have a2 := selectionSort_getD_mono dt 0 (dt.length / 2) (by omega) (by omega)
      have a3 := selectionSort_getD_mono dt (dt.length / 2 - 1) (dt.length - 1) (by omega)
        (by omega)
      have a4 := selectionSort_getD_mono dt (dt.length / 2) (dt.length - 1) (by omega) (by omega)
      constructor <;> linarith

/-- C19: for the winning lag `b`, the list `dt` that `find_peak_diff` builds holds the
differences `time_r[i + b] - time_l[i]` (for `b < 0`: `time_r[i] - time_l[i - b]`)
over all valid `i`; the selection sort leaves it in ascending order and is a
permutation of it; `t_diff` is its median, the mean of the two middle values when the
count is even; and `t_diff` lies between the smallest and the largest difference. -/
theorem median_of_pair_differences (sqrtf : α → α) (peaks_l time_l peaks_r time_r : Nat → α) :
    timeDiffs time_l time_r (lagSearch sqrtf peaks_l peaks_r).bestLag
      = pairDifferences time_l time_r (lagSearch sqrtf peaks_l peaks_r).bestLag ∧
    (selectionSort (timeDiffs time_l time_r (lagSearch sqrtf peaks_l peaks_r).bestLag)).Sorted
      (fun x y => x ≤ y) ∧
    (selectionSort (timeDiffs time_l time_r (lagSearch sqrtf peaks_l peaks_r).bestLag)).Perm
      (timeDiffs time_l time_r (lagSearch sqrtf peaks_l peaks_r).bestLag) ∧
    find_peak_diff sqrtf peaks_l time_l peaks_r time_r
      = medianSpec (timeDiffs time_l time_r (lagSearch sqrtf peaks_l peaks_r).bestLag) ∧
    ∃ lo, lo ∈ timeDiffs time_l time_r (lagSearch sqrtf peaks_l peaks_r).bestLag ∧
      ∃ hi, hi ∈ timeDiffs time_l time_r (lagSearch sqrtf peaks_l peaks_r).bestLag ∧
        (∀ x, x ∈ timeDiffs time_l time_r (lagSearch sqrtf peaks_l peaks_r).bestLag →
          lo ≤ x ∧ x ≤ hi) ∧
        lo ≤ find_peak_diff sqrtf peaks_l time_l peaks_r time_r ∧
        find_peak_diff sqrtf peaks_l time_l peaks_r time_r ≤ hi := by
  have hr := lagSearchUpTo_range sqrtf peaks_l peaks_r 21 (le_refl _)
  rw [← lagSearch_eq_upTo] at hr
  have hl := timeDiffs_length time_l time_r _ hr.1 hr.2
  exact ⟨timeDiffs_eq_pairDifferences time_l time_r _ hr.1 hr.2,
    selectionSort_sorted _, selectionSort_perm _,
    medianOfSorted_eq_medianSpec _ (by omega),
    medianOfSorted_bounds _ (by omega)⟩

end

end Algorithm

/-! ## `find_peak_diff`: the claims on the chosen lag -/

namespace Algorithm

theorem isSqrt_real : IsSqrt Real.sqrt :=
  fun x hx => ⟨Real.sqrt_nonneg x, Real.mul_self_sqrt hx⟩

section
variable {α : Type} [LinearOrderedField α]

theorem timeDiffs_swap (time_l time_r : Nat → α) (b : Int) :
    timeDiffs time_r time_l (-b) = (timeDiffs time_l time_r b).map (fun x => -x) := by
  unfold timeDiffs
  rcases lt_trichotomy b 0 with h | h | h
  · rw [if_pos (by omega), if_neg (by omega), List.map_map]
    apply List.map_congr_left
    intro i _
    simp
  · subst h
    simp only [neg_zero, ge_iff_le, le_refl, if_true, List.map_map]
    apply List.map_congr_left
    intro i _
    simp
  · rw [if_neg (by omega), if_pos (by omega), neg_neg, List.map_map]
    apply List.map_congr_left
    intro i _
    simp

theorem selectionSort_neg (dt : List α) :
    selectionSort (dt.map (fun x => -x)) = ((selectionSort dt).reverse).map (fun x => -x) := by
  apply List.eq_of_perm_of_sorted (r := fun x y => x ≤ y)
  · exact (selectionSort_perm _).trans
      ((((List.reverse_perm _).trans (selectionSort_perm dt)).map _).symm)
  · exact selectionSort_sorted _
  · have h := selectionSort_sorted dt
    unfold List.Sorted at h ⊢
    rw [List.pairwise_map, List.pairwise_reverse]
    exact h.imp (fun hab => neg_le_neg hab)

theorem getD_reverse_neg (s : List α) (k : Nat) (hk : k < s.length) :
    ((s.reverse).map (fun x => -x)).getD k 0 = -(s.getD (s.length - 1 - k) 0) := by
  have h1 : k < ((s.reverse).map (fun x => -x)).length := by simpa using hk
  have h2 : s.length - 1 - k < s.length := by omega
  rw [List.getD_eq_getElem _ 0 h1, List.getD_eq_getElem _ 0 h2]
  simp

theorem medianOfSorted_neg (dt : List α) :
    medianOfSorted (selectionSort (dt.map (fun x => -x)))
      = -medianOfSorted (selectionSort dt) := by
  rw [selectionSort_neg]
  unfold medianOfSorted
  simp only [List.length_map, List.length_reverse]
  by_cases h0 : (selectionSort dt).length ≤ 0
  · rw [if_pos h0, if_pos h0, neg_zero]
  · rw [if_neg h0, if_neg h0]
    by_cases hodd : (selectionSort dt).length % 2 = 1
    · rw [if_pos hodd, if_pos hodd, getD_reverse_neg _ _ (by omega)]
      have e : (selectionSort dt).length - 1 - (selectionSort dt).length / 2
          = (selectionSort dt).length / 2 := by omega
      rw [e]
    · rw [if_neg hodd, if_neg hodd, getD_reverse_neg _ _ (by omega),
        getD_reverse_neg _ _ (by omega)]
      have e1 : (selectionSort dt).length - 1 - ((selectionSort dt).length / 2 - 1)
          = (selectionSort dt).length / 2 := by omega
      have e2 : (selectionSort dt).length - 1 - (selectionSort dt).length / 2
          = (selectionSort dt).length / 2 - 1 := by omega
      rw [e1, e2]
      ring

theorem find_peak_diff_swap (sqrtf : α → α) (peaks_l time_l peaks_r time_r : Nat → α)
    (h : (lagSearch sqrtf peaks_r peaks_l).bestLag = -(lagSearch sqrtf peaks_l peaks_r).bestLag) :
    find_peak_diff sqrtf peaks_r time_r peaks_l time_l
      = -find_peak_diff sqrtf peaks_l time_l peaks_r time_r := by
  unfold find_peak_diff
  rw [h, timeDiffs_swap, medianOfSorted_neg]

theorem corrAt_zero_self (sqrtf : α → α) (hs : IsSqrt sqrtf) (peaks_l peaks_r : Nat → α)
    (hsame : ∀ i, i < W.toNat → peaks_r i = peaks_l i)
    (hnd : 1 / 1000000000000 ≤ ∑ i in Finset.range W.toNat, peaks_l i * peaks_l i) :
    corrAt sqrtf peaks_l peaks_r 0 = 1 := by
  unfold corrAt
  rw [corr_norm_eq]
  simp only [lt_self_iff_false, if_false, add_zero, Int.toNat_zero, zero_add]
  have e1 : ∑ i in Finset.range W.toNat, peaks_l i * peaks_r i
      = ∑ i in Finset.range W.toNat, peaks_l i * peaks_l i :=
    Finset.sum_congr rfl (fun i hi => by rw [hsame i (Finset.mem_range.mp hi)])
  have e2 : ∑ i in Finset.range W.toNat, peaks_r i * peaks_r i
      = ∑ i in Finset.range W.toNat, peaks_l i * peaks_l i :=
    Finset.sum_congr rfl (fun i hi => by rw [hsame i (Finset.mem_range.mp hi)])
  have hpos : (0 : α) < ∑ i in Finset.range W.toNat, peaks_l i * peaks_l i :=
    lt_of_lt_of_le (by norm_num) hnd
  rw [e1, e2, sqrt_mul_self_of_isSqrt sqrtf hs _ (le_of_lt hpos), if_neg (not_lt.mpr hnd)]
  exact div_self (ne_of_gt hpos)

theorem medianOfSorted_const (dt : List α) (c : α) (h : 0 < dt.length)
    (hc : ∀ x, x ∈ dt → x = c) :
    medianOfSorted (selectionSort dt) = c := by
  obtain ⟨lo, hlo, hi, hhi, _, h1, h2⟩ := medianOfSorted_bounds dt h
  rw [hc lo hlo] at h1
  rw [hc hi hhi] at h2
  exact le_antisymm h2 h1

end

end Algorithm

namespace Algorithm

section
variable {α : Type} [LinearOrderedField α]

/-- C17 (amended): with a true square root, the lag that `find_peak_diff` chooses lies
in `[-L, L]` and `bestCorr` is its correlation; no lag examined after the chosen one
has a correlation more than `TIE_EPS` above it, nor is tied with it (within `TIE_EPS`)
with a smaller absolute value; and a lag whose correlation exceeds that of every other
lag of `[-L, L]` by more than `TIE_EPS` is the one chosen. -/
theorem lag_selection (sqrtf : α → α) (hs : IsSqrt sqrtf) (peaks_l peaks_r : Nat → α) :
    -L ≤ (lagSearch sqrtf peaks_l peaks_r).bestLag ∧
    (lagSearch sqrtf peaks_l peaks_r).bestLag ≤ L ∧
    (lagSearch sqrtf peaks_l peaks_r).bestCorr
      = corrAt sqrtf peaks_l peaks_r (lagSearch sqrtf peaks_l peaks_r).bestLag ∧
    (∀ lag : Int, (lagSearch sqrtf peaks_l peaks_r).bestLag < lag → lag ≤ L →
      corrAt sqrtf peaks_l peaks_r lag
        ≤ corrAt sqrtf peaks_l peaks_r (lagSearch sqrtf peaks_l peaks_r).bestLag + TIE_EPS ∧
      ¬ (abs (corrAt sqrtf peaks_l peaks_r lag
            - corrAt sqrtf peaks_l peaks_r (lagSearch sqrtf peaks_l peaks_r).bestLag) ≤ TIE_EPS ∧
          abs lag < abs (lagSearch sqrtf peaks_l peaks_r).bestLag)) ∧
    (∀ m : Int, -L ≤ m → m ≤ L →
      (∀ lag : Int, -L ≤ lag → lag ≤ L → lag ≠ m →
        corrAt sqrtf peaks_l peaks_r lag + TIE_EPS < corrAt sqrtf peaks_l peaks_r m) →
      (lagSearch sqrtf peaks_l peaks_r).bestLag = m) := by
  rw [L_eq]
  obtain ⟨j, hj, hbest, hlater⟩ := lagSearchUpTo_later sqrtf hs peaks_l peaks_r 21
    (by omega) (le_refl _)
  rw [← lagSearch_eq_upTo] at hbest
  rw [hbest]
  refine ⟨by show (-10 : Int) ≤ -10 + (j : Int); omega,
    by show -10 + (j : Int) ≤ 10; omega, rfl, ?_, ?_⟩
  · intro lag h1 h2
    have h1 : -10 + (j : Int) < lag := h1
    obtain ⟨i, hi⟩ := Int.eq_ofNat_of_zero_le (show 0 ≤ lag + 10 by omega)
    have hlag : lag = -10 + (i : Int) := by omega
    rw [hlag]
    exact hlater i (by omega) (by omega)
  · intro m hm1 hm2 hsep
    have h := lagSearch_separated sqrtf hs peaks_l peaks_r m hm1 hm2 hsep
    rw [hbest] at h
    exact congrArg LagSearch.bestLag h

/-- C18 (amended): whenever the call with the two channels swapped selects the negated
lag, it returns the negated `t_diff`; and with a true square root it does select the
negated lag whenever one lag `m` of `[-L, L]` has a correlation that exceeds that of
every other lag by more than `TIE_EPS` (`m` is then the lag of the original call). -/
theorem correlator_symmetry (sqrtf : α → α) (hs : IsSqrt sqrtf)
    (peaks_l time_l peaks_r time_r : Nat → α) (m : Int) (hm1 : -L ≤ m) (hm2 : m ≤ L)
    (hsep : ∀ lag : Int, -L ≤ lag → lag ≤ L → lag ≠ m →
      corrAt sqrtf peaks_l peaks_r lag + TIE_EPS < corrAt sqrtf peaks_l peaks_r m) :
    ((lagSearch sqrtf peaks_r peaks_l).bestLag = -(lagSearch sqrtf peaks_l peaks_r).bestLag →
      find_peak_diff sqrtf peaks_r time_r peaks_l time_l
        = -find_peak_diff sqrtf peaks_l time_l peaks_r time_r) ∧
    (lagSearch sqrtf peaks_l peaks_r).bestLag = m ∧
    (lagSearch sqrtf peaks_r peaks_l).bestLag = -m ∧
    find_peak_diff sqrtf peaks_r time_r peaks_l time_l
      = -find_peak_diff sqrtf peaks_l time_l peaks_r time_r := by
  rw [L_eq] at hm1 hm2 hsep
  have h1 := lagSearch_separated sqrtf hs peaks_l peaks_r m hm1 hm2 hsep
  have hsep2 : ∀ lag : Int, -10 ≤ lag → lag ≤ 10 → lag ≠ -m →
      corrAt sqrtf peaks_r peaks_l lag + TIE_EPS < corrAt sqrtf peaks_r peaks_l (-m) := by
    intro lag hl1 hl2 hne
    have e := corrAt_swap sqrtf peaks_l peaks_r (-lag)
    rw [neg_neg] at e
    rw [e, corrAt_swap sqrtf peaks_l peaks_r m]
    exact hsep (-lag) (by omega) (by omega) (by omega)
  have h2 := lagSearch_separated sqrtf hs peaks_r peaks_l (-m) (by omega) (by omega) hsep2
  have hb1 : (lagSearch sqrtf peaks_l peaks_r).bestLag = m := by rw [h1]
  have hb2 : (lagSearch sqrtf peaks_r peaks_l).bestLag = -m := by rw [h2]
  exact ⟨find_peak_diff_swap sqrtf peaks_l time_l peaks_r time_r, hb1, hb2,
    find_peak_diff_swap sqrtf peaks_l time_l peaks_r time_r (by rw [hb1, hb2])⟩

/-- C20 (amended): with a true square root, when the two channels have identical peak
amplitudes whose first `W` values are not degenerate (their sum of squares is at least
`1e-12`, so that `corr_norm` does not return its `-1`), and `time_r[i] = time_l[i] + dt`
for every peak, `find_peak_diff` selects lag `0` and returns `t_diff = dt`, so
`calc_angle` reports `asin(clamp(dt * (SOUND_SPEED / SENSOR_DISTANCE_M) * 1e-6, -1, 1))
* RAD_TO_DEG`. -/
theorem known_time_shift (sqrtf asinf : α → α) (hs : IsSqrt sqrtf)
    (peaks_l time_l peaks_r time_r : Nat → α) (dt : α)
    (hsame : ∀ i, i < SignalAnalyzer.N_PEAKS → peaks_r i = peaks_l i)
    (htime : ∀ i, i < SignalAnalyzer.N_PEAKS → time_r i = time_l i + dt)
    (hnd : 1 / 1000000000000 ≤ ∑ i in Finset.range W.toNat, peaks_l i * peaks_l i) :
    (lagSearch sqrtf peaks_l peaks_r).bestLag = 0 ∧
    find_peak_diff sqrtf peaks_l time_l peaks_r time_r = dt ∧
    calc_angle asinf (find_peak_diff sqrtf peaks_l time_l peaks_r time_r)
      = asinf (min 1 (max (-1) (dt * (SOUND_SPEED / SENSOR_DISTANCE_M) * (1 / 1000000))))
          * RAD_TO_DEG := by
  have hN : SignalAnalyzer.N_PEAKS = 20 := rfl
  have hW : W.toNat = 10 := by rw [W_eq]; rfl
  have h0 := corrAt_zero_self sqrtf hs peaks_l peaks_r
    (fun i hi => hsame i (by rw [hW] at hi; omega)) hnd
  have hbest := lagSearch_zero sqrtf hs peaks_l peaks_r h0
  have hlag : (lagSearch sqrtf peaks_l peaks_r).bestLag = 0 := by rw [hbest]
  have ht : find_peak_diff sqrtf peaks_l time_l peaks_r time_r = dt := by
    unfold find_peak_diff
    rw [hlag]
    apply medianOfSorted_const
    · have := (timeDiffs_length time_l time_r 0 (by decide) (by decide)).1
      omega
    · intro x hx
      unfold timeDiffs at hx
      rw [if_pos (le_refl _), N_eq] at hx
      obtain ⟨i, hi, rfl⟩ := List.mem_map.mp hx
      have hi2 : i < 20 := by
        have := List.mem_range.mp hi
        omega
      have e : i + (0 : Int).toNat = i := by simp
      rw [e, htime i (by omega)]
      ring
  refine ⟨hlag, ht, ?_⟩
  rw [ht]
  rfl

end

end Algorithm

/-! ## `find_peak_diff` on test sequences -/

namespace Algorithm

theorem foldl_congr_mem {σ β : Type} (l : List β) (f g : σ → β → σ)
    (h : ∀ s x, x ∈ l → f s x = g s x) : ∀ init : σ, l.foldl f init = l.foldl g init := by
  induction l with
  | nil => intro init; rfl
  | cons a l ih =>
    intro init
    simp only [List.foldl_cons]
    rw [h init a (List.mem_cons_self _ _)]
    exact ih (fun s x hx => h s x (List.mem_cons_of_mem _ hx)) _

section
variable {α : Type} [LinearOrderedField α]

/-- The lag search as a fold over the lags `-10, ..., 10`, for correlations given by
`c`. -/
theorem lagSearch_of_corr (sqrtf : α → α) (peaks_l peaks_r : Nat → α) (c : Int → α)
    (hc : ∀ lag : Int, -10 ≤ lag → lag ≤ 10 → corrAt sqrtf peaks_l peaks_r lag = c lag) :
    lagSearch sqrtf peaks_l peaks_r
      = ([-10, -9, -8, -7, -6, -5, -4, -3, -2, -1, 0, 1, 2, 3, 4, 5, 6, 7, 8, 9, 10] :
          List Int).foldl
          (fun best lag =>
            if c lag > best.bestCorr + TIE_EPS ∨
                (abs (c lag - best.bestCorr) ≤ TIE_EPS ∧ abs lag < abs best.bestLag) then
              LagSearch.mk lag (c lag)
            else best)
          ⟨0, -2⟩ := by
  have hl : ([-10, -9, -8, -7, -6, -5, -4, -3, -2, -1, 0, 1, 2, 3, 4, 5, 6, 7, 8, 9, 10] :
      List Int) = (List.range 21).map (fun k : Nat => -10 + (k : Int)) := by decide
  rw [hl, List.foldl_map, lagSearch_eq_upTo]
  unfold lagSearchUpTo
  apply foldl_congr_mem
  intro best k hk
  have hk2 := List.mem_range.mp hk
  rw [L_eq, lagStep_eq _ _ _ _ _ (by omega) (by omega), hc _ (by omega) (by omega)]

end

theorem sqrt_156250000 : Real.sqrt 156250000 = 12500 := by
  rw [show (156250000 : ℝ) = 12500 * 12500 by norm_num]
  exact Real.sqrt_mul_self (by norm_num)

set_option maxHeartbeats 4000000 in
theorem corrAt_graded : ∀ lag : Int, -10 ≤ lag → lag ≤ 10 →
    corrAt Real.sqrt (gradedPeaks : Nat → ℝ) (spikePeaks 10) lag
      = if lag ≤ 0 then -1 else if lag = 2 then 1 / 12500 else if lag = 3 then 2 / 12500
        else if lag = 4 then -12499 / 12500 else if lag = 5 then -158 / 12500
        else if lag = 6 then -5 / 12500 else if lag = 7 then -2 / 12500
        else if lag = 8 then -1 / 12500 else 0 := by
  intro lag h1 h2
  interval_cases lag <;>
    simp [corrAt, corr_norm_eq, W_eq, Finset.sum_range_succ, gradedPeaks, spikePeaks] <;>
    norm_num [sqrt_156250000]

/-- C17 as stated fails: for the left amplitudes `gradedPeaks` and a right channel
with a single peak at index 10, the correlations at lags 1, 2, 3 are `0`, `0.00008`,
`0.00016`; the search keeps lag 1 at lag 2 and moves to lag 3, so it ends with lag 3
although lag 2 is tied with it (within `TIE_EPS`) and has the smaller absolute value. -/
theorem lag_tie_counterexample :
    (lagSearch Real.sqrt (gradedPeaks : Nat → ℝ) (spikePeaks 10)).bestLag = 3 ∧
    abs (corrAt Real.sqrt (gradedPeaks : Nat → ℝ) (spikePeaks 10) 2
        - corrAt Real.sqrt (gradedPeaks : Nat → ℝ) (spikePeaks 10) 3) ≤ TIE_EPS ∧
    abs (2 : Int) < abs (3 : Int) := by
  refine ⟨?_, ?_, by decide⟩
  · rw [lagSearch_of_corr _ _ _ _ corrAt_graded]
    norm_num [List.foldl, TIE_EPS]
  · rw [corrAt_graded 2 (by decide) (by decide), corrAt_graded 3 (by decide) (by decide)]
    norm_num [TIE_EPS, abs_le]

theorem lag_selection_witness :
    IsSqrt Real.sqrt ∧
    -L ≤ (lagSearch Real.sqrt (gradedPeaks : Nat → ℝ) (spikePeaks 10)).bestLag ∧
    (lagSearch Real.sqrt (gradedPeaks : Nat → ℝ) (spikePeaks 10)).bestLag ≤ L ∧
    (lagSearch Real.sqrt (gradedPeaks : Nat → ℝ) (spikePeaks 10)).bestCorr
      = corrAt Real.sqrt (gradedPeaks : Nat → ℝ) (spikePeaks 10)
          (lagSearch Real.sqrt (gradedPeaks : Nat → ℝ) (spikePeaks 10)).bestLag :=
  ⟨isSqrt_real,
   (lag_selection Real.sqrt isSqrt_real (gradedPeaks : Nat → ℝ) (spikePeaks 10)).1,
   (lag_selection Real.sqrt isSqrt_real (gradedPeaks : Nat → ℝ) (spikePeaks 10)).2.1,
   (lag_selection Real.sqrt isSqrt_real (gradedPeaks : Nat → ℝ) (spikePeaks 10)).2.2.1⟩

theorem sqrt_25 : Real.sqrt 25 = 5 := by
  rw [show (25 : ℝ) = 5 * 5 by norm_num]
  exact Real.sqrt_mul_self (by norm_num)

set_option maxHeartbeats 4000000 in
theorem corrAt_alternating : ∀ lag : Int, -10 ≤ lag → lag ≤ 10 →
    corrAt Real.sqrt (alternatingPeaks 0 : Nat → ℝ) (alternatingPeaks 1) lag
      = if lag % 2 = 0 then 0 else 1 := by
  intro lag h1 h2
  interval_cases lag <;>
    simp [corrAt, corr_norm_eq, W_eq, Finset.sum_range_succ, alternatingPeaks] <;>
    norm_num [sqrt_25]

theorem find_peak_diff_evenTimes (sqrtf : ℝ → ℝ) (peaks_l peaks_r : Nat → ℝ) (s1 s2 : ℝ)
    (b : Int) (h1 : -10 ≤ b) (h2 : b ≤ 10) (hb : (lagSearch sqrtf peaks_l peaks_r).bestLag = b) :
    find_peak_diff sqrtf peaks_l (evenTimes s1) peaks_r (evenTimes s2) = 5 * (b : ℝ) + s2 - s1 := by
  unfold find_peak_diff
  rw [hb]
  apply medianOfSorted_const
  · have := (timeDiffs_length (evenTimes s1) (evenTimes s2) b h1 h2).1
    omega
  · intro x hx
    unfold timeDiffs at hx
    by_cases h0 : b ≥ 0
    · rw [if_pos h0] at hx
      obtain ⟨i, _, rfl⟩ := List.mem_map.mp hx
      obtain ⟨k, rfl⟩ := Int.eq_ofNat_of_zero_le h0
      unfold evenTimes
      simp only [Int.toNat_ofNat, Nat.cast_add, Int.cast_natCast]
      ring
    · rw [if_neg h0] at hx
      obtain ⟨i, _, rfl⟩ := List.mem_map.mp hx
      obtain ⟨k, hk⟩ := Int.eq_ofNat_of_zero_le (show 0 ≤ -b by omega)
      have hbk : b = -(k : Int) := by omega
      subst hbk
      unfold evenTimes
      simp only [neg_neg, Int.toNat_ofNat, Nat.cast_add, Int.cast_neg, Int.cast_natCast]
      ring

/-- C18 as stated fails: with left amplitudes `1, 0, 1, 0, ...`, right amplitudes
`0, 1, 0, 1, ...` and both peak times `0, 5, 10, ...`, every odd lag has correlation
`1`; the call and the call with the channels swapped both select lag `-1` and both
return `t_diff = -5`. -/
theorem correlator_symmetry_counterexample :
    (lagSearch Real.sqrt (alternatingPeaks 0 : Nat → ℝ) (alternatingPeaks 1)).bestLag = -1 ∧
    (lagSearch Real.sqrt (alternatingPeaks 1 : Nat → ℝ) (alternatingPeaks 0)).bestLag = -1 ∧
    find_peak_diff Real.sqrt (alternatingPeaks 0 : Nat → ℝ) (evenTimes 0)
      (alternatingPeaks 1) (evenTimes 0) = -5 ∧
    find_peak_diff Real.sqrt (alternatingPeaks 1 : Nat → ℝ) (evenTimes 0)
      (alternatingPeaks 0) (evenTimes 0) = -5 := by
  have hswap : ∀ lag : Int, -10 ≤ lag → lag ≤ 10 →
      corrAt Real.sqrt (alternatingPeaks 1 : Nat → ℝ) (alternatingPeaks 0) lag
        = if lag % 2 = 0 then 0 else 1 := by
    intro lag h1 h2
    have e := corrAt_swap Real.sqrt (alternatingPeaks 0 : Nat → ℝ) (alternatingPeaks 1) (-lag)
    rw [neg_neg] at e
    rw [e, corrAt_alternating (-lag) (by omega) (by omega)]
    have : (-lag) % 2 = 0 ↔ lag % 2 = 0 := by omega
    simp only [this]
  have hb1 : (lagSearch Real.sqrt (alternatingPeaks 0 : Nat → ℝ) (alternatingPeaks 1)).bestLag
      = -1 := by
    rw [lagSearch_of_corr _ _ _ _ corrAt_alternating]
    norm_num [List.foldl, TIE_EPS]
  have hb2 : (lagSearch Real.sqrt (alternatingPeaks 1 : Nat → ℝ) (alternatingPeaks 0)).bestLag
      = -1 := by
    rw [lagSearch_of_corr _ _ _ _ hswap]
    norm_num [List.foldl, TIE_EPS]
  refine ⟨hb1, hb2, ?_, ?_⟩
  · rw [find_peak_diff_evenTimes _ _ _ 0 0 (-1) (by decide) (by decide) hb1]
    norm_num
  · rw [find_peak_diff_evenTimes _ _ _ 0 0 (-1) (by decide) (by decide) hb2]
    norm_num

set_option maxHeartbeats 4000000 in
theorem corrAt_spikes : ∀ lag : Int, -10 ≤ lag → lag ≤ 10 →
    corrAt Real.sqrt (spikePeaks 3 : Nat → ℝ) (spikePeaks 5) lag
      = if lag = 2 then 1 else if -3 ≤ lag ∧ lag ≤ 5 then 0 else -1 := by
  intro lag h1 h2
  interval_cases lag <;>
    simp [corrAt, corr_norm_eq, W_eq, Finset.sum_range_succ, spikePeaks] <;>
    norm_num

theorem correlator_symmetry_witness :
    (lagSearch Real.sqrt (spikePeaks 3 : Nat → ℝ) (spikePeaks 5)).bestLag = 2 ∧
    (lagSearch Real.sqrt (spikePeaks 5 : Nat → ℝ) (spikePeaks 3)).bestLag = -2 ∧
    find_peak_diff Real.sqrt (spikePeaks 5 : Nat → ℝ) (evenTimes 2) (spikePeaks 3) (evenTimes 0)
      = -find_peak_diff Real.sqrt (spikePeaks 3 : Nat → ℝ) (evenTimes 0) (spikePeaks 5)
          (evenTimes 2) :=
  (correlator_symmetry Real.sqrt isSqrt_real (spikePeaks 3 : Nat → ℝ) (evenTimes 0)
    (spikePeaks 5) (evenTimes 2) 2 (by decide) (by decide)
    (by
      intro lag h1 h2 hne
      rw [L_eq] at h1 h2
      rw [corrAt_spikes lag h1 h2, corrAt_spikes 2 (by decide) (by decide)]
      interval_cases lag <;> first | exact absurd rfl hne | norm_num [TIE_EPS])).2

theorem sqrt_faint : Real.sqrt (1 / 100000000000000) = 1 / 10000000 := by
  rw [show (1 / 100000000000000 : ℝ) = 1 / 10000000 * (1 / 10000000) by norm_num]
  exact Real.sqrt_mul_self (by norm_num)

theorem sqrt_faint_sq :
    Real.sqrt (1 / 10000000000000000000000000000) = 1 / 100000000000000 := by
  rw [show (1 / 10000000000000000000000000000 : ℝ)
    = 1 / 100000000000000 * (1 / 100000000000000) by norm_num]
  exact Real.sqrt_mul_self (by norm_num)

set_option maxHeartbeats 4000000 in
theorem corrAt_faint : ∀ lag : Int, -10 ≤ lag → lag ≤ 10 →
    corrAt Real.sqrt (faintStartPeaks : Nat → ℝ) faintStartPeaks lag
      = if lag = -10 ∨ lag = 10 then 1 else if lag = 0 then -1 else 0 := by
  intro lag h1 h2
  interval_cases lag <;>
    simp [corrAt, corr_norm_eq, W_eq, Finset.sum_range_succ, faintStartPeaks] <;>
    norm_num [sqrt_faint, sqrt_faint_sq]

/-- C20 as stated fails: both channels have the amplitudes `faintStartPeaks` (`1e-7`
at peak 0, `1` at peak 10) and `time_r[i] = time_l[i] + 2`; the window of lag `0` is
degenerate for `corr_norm` (correlation `-1`) while lag `-10` has correlation `1`, so
`find_peak_diff` selects lag `-10` and returns `t_diff = -48`, not `2`. -/
theorem known_time_shift_counterexample :
    (∀ i : Nat, (evenTimes 2 i : ℝ) = evenTimes 0 i + 2) ∧
    (lagSearch Real.sqrt (faintStartPeaks : Nat → ℝ) faintStartPeaks).bestLag = -10 ∧
    find_peak_diff Real.sqrt (faintStartPeaks : Nat → ℝ) (evenTimes 0) faintStartPeaks
      (evenTimes 2) = -48 := by
  have hb : (lagSearch Real.sqrt (faintStartPeaks : Nat → ℝ) faintStartPeaks).bestLag = -10 := by
    rw [lagSearch_of_corr _ _ _ _ corrAt_faint]
    norm_num [List.foldl, TIE_EPS]
  refine ⟨fun i => by unfold evenTimes; ring, hb, ?_⟩
  rw [find_peak_diff_evenTimes _ _ _ 0 2 (-10) (by decide) (by decide) hb]
  norm_num

theorem known_time_shift_witness :
    (lagSearch Real.sqrt (spikePeaks 3 : Nat → ℝ) (spikePeaks 3)).bestLag = 0 ∧
    find_peak_diff Real.sqrt (spikePeaks 3 : Nat → ℝ) (evenTimes 0) (spikePeaks 3) (evenTimes 2)
      = 2 ∧
    calc_angle Real.arcsin
        (find_peak_diff Real.sqrt (spikePeaks 3 : Nat → ℝ) (evenTimes 0) (spikePeaks 3)
          (evenTimes 2))
      = Real.arcsin (min 1 (max (-1) (2 * (SOUND_SPEED / SENSOR_DISTANCE_M) * (1 / 1000000))))
          * RAD_TO_DEG :=
  known_time_shift Real.sqrt Real.arcsin isSqrt_real (spikePeaks 3 : Nat → ℝ) (evenTimes 0)
    (spikePeaks 3) (evenTimes 2) 2 (fun _ _ => rfl)
    (fun i _ => by unfold evenTimes; ring)
    (by
      rw [show W.toNat = 10 by rw [W_eq]; rfl]
      simp [Finset.sum_range_succ, spikePeaks]
      norm_num)

end Algorithm

/-! ## `fit_line` and `find_sig_delay` -/

namespace Algorithm

section
variable {α : Type} [LinearOrderedField α]

theorem foldl_quad_sum (f g h k : Nat → α) (n : Nat) :
    (List.range n).foldl
        (fun s i => (s.1 + f i, s.2.1 + g i, s.2.2.1 + h i, s.2.2.2 + k i))
        ((0 : α), (0 : α), (0 : α), (0 : α))
      = (∑ i in Finset.range n, f i, ∑ i in Finset.range n, g i,
         ∑ i in Finset.range n, h i, ∑ i in Finset.range n, k i) := by
  induction n with
  | zero => simp
  | succ n ih =>
    rw [List.range_succ, List.foldl_append, ih]
    simp [Finset.sum_range_succ]

theorem fitSums_eq (t peaks : Nat → α) (n : Nat) :
    fitSums t peaks n
      = (∑ i in Finset.range n, t i, ∑ i in Finset.range n, peaks i,
         ∑ i in Finset.range n, t i * t i, ∑ i in Finset.range n, t i * peaks i) := by
  unfold fitSums
  exact foldl_quad_sum _ _ _ _ n

/-- The value of `D` that `fit_line` computes is the determinant of the specification. -/
theorem fit_D_eq (t : Nat → α) (n : Nat) :
    (n : α) * (∑ i in Finset.range n, t i * t i)
        - (∑ i in Finset.range n, t i) * (∑ i in Finset.range n, t i)
      = fitDeterminant t n := by
  unfold fitDeterminant
  have h : ∑ i in Finset.range n, t i * t i = ∑ i in Finset.range n, t i ^ 2 :=
    Finset.sum_congr rfl (fun i _ => (pow_two (t i)).symm)
  rw [h, pow_two]

/-- What `fit_line` returns, in terms of the sums over the points. -/
theorem fit_line_eq (t peaks : Nat → α) (n : Nat) (a b : α) :
    fit_line t peaks (n : Int) a b
      = if n < 2 then (false, a, b)
        else if abs (fitDeterminant t n) < 1 / 1000000000 then (false, a, b)
        else (true,
          ((n : α) * (∑ i in Finset.range n, t i * peaks i)
              - (∑ i in Finset.range n, t i) * (∑ i in Finset.range n, peaks i))
            / fitDeterminant t n,
          ((∑ i in Finset.range n, peaks i)
              - ((n : α) * (∑ i in Finset.range n, t i * peaks i)
                  - (∑ i in Finset.range n, t i) * (∑ i in Finset.range n, peaks i))
                / fitDeterminant t n * (∑ i in Finset.range n, t i)) / (n : α)) := by
  unfold fit_line
  by_cases hn : n < 2
  · rw [if_pos hn, if_pos (by omega)]
  · rw [if_neg hn, if_neg (by omega)]
    simp only [Int.toNat_ofNat, fitSums_eq, Int.cast_natCast, fit_D_eq]

end

end Algorithm

namespace Algorithm

section
variable {α : Type} [LinearOrderedField α]

theorem sum_residual (t peaks : Nat → α) (n : Nat) (a b : α) :
    ∑ i in Finset.range n, (peaks i - a * t i - b)
      = (∑ i in Finset.range n, peaks i) - a * (∑ i in Finset.range n, t i) - (n : α) * b := by
  rw [Finset.sum_sub_distrib, Finset.sum_sub_distrib, Finset.mul_sum, Finset.sum_const,
    Finset.card_range, nsmul_eq_mul]

theorem sum_t_residual (t peaks : Nat → α) (n : Nat) (a b : α) :
    ∑ i in Finset.range n, t i * (peaks i - a * t i - b)
      = (∑ i in Finset.range n, t i * peaks i) - a * (∑ i in Finset.range n, t i * t i)
        - b * (∑ i in Finset.range n, t i) := by
  have h : ∀ i, t i * (peaks i - a * t i - b) = t i * peaks i - a * (t i * t i) - b * t i := by
    intro i
    ring
  simp only [h]
  rw [Finset.sum_sub_distrib, Finset.sum_sub_distrib, Finset.mul_sum, Finset.mul_sum]

/-- With a determinant that is not zero, the normal equations have one solution. -/
theorem normal_equations_unique (T Y TT TY N a b : α) (hN : N ≠ 0) (hD : N * TT - T * T ≠ 0)
    (h1 : Y - a * T - N * b = 0) (h2 : TY - a * TT - b * T = 0) :
    a = (N * TY - T * Y) / (N * TT - T * T) ∧
    b = (Y - (N * TY - T * Y) / (N * TT - T * T) * T) / N := by
  have hb : b = (Y - a * T) / N := by
    field_simp
    linear_combination -h1
  have ha : a = (N * TY - T * Y) / (N * TT - T * T) := by
    rw [eq_div_iff hD]
    linear_combination (-N) * h2 + T * h1
  refine ⟨ha, ?_⟩
  rw [← ha]
  exact hb

/-- C21: `fit_line` returns false and leaves `a` and `b` as they were when
`n_peaks < 2` or `|D| < 1e-9`, `D` being the determinant `n * sum(t_i ^ 2) -
(sum t_i) ^ 2`. For `n_peaks ≥ 2` points with `|D| ≥ 1e-9` it returns true with the
least-squares slope and intercept: the residuals `r_i = y_i - a * t_i - b` satisfy
`sum r_i = 0` and `sum t_i * r_i = 0`, these two equations have no other solution, and
points that lie on `y = m * t + q` give `a = m`, `b = q`. -/
theorem fit_line_least_squares (t peaks : Nat → α) (n : Nat) (a b : α) :
    (∀ n_peaks : Int, n_peaks < 2 → fit_line t peaks n_peaks a b = (false, a, b)) ∧
    (abs (fitDeterminant t n) < 1 / 1000000000 →
      fit_line t peaks (n : Int) a b = (false, a, b)) ∧
    (2 ≤ n → 1 / 1000000000 ≤ abs (fitDeterminant t n) →
      (fit_line t peaks (n : Int) a b).1 = true ∧
      ∑ i in Finset.range n,
        (peaks i - (fit_line t peaks (n : Int) a b).2.1 * t i
          - (fit_line t peaks (n : Int) a b).2.2) = 0 ∧
      ∑ i in Finset.range n,
        t i * (peaks i - (fit_line t peaks (n : Int) a b).2.1 * t i
          - (fit_line t peaks (n : Int) a b).2.2) = 0 ∧
      (∀ a1 b1 : α,
        ∑ i in Finset.range n, (peaks i - a1 * t i - b1) = 0 →
        ∑ i in Finset.range n, t i * (peaks i - a1 * t i - b1) = 0 →
        a1 = (fit_line t peaks (n : Int) a b).2.1 ∧
        b1 = (fit_line t peaks (n : Int) a b).2.2) ∧
      (∀ m q : α, (∀ i, i < n → peaks i = m * t i + q) →
        (fit_line t peaks (n : Int) a b).2.1 = m ∧
        (fit_line t peaks (n : Int) a b).2.2 = q)) := by
  refine ⟨?_, ?_, ?_⟩
  · intro n_peaks h
    unfold fit_line
    rw [if_pos h]
  · intro h
    rw [fit_line_eq]
    split_ifs <;> rfl
  · intro hn hD
    have hN : (n : α) ≠ 0 := by
      have : (0 : α) < (n : α) := by exact_mod_cast (show 0 < n by omega)
      exact ne_of_gt this
    have hD0 : fitDeterminant t n ≠ 0 := by
      intro h0
      rw [h0, abs_zero] at hD
      norm_num at hD
    have hD1 : (n : α) * (∑ i in Finset.range n, t i * t i)
        - (∑ i in Finset.range n, t i) * (∑ i in Finset.range n, t i) ≠ 0 := by
      rw [fit_D_eq]
      exact hD0
    have huniq : ∀ a1 b1 : α,
        ∑ i in Finset.range n, (peaks i - a1 * t i - b1) = 0 →
        ∑ i in Finset.range n, t i * (peaks i - a1 * t i - b1) = 0 →
        a1 = (fit_line t peaks (n : Int) a b).2.1 ∧
        b1 = (fit_line t peaks (n : Int) a b).2.2 := by
      intro a1 b1 h1 h2
      rw [sum_residual] at h1
      rw [sum_t_residual] at h2
      have h := normal_equations_unique _ _ _ _ _ a1 b1 hN hD1 h1 h2
      rw [fit_D_eq] at h
      rw [fit_line_eq, if_neg (by omega), if_neg (not_lt.mpr hD)]
      exact h
    rw [fit_line_eq, if_neg (by omega), if_neg (not_lt.mpr hD)] at huniq ⊢
    refine ⟨rfl, ?_, ?_, huniq, ?_⟩
    · rw [sum_residual]
      field_simp
      ring
    · rw [sum_t_residual]
      rw [← fit_D_eq] at hD0 ⊢
      field_simp
      ring
    · intro m q hline
      have h1 : ∑ i in Finset.range n, (peaks i - m * t i - q) = 0 :=
        Finset.sum_eq_zero (fun i hi => by rw [hline i (Finset.mem_range.mp hi)]; ring)
      have h2 : ∑ i in Finset.range n, t i * (peaks i - m * t i - q) = 0 :=
        Finset.sum_eq_zero (fun i hi => by rw [hline i (Finset.mem_range.mp hi)]; ring)
      obtain ⟨e1, e2⟩ := huniq m q h1 h2
      exact ⟨e1.symm, e2.symm⟩

end

theorem fit_line_least_squares_witness :
    2 ≤ 3 ∧ (1 / 1000000000 : ℚ) ≤ abs (fitDeterminant (fun i : Nat => (i : ℚ)) 3) ∧
    (∀ i, i < 3 → (fun i : Nat => 2 * (i : ℚ) + 5) i = 2 * (fun i : Nat => (i : ℚ)) i + 5) ∧
    (fit_line (fun i : Nat => (i : ℚ)) (fun i : Nat => 2 * (i : ℚ) + 5) ((3 : Nat) : Int) 0 0).2.1
      = 2 ∧
    (fit_line (fun i : Nat => (i : ℚ)) (fun i : Nat => 2 * (i : ℚ) + 5) ((3 : Nat) : Int) 0 0).2.2
      = 5 :=
  ⟨by decide, by simp [fitDeterminant, Finset.sum_range_succ]; norm_num, fun _ _ => rfl,
   ((fit_line_least_squares (fun i : Nat => (i : ℚ)) (fun i : Nat => 2 * (i : ℚ) + 5) 3 0 0).2.2
      (by decide) (by simp [fitDeterminant, Finset.sum_range_succ]; norm_num)).2.2.2.2 2 5
      (fun _ _ => rfl)⟩

end Algorithm

namespace Algorithm

section
variable {α : Type} [LinearOrderedField α]

/-- A successful `fit_line` does not depend on the values `a` and `b` held before. -/
theorem fit_line_success_indep (t peaks : Nat → α) (n_peaks : Int) (a b a1 b1 : α)
    (h : (fit_line t peaks n_peaks a b).1 = true) :
    fit_line t peaks n_peaks a1 b1 = fit_line t peaks n_peaks a b := by
  unfold fit_line at h ⊢
  by_cases hn : n_peaks < 2
  · rw [if_pos hn] at h
    exact absurd h (by simp)
  · simp only [if_neg hn] at h ⊢
    by_cases hD : abs (((n_peaks : α)) * (fitSums t peaks n_peaks.toNat).2.2.1
        - (fitSums t peaks n_peaks.toNat).1 * (fitSums t peaks n_peaks.toNat).1) < 1 / 1000000000
    · rw [if_pos hD] at h
      exact absurd h (by simp)
    · simp only [if_neg hD]

/-- A failed `fit_line` leaves `a` and `b` as they were. -/
theorem fit_line_failure (t peaks : Nat → α) (n_peaks : Int) (a b : α)
    (h : (fit_line t peaks n_peaks a b).1 = false) :
    fit_line t peaks n_peaks a b = (false, a, b) := by
  unfold fit_line at h ⊢
  by_cases hn : n_peaks < 2
  · rw [if_pos hn]
  · simp only [if_neg hn] at h ⊢
    by_cases hD : abs (((n_peaks : α)) * (fitSums t peaks n_peaks.toNat).2.2.1
        - (fitSums t peaks n_peaks.toNat).1 * (fitSums t peaks n_peaks.toNat).1) < 1 / 1000000000
    · rw [if_pos hD]
    · rw [if_neg hD] at h
      exact absurd h (by simp)

theorem find_sig_delay_of_success (peaks_l time_l peaks_r time_r : Nat → α) (n_peaks : Nat)
    (a b : α) (hr : (fit_line time_r peaks_r (toInt32 n_peaks) a b).1 = true) :
    find_sig_delay peaks_l time_l peaks_r time_r n_peaks a b
      = min
          (calc_intercept (fit_line time_l peaks_l (toInt32 n_peaks) a b).2.1
            (fit_line time_l peaks_l (toInt32 n_peaks) a b).2.2)
          (calc_intercept (fit_line time_r peaks_r (toInt32 n_peaks) a b).2.1
            (fit_line time_r peaks_r (toInt32 n_peaks) a b).2.2) := by
  unfold find_sig_delay
  simp only []
  rw [fit_line_success_indep time_r peaks_r (toInt32 n_peaks) a b _ _ hr]

/-- C23: when both channel fits succeed with slopes that are not zero,
`find_sig_delay` returns `min(t0_l, t0_r)`, `t0 = -intercept / slope` being the
x-intercept of each channel's own fit; so `sig_delay` is at most either x-intercept,
equals one of them, and is the same when the two channels are swapped. -/
theorem delay_policy (peaks_l time_l peaks_r time_r : Nat → α) (n_peaks : Nat) (a b : α)
    (hl : (fit_line time_l peaks_l (toInt32 n_peaks) a b).1 = true)
    (hr : (fit_line time_r peaks_r (toInt32 n_peaks) a b).1 = true)
    (hal : (fit_line time_l peaks_l (toInt32 n_peaks) a b).2.1 ≠ 0)
    (har : (fit_line time_r peaks_r (toInt32 n_peaks) a b).2.1 ≠ 0) :
    find_sig_delay peaks_l time_l peaks_r time_r n_peaks a b
      = min
          (-(fit_line time_l peaks_l (toInt32 n_peaks) a b).2.2
            / (fit_line time_l peaks_l (toInt32 n_peaks) a b).2.1)
          (-(fit_line time_r peaks_r (toInt32 n_peaks) a b).2.2
            / (fit_line time_r peaks_r (toInt32 n_peaks) a b).2.1) ∧
    find_sig_delay peaks_l time_l peaks_r time_r n_peaks a b
      ≤ -(fit_line time_l peaks_l (toInt32 n_peaks) a b).2.2
          / (fit_line time_l peaks_l (toInt32 n_peaks) a b).2.1 ∧
    find_sig_delay peaks_l time_l peaks_r time_r n_peaks a b
      ≤ -(fit_line time_r peaks_r (toInt32 n_peaks) a b).2.2
          / (fit_line time_r peaks_r (toInt32 n_peaks) a b).2.1 ∧
    (find_sig_delay peaks_l time_l peaks_r time_r n_peaks a b
        = -(fit_line time_l peaks_l (toInt32 n_peaks) a b).2.2
          / (fit_line time_l peaks_l (toInt32 n_peaks) a b).2.1 ∨
      find_sig_delay peaks_l time_l peaks_r time_r n_peaks a b
        = -(fit_line time_r peaks_r (toInt32 n_peaks) a b).2.2
          / (fit_line time_r peaks_r (toInt32 n_peaks) a b).2.1) ∧
    find_sig_delay peaks_r time_r peaks_l time_l n_peaks a b
      = find_sig_delay peaks_l time_l peaks_r time_r n_peaks a b := by
  have _ := hal
  have _ := har
  have e1 := find_sig_delay_of_success peaks_l time_l peaks_r time_r n_peaks a b hr
  have e2 := find_sig_delay_of_success peaks_r time_r peaks_l time_l n_peaks a b hl
  unfold calc_intercept at e1 e2
  rw [e1, e2]
  refine ⟨rfl, min_le_left _ _, min_le_right _ _, ?_, min_comm _ _⟩
  rcases le_total
      (-(fit_line time_l peaks_l (toInt32 n_peaks) a b).2.2
        / (fit_line time_l peaks_l (toInt32 n_peaks) a b).2.1)
      (-(fit_line time_r peaks_r (toInt32 n_peaks) a b).2.2
        / (fit_line time_r peaks_r (toInt32 n_peaks) a b).2.1) with h | h
  · exact Or.inl (min_eq_left h)
  · exact Or.inr (min_eq_right h)

/-- C30 (amended): when `fit_line` succeeds the slope it returns is `(n * sum(t_i *
y_i) - sum(t_i) * sum(y_i)) / D` with `D` not zero, so the slope is not zero exactly
when `n * sum(t_i * y_i)` differs from `sum(t_i) * sum(y_i)`; the success of `fit_line`
guards the division by `D`, not the division by the slope in `calc_intercept`. -/
theorem fit_slope_nonzero_iff (t peaks : Nat → α) (n : Nat) (a b : α)
    (h : (fit_line t peaks (n : Int) a b).1 = true) :
    fitDeterminant t n ≠ 0 ∧
    (fit_line t peaks (n : Int) a b).2.1
      = ((n : α) * (∑ i in Finset.range n, t i * peaks i)
          - (∑ i in Finset.range n, t i) * (∑ i in Finset.range n, peaks i))
        / fitDeterminant t n ∧
    ((fit_line t peaks (n : Int) a b).2.1 ≠ 0 ↔
      (n : α) * (∑ i in Finset.range n, t i * peaks i)
        ≠ (∑ i in Finset.range n, t i) * (∑ i in Finset.range n, peaks i)) := by
  rw [fit_line_eq] at h ⊢
  by_cases hn : n < 2
  · rw [if_pos hn] at h
    exact absurd h (by simp)
  · rw [if_neg hn] at h ⊢
    by_cases hD : abs (fitDeterminant t n) < 1 / 1000000000
    · rw [if_pos hD] at h
      exact absurd h (by simp)
    · rw [if_neg hD]
      have hD0 : fitDeterminant t n ≠ 0 := by
        intro h0
        rw [h0, abs_zero] at hD
        norm_num at hD
      refine ⟨hD0, rfl, ?_⟩
      show _ / _ ≠ 0 ↔ _
      rw [div_ne_zero_iff]
      constructor
      · intro hne heq
        exact hne.1 (by rw [heq, sub_self])
      · intro hne
        exact ⟨sub_ne_zero.mpr hne, hD0⟩

end

/-- C30 as stated fails: for the two points `(0, 1)` and `(1, 1)` the determinant is
`1`, `fit_line` succeeds, and the slope it returns is `0`. -/
theorem fit_slope_zero_counterexample :
    fit_line (fun i : Nat => (i : ℚ)) (fun _ => (1 : ℚ)) ((2 : Nat) : Int) 5 5 = (true, 0, 1) := by
  rw [fit_line_eq]
  simp [fitDeterminant, Finset.sum_range_succ]
  norm_num

theorem fit_slope_nonzero_iff_witness :
    (fit_line (fun i : Nat => (i : ℚ)) (fun i : Nat => 2 * (i : ℚ) + 5) ((3 : Nat) : Int) 0 0).1
      = true ∧
    ((fit_line (fun i : Nat => (i : ℚ)) (fun i : Nat => 2 * (i : ℚ) + 5) ((3 : Nat) : Int) 0 0).2.1
        ≠ 0 ↔
      ((3 : Nat) : ℚ) * (∑ i in Finset.range 3, (i : ℚ) * (2 * (i : ℚ) + 5))
        ≠ (∑ i in Finset.range 3, (i : ℚ)) * (∑ i in Finset.range 3, (2 * (i : ℚ) + 5))) :=
  ⟨by rw [fit_line_eq]; simp [fitDeterminant, Finset.sum_range_succ]; norm_num,
   (fit_slope_nonzero_iff (fun i : Nat => (i : ℚ)) (fun i : Nat => 2 * (i : ℚ) + 5) 3 0 0
      (by rw [fit_line_eq]; simp [fitDeterminant, Finset.sum_range_succ]; norm_num)).2.2⟩

theorem delay_policy_witness :
    find_sig_delay (fun i : Nat => 2 * (i : ℚ) + 6) (fun i : Nat => (i : ℚ))
        (fun i : Nat => (i : ℚ) + 1) (fun i : Nat => (i : ℚ)) 3 0 0
      = find_sig_delay (fun i : Nat => (i : ℚ) + 1) (fun i : Nat => (i : ℚ))
        (fun i : Nat => 2 * (i : ℚ) + 6) (fun i : Nat => (i : ℚ)) 3 0 0 ∧
    find_sig_delay (fun i : Nat => (i : ℚ) + 1) (fun i : Nat => (i : ℚ))
        (fun i : Nat => 2 * (i : ℚ) + 6) (fun i : Nat => (i : ℚ)) 3 0 0 = -3 := by
  have hfit : ∀ m q : ℚ, m ≠ 0 →
      fit_line (fun i : Nat => (i : ℚ)) (fun i : Nat => m * (i : ℚ) + q) (toInt32 3) 0 0
        = (true, m, q) := by
    intro m q _
    have e : toInt32 3 = ((3 : Nat) : Int) := by decide
    rw [e, fit_line_eq, if_neg (by decide),
      if_neg (by simp [fitDeterminant, Finset.sum_range_succ]; norm_num)]
    simp [fitDeterminant, Finset.sum_range_succ]
    constructor
    · field_simp
      ring
    · field_simp
      ring
  have h1 := hfit 1 1 (by norm_num)
  have h2 := hfit 2 6 (by norm_num)
  simp only [one_mul] at h1
  have hw := delay_policy (fun i : Nat => (i : ℚ) + 1) (fun i : Nat => (i : ℚ))
    (fun i : Nat => 2 * (i : ℚ) + 6) (fun i : Nat => (i : ℚ)) 3 0 0
    (by rw [h1]) (by rw [h2]) (by rw [h1]; norm_num) (by rw [h2]; norm_num)
  refine ⟨hw.2.2.2.2, ?_⟩
  rw [hw.1, h1, h2]
  norm_num

end Algorithm

/-! ## `calc_angle` -/

namespace Algorithm

theorem rad_to_deg_pos : (0 : ℝ) < RAD_TO_DEG := by
  unfold RAD_TO_DEG
  norm_num

theorem rad_to_deg_mul_pi :
    (RAD_TO_DEG : ℝ) * Real.pi < 180 ∧ 180 - 3 / 1000000000000000 < (RAD_TO_DEG : ℝ) * Real.pi := by
  have h1 := Real.pi_lt_d20
  have h2 := Real.pi_gt_d20
  unfold RAD_TO_DEG
  norm_num at h1 h2
  constructor <;> linarith

theorem rad_to_deg_near : (0 : ℝ) < 180 / Real.pi - RAD_TO_DEG ∧
    180 / Real.pi - (RAD_TO_DEG : ℝ) < 1 / 1000000000000000 := by
  have hpi : (3 : ℝ) < Real.pi := Real.pi_gt_three
  have hpos : (0 : ℝ) < Real.pi := by linarith
  obtain ⟨h1, h2⟩ := rad_to_deg_mul_pi
  have e : 180 / Real.pi - (RAD_TO_DEG : ℝ) = (180 - RAD_TO_DEG * Real.pi) / Real.pi := by
    field_simp
    ring
  rw [e]
  constructor
  · exact div_pos (by linarith) hpos
  · rw [div_lt_iff₀ hpos]
    nlinarith

theorem clamp_neg (x : ℝ) : min 1 (max (-1) (-x)) = -min 1 (max (-1) x) := by
  simp only [min_def, max_def]
  split_ifs <;> linarith

theorem clamp_mono {x y : ℝ} (h : x ≤ y) : min 1 (max (-1) x) ≤ min 1 (max (-1) y) :=
  min_le_min (le_refl _) (max_le_max (le_refl _) h)

/-- C24: `calc_angle(t_diff)` is `asin(clamp(t_diff * (SOUND_SPEED /
SENSOR_DISTANCE_M) * 1e-6, -1, 1)) * RAD_TO_DEG` with `SOUND_SPEED = 343`,
`SENSOR_DISTANCE_M = 0.1` and `RAD_TO_DEG` the constant of the code for `180 / pi`
(below it by less than `1e-15`); the result lies in `[-90, 90]`, is `0` for
`t_diff = 0`, is odd in `t_diff` and does not decrease when `t_diff` grows. -/
theorem angle_formula (t_diff : ℝ) :
    calc_angle Real.arcsin t_diff
      = Real.arcsin (min 1 (max (-1) (t_diff * (SOUND_SPEED / SENSOR_DISTANCE_M) * (1 / 1000000))))
          * RAD_TO_DEG ∧
    (SOUND_SPEED : ℝ) = 343 ∧ (SENSOR_DISTANCE_M : ℝ) = 1 / 10 ∧
    (0 : ℝ) < 180 / Real.pi - RAD_TO_DEG ∧
    180 / Real.pi - (RAD_TO_DEG : ℝ) < 1 / 1000000000000000 ∧
    -90 ≤ calc_angle Real.arcsin t_diff ∧ calc_angle Real.arcsin t_diff ≤ 90 ∧
    calc_angle Real.arcsin 0 = 0 ∧
    calc_angle Real.arcsin (-t_diff) = -calc_angle Real.arcsin t_diff ∧
    ∀ t2 : ℝ, t_diff ≤ t2 → calc_angle Real.arcsin t_diff ≤ calc_angle Real.arcsin t2 := by
  have hR := rad_to_deg_pos
  obtain ⟨hm1, _⟩ := rad_to_deg_mul_pi
  have hk : (0 : ℝ) ≤ (SOUND_SPEED / SENSOR_DISTANCE_M) * (1 / 1000000) := by
    unfold SOUND_SPEED SENSOR_DISTANCE_M
    norm_num
  refine ⟨rfl, rfl, rfl, rad_to_deg_near.1, rad_to_deg_near.2, ?_, ?_, ?_, ?_, ?_⟩
  · unfold calc_angle
    simp only []
    have h := Real.neg_pi_div_two_le_arcsin
      (min 1 (max (-1) (t_diff * (SOUND_SPEED / SENSOR_DISTANCE_M) * (1 / 1000000))))
    have := mul_le_mul_of_nonneg_right h (le_of_lt hR)
    linarith
  · unfold calc_angle
    simp only []
    have h := Real.arcsin_le_pi_div_two
      (min 1 (max (-1) (t_diff * (SOUND_SPEED / SENSOR_DISTANCE_M) * (1 / 1000000))))
    have := mul_le_mul_of_nonneg_right h (le_of_lt hR)
    linarith
  · unfold calc_angle
    simp
  · unfold calc_angle
    simp only []
    have e : -t_diff * (SOUND_SPEED / SENSOR_DISTANCE_M) * (1 / 1000000)
        = -(t_diff * ((SOUND_SPEED : ℝ) / SENSOR_DISTANCE_M) * (1 / 1000000)) := by ring
    rw [e, clamp_neg, Real.arcsin_neg]
    ring
  · intro t2 h
    unfold calc_angle
    simp only []
    apply mul_le_mul_of_nonneg_right _ (le_of_lt hR)
    apply Real.monotone_arcsin
    apply clamp_mono
    have := mul_le_mul_of_nonneg_right h hk
    linarith

end Algorithm

/-! ## `analyze` and `solve` -/

namespace SignalAnalyzer

section
set_option linter.unusedSectionVars false
variable {α : Type} [Zero α] [Add α] [Sub α] [Mul α] [Neg α] [LE α] [LT α]
  [DecidableRel (fun a b : α => a ≤ b)] [DecidableRel (fun a b : α => a < b)]

/-- Given fuel for its loops `detect_start` returns, and a start it reports leaves
room for an energy window. -/
theorem detect_start_returns (samples : Nat → α) (signal_threshold : α) (n_samples fuel : Nat)
    (hn : n_samples < 2147483648) (hfuel : n_samples ≤ fuel) :
    detect_start samples signal_threshold n_samples fuel = some none ∨
    ∃ i, detect_start samples signal_threshold n_samples fuel = some (some i) ∧
      i + ENERGY_WINDOW ≤ n_samples := by
  unfold detect_start
  rcases coarseScan_spec samples signal_threshold n_samples hn fuel 0 (by decide)
      (Nat.zero_le _) (by unfold ENERGY_WINDOW COARSE_STEP; omega) with
    ⟨h, _⟩ | ⟨c, h, _, hc, hit, _⟩
  · left
    rw [h]
  · right
    rw [h]
    have hc2 := hc
    unfold coarsePosition COARSE_STEP ENERGY_WINDOW at hc2
    obtain ⟨j, hj, _, hjc, _, _⟩ := fineScan_spec samples signal_threshold n_samples c hn hc.2 hit
      fuel (if c ≥ COARSE_STEP then c - COARSE_STEP else c)
      (by unfold COARSE_STEP; split_ifs <;> omega)
      (by unfold COARSE_STEP; split_ifs <;> omega)
    refine ⟨j, hj, ?_⟩
    unfold ENERGY_WINDOW
    omega

end

end SignalAnalyzer

namespace SignalAnalyzer

section
set_option linter.unusedSectionVars false
variable {α : Type} [Zero α] [Add α] [Sub α] [Mul α] [Neg α] [LE α] [LT α]
  [DecidableRel (fun a b : α => a ≤ b)] [DecidableRel (fun a b : α => a < b)]

/-- One pass through the loop body keeps the invariant on the falling steps. -/
theorem peakStep_falls (samples : Nat → α) (eps : α) (base n_samples i : Nat) (st : PeakScan)
    (hn : n_samples < 2147483648) (hi : i < n_samples) (h : PeakInv base n_samples i st)
    (hf : FallInv samples eps i st) :
    FallInv samples eps (i + 1) (peakStep samples eps i st).1 := by
  obtain ⟨hout, hlt, hlast, hphase⟩ := h
  obtain ⟨hfp, hfc⟩ := hf
  rcases hphase with ⟨hs, hc0, hc1, hb⟩ | ⟨hs, hb⟩ | ⟨hs, hc0, hc1, hb⟩
  · unfold peakStep
    simp only [hs, if_true]
    split_ifs with h1 h2 h2
    · exact ⟨hfp, fun h => by simp at h⟩
    · exact ⟨hfp, fun h => by simp at h⟩
    · exact ⟨hfp, fun h => by simp at h⟩
    · exact ⟨hfp, fun h => by simp at h⟩
  · have hprev : (i + U32_MOD - 1) % U32_MOD = i - 1 := prevIndex_eq (by omega) (by omega)
    unfold peakStep
    simp only [hs, show ¬ ((1 : Int) = 0) by decide, if_false, if_true, hprev]
    split_ifs with h1 h2 h3
    · exact ⟨hfp, fun h => absurd (hs.symm.trans h) (by decide)⟩
    · exact ⟨hfp, fun _ h => by simp at h⟩
    · refine ⟨hfp, fun _ _ => ?_⟩
      show samples (i + 1 - 1) - samples (i + 1 - 1 - 1) < -eps
      rw [Nat.add_sub_cancel]
      exact h3
    · exact ⟨hfp, fun h => absurd (hs.symm.trans h) (by decide)⟩
  · have hprev : (i + U32_MOD - 1) % U32_MOD = i - 1 := prevIndex_eq (by omega) (by omega)
    have hti : toInt32 i = (i : Int) := toInt32_of_lt (by omega)
    unfold peakStep
    simp only [hs, show ¬ ((2 : Int) = 0) by decide, show ¬ ((2 : Int) = 1) by decide,
      if_false, if_true, hprev]
    by_cases hd : samples i - samples (i - 1) < -eps
    · simp only [hd, if_true]
      by_cases hc : st.count + 1 ≥ 2
      · simp only [hc, if_true]
        have hcount : st.count + 1 = 2 := by omega
        have hc1' : st.count = 1 := by omega
        simp only [hcount, hti]
        have hcast : (i : Int) - 2 = ((i - 2 : Nat) : Int) := by omega
        have hP : intToSize ((i : Int) - 2) = i - 2 := by
          rw [hcast]
          exact intToSize_natCast _ (by unfold U32_MOD; omega)
        rw [hP]
        have hnew : ∀ p, p ∈ st.peaks ++ [i - 2] →
            falls samples eps (p + 1) ∧ falls samples eps (p + 2) := by
          intro p hp
          rcases List.mem_append.mp hp with h | h
          · exact hfp p h
          · simp only [List.mem_singleton] at h
            subst h
            have e1 : i - 2 + 1 = i - 1 := by omega
            have e2 : i - 2 + 2 = i := by omega
            rw [e1, e2]
            exact ⟨hfc hs hc1', hd⟩
        split_ifs
        · exact ⟨hfp, fun _ h => by simp at h⟩
        · exact ⟨hnew, fun _ h => by simp at h⟩
        · exact ⟨hnew, fun h => by simp at h⟩
      · simp only [hc, if_false]
        refine ⟨hfp, fun _ _ => ?_⟩
        show samples (i + 1 - 1) - samples (i + 1 - 1 - 1) < -eps
        rw [Nat.add_sub_cancel]
        exact hd
    · simp only [hd, if_false, show ¬ ((0 : Int) ≥ 2) by decide]
      exact ⟨hfp, fun h => by simp at h⟩

/-- From any loop entry that satisfies both invariants the loop of `detect_peaks` ends,
given fuel for the indices left, with peaks that satisfy the output condition and are
each followed by two falling steps. -/
theorem peakLoop_falls (samples : Nat → α) (eps : α) (base n_samples : Nat)
    (hn : n_samples < 2147483648) :
    ∀ (fuel i : Nat) (st : PeakScan), n_samples ≤ i + fuel → PeakInv base n_samples i st →
      FallInv samples eps i st →
      ∃ st1, peakLoop samples eps n_samples fuel i st = some st1 ∧ PeakOut base n_samples st1 ∧
        ∀ p, p ∈ st1.peaks → falls samples eps (p + 1) ∧ falls samples eps (p + 2) := by
  intro fuel
  induction fuel with
  | zero =>
    intro i st hfuel hinv hf
    exact ⟨st, by simp [peakLoop]; omega, hinv.out, hf.1⟩
  | succ fuel ih =>
    intro i st hfuel hinv hf
    unfold peakLoop
    by_cases hi : i < n_samples
    · obtain ⟨hret, hcont⟩ := peakStep_inv samples eps base n_samples i st hn hi hinv
      have hf2 := peakStep_falls samples eps base n_samples i st hn hi hinv hf
      simp only [hi, if_true]
      by_cases hr : (peakStep samples eps i st).2 = true
      · simp only [hr, if_true]
        exact ⟨_, rfl, hret hr, hf2.1⟩
      · simp only [hr, if_false]
        have hr2 : (peakStep samples eps i st).2 = false := by
          cases h : (peakStep samples eps i st).2
          · rfl
          · exact absurd h hr
        rw [szadd_of_lt (by unfold U32_MOD; omega)]
        exact ih (i + 1) _ (by omega) (hcont hr2) hf2
    · simp only [hi, if_false]
      exact ⟨st, rfl, hinv.out, hf.1⟩

end

end SignalAnalyzer

namespace SignalAnalyzer

section
set_option linter.unusedSectionVars false
variable {α : Type} [Zero α] [Add α] [Sub α] [Mul α] [Neg α] [LE α] [LT α]
  [DecidableRel (fun a b : α => a ≤ b)] [DecidableRel (fun a b : α => a < b)]

/-- Given fuel for its loop `detect_peaks` returns; the count is the number of entries
and at most `N_PEAKS`; every entry lies two samples or more after `start_index` (the
sum being the `size_t` sum of the loop start) and two before the last sample, and is
followed by two steps that fall by more than `eps`. -/
theorem detect_peaks_out (samples : Nat → α) (eps : α) (n_samples start_index fuel : Nat)
    (hn : n_samples < 2147483648) (hfuel : n_samples ≤ fuel) :
    ∃ count peaks, detect_peaks samples eps n_samples start_index fuel = some (count, peaks) ∧
      count = peaks.length ∧ count ≤ N_PEAKS ∧
      ∀ p, p ∈ peaks → szadd start_index 1 + 1 ≤ p ∧ p + 2 < n_samples ∧
        falls samples eps (p + 1) ∧ falls samples eps (p + 2) := by
  have hinit : PeakInv (szadd start_index 1) n_samples (szadd start_index 1) PeakScan.init := by
    refine ⟨⟨rfl, Nat.zero_le _, List.chain'_nil, ?_⟩, by decide, ?_, ?_⟩
    · intro q hq
      simp [PeakScan.init] at hq
    · intro l hl
      simp [PeakScan.init] at hl
    · left
      refine ⟨rfl, le_refl _, by show (0 : Int) ≤ 1; decide, ?_⟩
      show ((szadd start_index 1 : Nat) : Int) + 0 ≤ _
      omega
  have hfall : FallInv samples eps (szadd start_index 1) PeakScan.init := by
    refine ⟨?_, ?_⟩
    · intro p hp
      simp [PeakScan.init] at hp
    · intro h
      simp [PeakScan.init] at h
  obtain ⟨st1, h1, h2, h3⟩ := peakLoop_falls samples eps (szadd start_index 1) n_samples hn fuel
    (szadd start_index 1) PeakScan.init (by omega) hinit hfall
  refine ⟨st1.peak_i, st1.peaks, ?_, h2.len, h2.le, ?_⟩
  · unfold detect_peaks
    rw [h1]
    rfl
  · intro p hp
    exact ⟨(h2.mem p hp).1, (h2.mem p hp).2, h3 p hp⟩

end

section
variable {α : Type} [LinearOrderedField α]

/-- Given fuel `analyze` returns, and when it returns true it has written `N_PEAKS`
peaks, each two samples or more after `signal_start` and two before the last sample,
and each followed by two steps that fall by more than `_EPS`. -/
theorem analyze_returns (samples : Nat → α) (signal_threshold : α)
    (n_samples fuel signal_start : Nat) (hn : n_samples < 2147483648) (hfuel : n_samples ≤ fuel) :
    ∃ out, analyze samples signal_threshold n_samples fuel signal_start = some out ∧
      (out.ok = true → out.peaks.length = N_PEAKS ∧
        ∀ p, p ∈ out.peaks → out.signal_start + 2 ≤ p ∧ p + 2 < n_samples ∧
          falls samples _EPS (p + 1) ∧ falls samples _EPS (p + 2)) := by
  unfold analyze
  rcases detect_start_returns samples signal_threshold n_samples fuel hn hfuel with
    h | ⟨s, h, hs⟩
  · rw [h]
    exact ⟨_, rfl, fun hok => by simp at hok⟩
  · rw [h]
    obtain ⟨count, peaks, hp, hlen, hle, hmem⟩ :=
      detect_peaks_out samples (_EPS : α) n_samples s fuel hn hfuel
    simp only [hp]
    have hsz : szadd s 1 = s + 1 := szadd_of_lt (by unfold U32_MOD; omega)
    by_cases hc : count < N_PEAKS
    · rw [if_pos hc]
      exact ⟨_, rfl, fun hok => by simp at hok⟩
    · rw [if_neg hc]
      refine ⟨_, rfl, fun _ => ⟨by show peaks.length = N_PEAKS; omega, ?_⟩⟩
      intro p hpm
      obtain ⟨h1, h2, h3⟩ := hmem p hpm
      rw [hsz] at h1
      exact ⟨h1, h2, h3⟩

end

end SignalAnalyzer

namespace PeakInterpolator

section
variable {α : Type} [LinearOrderedField α]

/-- On peaks that are neither the first nor the last sample
`interpolate_peaks_parabolic` returns true. -/
theorem interpolate_peaks_parabolic_interior (samples : Nat → α) (n_samples : Nat)
    (est_peaks : List Nat) (peaks time : Nat → α) (hn : n_samples < 2147483648)
    (h : ∀ p, p ∈ est_peaks → 1 ≤ p ∧ p + 1 < n_samples) :
    (interpolate_peaks_parabolic samples n_samples est_peaks peaks time).1 = true := by
  cases hv : (interpolate_peaks_parabolic samples n_samples est_peaks peaks time).1
  · exfalso
    unfold interpolate_peaks_parabolic at hv
    obtain ⟨p, hp, hb⟩ := (interpolateLoop_false_iff _ n_samples est_peaks 0 peaks time).mp hv
    obtain ⟨h1, h2⟩ := h p hp
    rw [szadd_one_eq p (by unfold U32_MOD; omega)] at hb
    omega
  · rfl

end

end PeakInterpolator

namespace Algorithm

section
variable {α : Type} [LinearOrderedField α]

/-- Whatever `solve` returns, it leaves the two thresholds as they were, and a false
return leaves `t_diff` and `sig_delay` as they were. -/
theorem solve_frame (sqrtf : α → α) (fuel : Nat) (locals : SolveLocals α)
    (threshold_l threshold_r : α) (sig_left sig_right : Nat → α) (n_frames : Nat)
    (t_diff sig_delay : α) (out : SolveOut α)
    (h : solve sqrtf fuel locals threshold_l threshold_r sig_left sig_right n_frames t_diff
      sig_delay = some out) :
    out.threshold_l = threshold_l ∧ out.threshold_r = threshold_r ∧
    (out.ok = false → out.t_diff = t_diff ∧ out.sig_delay = sig_delay) := by
  unfold solve at h
  simp only [] at h
  repeat' split at h
  all_goals first
    | (exfalso
       simp at h
       done)
    | (cases h
       exact ⟨rfl, rfl, fun _ => ⟨rfl, rfl⟩⟩)
    | (cases h
       exact ⟨rfl, rfl, fun hok => by simp at hok⟩)

/-- A false return of `calculate` leaves `angle` and `distance` as they were. -/
theorem calculate_frame (sqrtf asinf : α → α) (dev : Device) (fuel : Nat) (s : SamplerR2)
    (data : Acquired α) (locals : SolveLocals α) (t_diff sig_delay : α)
    (threshold_l threshold_r : α) (angle distance : α) (out : CalculateOut α)
    (h : calculate sqrtf asinf dev fuel s data locals t_diff sig_delay threshold_l threshold_r
      angle distance = some out) (hok : out.ok = false) :
    out.angle = angle ∧ out.distance = distance := by
  unfold calculate at h
  simp only [] at h
  repeat' split at h
  all_goals first
    | (exfalso
       simp at h
       done)
    | (cases h
       exact ⟨rfl, rfl⟩)
    | (cases h
       simp at hok)

end

end Algorithm

namespace Algorithm

section
variable {α : Type} [LinearOrderedField α]

/-- Given fuel for the loops of the two analyzers, `solve` returns. -/
theorem solve_returns (sqrtf : α → α) (fuel : Nat) (locals : SolveLocals α)
    (threshold_l threshold_r : α) (sig_left sig_right : Nat → α) (n_frames : Nat)
    (t_diff sig_delay : α) (hn : n_frames < 2147483648) (hfuel : n_frames ≤ fuel) :
    ∃ out, solve sqrtf fuel locals threshold_l threshold_r sig_left sig_right n_frames t_diff
      sig_delay = some out := by
  obtain ⟨al, hal, _⟩ := SignalAnalyzer.analyze_returns sig_left threshold_l n_frames fuel
    locals.signal_start_l hn hfuel
  obtain ⟨ar, har, _⟩ := SignalAnalyzer.analyze_returns sig_right threshold_r n_frames fuel
    locals.signal_start_r hn hfuel
  unfold solve
  simp only [hal, har]
  repeat' split
  all_goals exact ⟨_, rfl⟩

/-- A false return of `solve` comes from one of the two analyzers: the peaks of a
successful `analyze` are interior, so neither interpolation fails. -/
theorem solve_false_of_analyze (sqrtf : α → α) (fuel : Nat) (locals : SolveLocals α)
    (threshold_l threshold_r : α) (sig_left sig_right : Nat → α) (n_frames : Nat)
    (t_diff sig_delay : α) (out : SolveOut α) (hn : n_frames < 2147483648)
    (hfuel : n_frames ≤ fuel)
    (h : solve sqrtf fuel locals threshold_l threshold_r sig_left sig_right n_frames t_diff
      sig_delay = some out) (hok : out.ok = false) :
    ∃ al, SignalAnalyzer.analyze sig_left threshold_l n_frames fuel locals.signal_start_l
        = some al ∧
      (al.ok = false ∨
        ∃ ar, SignalAnalyzer.analyze sig_right threshold_r n_frames fuel locals.signal_start_r
            = some ar ∧ ar.ok = false) := by
  obtain ⟨al, hal, hlp⟩ := SignalAnalyzer.analyze_returns sig_left threshold_l n_frames fuel
    locals.signal_start_l hn hfuel
  obtain ⟨ar, har, hrp⟩ := SignalAnalyzer.analyze_returns sig_right threshold_r n_frames fuel
    locals.signal_start_r hn hfuel
  refine ⟨al, hal, ?_⟩
  by_cases hlo : al.ok = false
  · exact Or.inl hlo
  · right
    refine ⟨ar, har, ?_⟩
    by_cases hro : ar.ok = false
    · exact hro
    · exfalso
      have hlt : al.ok = true := by
        cases h1 : al.ok
        · exact absurd h1 hlo
        · rfl
      have hrt : ar.ok = true := by
        cases h1 : ar.ok
        · exact absurd h1 hro
        · rfl
      have hil := PeakInterpolator.interpolate_peaks_parabolic_interior
        (normalize sig_left n_frames SignalAnalyzer.N_PEAKS al.peaks) n_frames al.peaks
        locals.peaks_l locals.time_l hn
        (fun p hp => ⟨by have := ((hlp hlt).2 p hp).1; omega,
          by have := ((hlp hlt).2 p hp).2.1; omega⟩)
      have hir := PeakInterpolator.interpolate_peaks_parabolic_interior
        (normalize sig_right n_frames SignalAnalyzer.N_PEAKS ar.peaks) n_frames ar.peaks
        locals.peaks_r locals.time_r hn
        (fun p hp => ⟨by have := ((hrp hrt).2 p hp).1; omega,
          by have := ((hrp hrt).2 p hp).2.1; omega⟩)
      unfold solve at h
      simp only [hal, har, hlt, hrt, hil, hir] at h
      simp at h
      rw [← h] at hok
      simp at hok

end

end Algorithm

/-! ## Failure handling of `solve` and `calculate` -/

namespace Algorithm

section
variable {α : Type} [LinearOrderedField α]

/-- C25: whenever `solve` returns false it has written neither `t_diff` nor
`sig_delay`, and whatever it returns it has left the `signal_threshold` of both
analyzers as it was; whenever `calculate` returns false it has written neither `angle`
nor `distance`. -/
theorem no_partial_result (sqrtf asinf : α → α) (dev : Device) (fuel : Nat) (s : SamplerR2)
    (data : Acquired α) (locals : SolveLocals α) (threshold_l threshold_r : α)
    (sig_left sig_right : Nat → α) (n_frames : Nat) (t_diff sig_delay angle distance : α) :
    (∀ out : SolveOut α,
      solve sqrtf fuel locals threshold_l threshold_r sig_left sig_right n_frames t_diff sig_delay
        = some out →
      out.threshold_l = threshold_l ∧ out.threshold_r = threshold_r ∧
      (out.ok = false → out.t_diff = t_diff ∧ out.sig_delay = sig_delay)) ∧
    (∀ out : CalculateOut α,
      calculate sqrtf asinf dev fuel s data locals t_diff sig_delay threshold_l threshold_r
        angle distance = some out →
      out.ok = false → out.angle = angle ∧ out.distance = distance) :=
  ⟨fun out h => solve_frame sqrtf fuel locals threshold_l threshold_r sig_left sig_right
      n_frames t_diff sig_delay out h,
   fun out h hok => calculate_frame sqrtf asinf dev fuel s data locals t_diff sig_delay
      threshold_l threshold_r angle distance out h hok⟩

/-- C28: every index `p` that `detect_peaks` reports lies two samples or more after
`start_index` and two before the last sample, with `samples[p] > samples[p+1] >
samples[p+2]` (exact arithmetic, `_EPS ≥ 0`); so the peaks of a successful `analyze`
make `interpolate_peaks_parabolic` return true on any buffer of the same length, and a
false return of `solve` comes from one of the two analyzers, never from an
interpolation. -/
theorem detected_peaks_interior (sqrtf : α → α) (samples : Nat → α) (eps signal_threshold : α)
    (n_samples start_index fuel signal_start : Nat) (locals : SolveLocals α)
    (threshold_l threshold_r : α) (sig_left sig_right : Nat → α) (t_diff sig_delay : α)
    (hn : n_samples < 2147483648) (hfuel : n_samples ≤ fuel) (heps : 0 ≤ eps) :
    (∃ count peaks,
      SignalAnalyzer.detect_peaks samples eps n_samples start_index fuel = some (count, peaks) ∧
      ∀ p, p ∈ peaks →
        (start_index + 1 < U32_MOD → start_index + 2 ≤ p) ∧ p + 2 ≤ n_samples - 1 ∧
        samples (p + 1) < samples p ∧ samples (p + 2) < samples (p + 1)) ∧
    (∃ out, SignalAnalyzer.analyze samples signal_threshold n_samples fuel signal_start
        = some out ∧
      (out.ok = true →
        (∀ p, p ∈ out.peaks →
          out.signal_start + 2 ≤ p ∧ p + 2 ≤ n_samples - 1 ∧
          samples (p + 1) < samples p ∧ samples (p + 2) < samples (p + 1)) ∧
        ∀ (buffer peaks time : Nat → α),
          (PeakInterpolator.interpolate_peaks_parabolic buffer n_samples out.peaks peaks
            time).1 = true)) ∧
    (∃ out, solve sqrtf fuel locals threshold_l threshold_r sig_left sig_right n_samples t_diff
        sig_delay = some out ∧
      (out.ok = false →
        ∃ al, SignalAnalyzer.analyze sig_left threshold_l n_samples fuel locals.signal_start_l
            = some al ∧
          (al.ok = false ∨
            ∃ ar, SignalAnalyzer.analyze sig_right threshold_r n_samples fuel
                locals.signal_start_r = some ar ∧ ar.ok = false))) := by
  have hdec : ∀ (e : α) (p : Nat), 0 ≤ e → SignalAnalyzer.falls samples e (p + 1) →
      SignalAnalyzer.falls samples e (p + 2) →
      samples (p + 1) < samples p ∧ samples (p + 2) < samples (p + 1) := by
    intro e p he h1 h2
    unfold SignalAnalyzer.falls at h1 h2
    have e1 : p + 1 - 1 = p := by omega
    have e2 : p + 2 - 1 = p + 1 := by omega
    rw [e1] at h1
    rw [e2] at h2
    constructor <;> linarith
  have heps0 : (0 : α) ≤ SignalAnalyzer._EPS := by
    unfold SignalAnalyzer._EPS
    norm_num
  refine ⟨?_, ?_, ?_⟩
  · obtain ⟨count, peaks, h, _, _, hmem⟩ :=
      SignalAnalyzer.detect_peaks_out samples eps n_samples start_index fuel hn hfuel
    refine ⟨count, peaks, h, fun p hp => ?_⟩
    obtain ⟨h1, h2, h3, h4⟩ := hmem p hp
    refine ⟨fun hs => ?_, by omega, hdec eps p heps h3 h4⟩
    rw [SignalAnalyzer.szadd_of_lt hs] at h1
    omega
  · obtain ⟨out, h, hok⟩ := SignalAnalyzer.analyze_returns samples signal_threshold n_samples
      fuel signal_start hn hfuel
    refine ⟨out, h, fun ht => ⟨fun p hp => ?_, fun buffer peaks time => ?_⟩⟩
    · obtain ⟨h1, h2, h3, h4⟩ := (hok ht).2 p hp
      exact ⟨h1, by omega, hdec _ p heps0 h3 h4⟩
    · exact PeakInterpolator.interpolate_peaks_parabolic_interior buffer n_samples out.peaks
        peaks time hn
        (fun p hp => ⟨by have := ((hok ht).2 p hp).1; omega,
          by have := ((hok ht).2 p hp).2.1; omega⟩)
  · obtain ⟨out, h⟩ := solve_returns sqrtf fuel locals threshold_l threshold_r sig_left sig_right
      n_samples t_diff sig_delay hn hfuel
    exact ⟨out, h, fun hok => solve_false_of_analyze sqrtf fuel locals threshold_l threshold_r
      sig_left sig_right n_samples t_diff sig_delay out hn hfuel h hok⟩

end

theorem no_partial_result_witness :
    ∃ out : SolveOut ℚ,
      solve (fun x => x) 0 ⟨0, 0, fun _ => 0, fun _ => 0, fun _ => 0, fun _ => 0, 0, 0⟩
        (1 / 1000) (1 / 1000) (fun _ => 0) (fun _ => 0) 0 7 9 = some out ∧
      out.ok = false ∧ out.t_diff = 7 ∧ out.sig_delay = 9 :=
  ⟨_, rfl, rfl,
    (((no_partial_result (fun x : ℚ => x) (fun x => x)
        { i2s_read := fun _ n => { ok := true, bytesRead := n }, counter := fun _ => 1000 } 0
        { readIndex := 0, triggerIndex := 0, triggered := false, reads := 0, polls := 0 }
        ⟨fun _ => 0, fun _ => 0, fun _ => 0, fun _ => 0⟩
        ⟨0, 0, fun _ => 0, fun _ => 0, fun _ => 0, fun _ => 0, 0, 0⟩
        (1 / 1000) (1 / 1000) (fun _ => 0) (fun _ => 0) 0 7 9 0 0).1 _ rfl).2.2 rfl)⟩

theorem detected_peaks_interior_witness :
    ∃ count peaks,
      SignalAnalyzer.detect_peaks (fun k => ([0, 1, 2, 1, 0] : List ℚ).getD (k % 5) 0) 0 30 0 30
        = some (count, peaks) ∧
      ∀ p, p ∈ peaks →
        (0 + 1 < U32_MOD → 0 + 2 ≤ p) ∧ p + 2 ≤ 30 - 1 ∧
        (fun k => ([0, 1, 2, 1, 0] : List ℚ).getD (k % 5) 0) (p + 1)
          < (fun k => ([0, 1, 2, 1, 0] : List ℚ).getD (k % 5) 0) p ∧
        (fun k => ([0, 1, 2, 1, 0] : List ℚ).getD (k % 5) 0) (p + 2)
          < (fun k => ([0, 1, 2, 1, 0] : List ℚ).getD (k % 5) 0) (p + 1) :=
  (detected_peaks_interior (fun x : ℚ => x)
    (fun k => ([0, 1, 2, 1, 0] : List ℚ).getD (k % 5) 0) 0 (1 / 1000) 30 0 30 0
    ⟨0, 0, fun _ => 0, fun _ => 0, fun _ => 0, fun _ => 0, 0, 0⟩
    (1 / 1000) (1 / 1000) (fun _ => 0) (fun _ => 0) 7 9
    (by decide) (by decide) (le_refl _)).1

end Algorithm

/-! ## The overrun skip of `FrameRingTracker` and the noise-floor discard of `calculate` -/

theorem FrameRingTracker.skip_after_read (t : FrameRingTracker) (frames : Nat)
    (hhw : t.hwReadIndex + frames < U64_MOD) (hlog : t.logicalReadIndex + frames < U64_MOD) :
    (t.onFramesRead frames).framesToSkipOverrun = t.framesToSkipOverrun := by
  unfold FrameRingTracker.onFramesRead FrameRingTracker.framesToSkipOverrun
  simp only [u64add, Nat.mod_eq_of_lt hhw, Nat.mod_eq_of_lt hlog]
  by_cases h : t.hwReadIndex ≥ t.logicalReadIndex
  · rw [if_pos h, if_pos (by omega)]
  · rw [if_neg h, if_neg (by omega)]
    have h1 : t.hwReadIndex + frames < U64_MOD := hhw
    unfold u64sub
    rw [Nat.mod_eq_of_lt hhw, Nat.mod_eq_of_lt (show t.hwReadIndex < U64_MOD by omega)]
    have e : t.logicalReadIndex + frames + U64_MOD - (t.hwReadIndex + frames)
        = t.logicalReadIndex + U64_MOD - t.hwReadIndex := by omega
    rw [e]

/-- C27, the code at a failing input: a tracker of ring size 4 on which 10 frames were
produced has `hwReadIndex = 0`, `logicalReadIndex = 6` and `framesToSkipOverrun() = 6`;
after these 6 frames are reported with `onFramesRead` it has `hwReadIndex = 6`,
`logicalReadIndex = 12`, and `framesToSkipOverrun()` is still 6, not 0. In every state
`onFramesRead` advances both read indices by the same amount, so (without 64-bit
wrap) it leaves `framesToSkipOverrun()` as it was, and a skip that was not 0 stays
not 0. -/
theorem overrun_skip_not_caught_up (t : FrameRingTracker) (frames : Nat) :
    (((FrameRingTracker.new 4).onFramesProduced 10).hwReadIndex = 0 ∧
      ((FrameRingTracker.new 4).onFramesProduced 10).logicalReadIndex = 6 ∧
      ((FrameRingTracker.new 4).onFramesProduced 10).framesToSkipOverrun = 6 ∧
      (((FrameRingTracker.new 4).onFramesProduced 10).onFramesRead
        ((FrameRingTracker.new 4).onFramesProduced 10).framesToSkipOverrun)
        = { ringFrames := 4, writeIndex := 10, hwReadIndex := 6, logicalReadIndex := 12 } ∧
      (((FrameRingTracker.new 4).onFramesProduced 10).onFramesRead
        ((FrameRingTracker.new 4).onFramesProduced 10).framesToSkipOverrun).framesToSkipOverrun
        = 6) ∧
    (t.hwReadIndex + frames < U64_MOD → t.logicalReadIndex + frames < U64_MOD →
      (t.onFramesRead frames).framesToSkipOverrun = t.framesToSkipOverrun) ∧
    (t.logicalReadIndex + t.framesToSkipOverrun < U64_MOD → 0 < t.framesToSkipOverrun →
      (t.onFramesRead t.framesToSkipOverrun).framesToSkipOverrun = t.framesToSkipOverrun ∧
      (t.onFramesRead t.framesToSkipOverrun).hwReadIndex
        < (t.onFramesRead t.framesToSkipOverrun).logicalReadIndex) := by
  refine ⟨by decide, fun h1 h2 => FrameRingTracker.skip_after_read t frames h1 h2,
    fun h1 h2 => ?_⟩
  have hlt : t.hwReadIndex < t.logicalReadIndex := by
    by_contra hc
    unfold FrameRingTracker.framesToSkipOverrun at h2
    rw [if_pos (by omega)] at h2
    omega
  refine ⟨FrameRingTracker.skip_after_read t _ (by omega) h1, ?_⟩
  unfold FrameRingTracker.onFramesRead
  simp only [u64add]
  rw [Nat.mod_eq_of_lt h1, Nat.mod_eq_of_lt (show t.hwReadIndex + t.framesToSkipOverrun
    < U64_MOD by omega)]
  omega

namespace SamplerR2

theorem discardLoop_ge (dev : Device) (fuel : Nat) :
    ∀ (s : SamplerR2) (frames_to_discard total : Nat) (n : Nat) (s1 : SamplerR2),
      discardLoop dev fuel s frames_to_discard total = some (n, s1) → frames_to_discard ≤ n := by
  induction fuel with
  | zero =>
    intro s f tot n s1 h
    unfold discardLoop at h
    by_cases hc : tot < f
    · rw [if_pos hc] at h
      simp at h
    · rw [if_neg hc] at h
      simp only [Option.some.injEq, Prod.mk.injEq] at h
      omega
  | succ k ih =>
    intro s f tot n s1 h
    unfold discardLoop at h
    by_cases hc : tot < f
    · rw [if_pos hc] at h
      simp only [] at h
      split at h
      · simp at h
      · exact ih _ _ _ _ _ h
    · rw [if_neg hc] at h
      simp only [Option.some.injEq, Prod.mk.injEq] at h
      omega

end SamplerR2

namespace Algorithm

/-- C29, the code at a failing input: on a sampler that has read nothing
(`readIndex = 0`) and is triggered when the frame counter reads 100, the head of
`calculate` takes the `else` branch and passes `(size_t)100 - 128 = 4294967268` to
`discard_frames`. In general, for `readIndex ≤ triggerIndex` the request is
`triggerIndex - readIndex - FRAMES_PER_READ` when the difference is at least
`FRAMES_PER_READ` (and below `2^32`), and `2^32 - FRAMES_PER_READ + (triggerIndex -
readIndex)` when it is smaller; and whenever `discard_frames` returns it has
discarded at least the frames requested. -/
theorem discard_request_wraps (readIndex triggerIndex : Nat) (dev : Device) (fuel : Nat)
    (s : SamplerR2) (request : Nat) :
    ((SamplerR2.trigger ⟨fun _ n => { ok := true, bytesRead := n }, fun _ => 100⟩
        { readIndex := 0, triggerIndex := 0, triggered := false, reads := 0, polls := 0 })
        = { readIndex := 0, triggerIndex := 100, triggered := true, reads := 0, polls := 1 } ∧
      calculateHead 0 100
        = { frames_to_discard := 100, sig_offset := 0, discardRequest := some 4294967268 }) ∧
    (readIndex ≤ triggerIndex → triggerIndex < U64_MOD →
      triggerIndex - readIndex < FRAMES_PER_READ →
      (calculateHead readIndex triggerIndex).discardRequest
        = some (U32_MOD - FRAMES_PER_READ + (triggerIndex - readIndex)) ∧
      triggerIndex - readIndex < U32_MOD - FRAMES_PER_READ + (triggerIndex - readIndex)) ∧
    (readIndex ≤ triggerIndex → triggerIndex < U64_MOD →
      FRAMES_PER_READ ≤ triggerIndex - readIndex → triggerIndex - readIndex < U32_MOD →
      (calculateHead readIndex triggerIndex).discardRequest
        = some (triggerIndex - readIndex - FRAMES_PER_READ)) ∧
    (∀ (n : Nat) (s1 : SamplerR2),
      SamplerR2.discard_frames dev fuel s request = some (n, s1) → request ≤ n) := by
  refine ⟨⟨by decide, by decide⟩, ?_, ?_, ?_⟩
  · intro hle ht hd
    have hsub : u64sub triggerIndex readIndex = triggerIndex - readIndex := by
      unfold u64sub
      rw [Nat.mod_eq_of_lt (show readIndex < U64_MOD by omega)]
      have e : triggerIndex + U64_MOD - readIndex = (triggerIndex - readIndex) + U64_MOD := by
        omega
      rw [e, Nat.add_mod_right, Nat.mod_eq_of_lt (by omega)]
    unfold calculateHead
    simp only []
    rw [if_neg (by omega), hsub]
    unfold FRAMES_PER_READ U32_MOD at *
    constructor
    · simp only [Option.some.injEq]
      omega
    · omega
  · intro hle ht hd hlt
    have hsub : u64sub triggerIndex readIndex = triggerIndex - readIndex := by
      unfold u64sub
      rw [Nat.mod_eq_of_lt (show readIndex < U64_MOD by omega)]
      have e : triggerIndex + U64_MOD - readIndex = (triggerIndex - readIndex) + U64_MOD := by
        omega
      rw [e, Nat.add_mod_right, Nat.mod_eq_of_lt (by omega)]
    unfold calculateHead
    simp only []
    rw [if_neg (by omega), hsub]
    unfold FRAMES_PER_READ U32_MOD at *
    simp only [Option.some.injEq]
    omega
  · intro n s1 h
    exact SamplerR2.discardLoop_ge dev fuel s request 0 n s1 h

end Algorithm

/-! ## `detect_peaks` and the slope machine without the spacing check -/

namespace SignalAnalyzer

theorem spacedAfter_initial : ∀ (l : List Nat) (a : Nat), spacedAfter a l <+: l := by
  intro l
  induction l with
  | nil => intro a; exact List.prefix_refl _
  | cons b l ih =>
    intro a
    unfold spacedAfter
    by_cases h : peakGap a b
    · rw [if_pos h]
      exact (List.prefix_cons_inj b).mpr (ih b)
    · rw [if_neg h]
      exact List.nil_prefix

theorem spacedAfter_chain : ∀ (l : List Nat) (a : Nat), List.Chain peakGap a (spacedAfter a l) := by
  intro l
  induction l with
  | nil => intro a; exact List.Chain.nil
  | cons b l ih =>
    intro a
    unfold spacedAfter
    by_cases h : peakGap a b
    · rw [if_pos h]
      exact List.Chain.cons h (ih b)
    · rw [if_neg h]
      exact List.Chain.nil

theorem spacedAfter_append : ∀ (l : List Nat) (a : Nat), List.Chain peakGap a l →
    ∀ more, ∃ t, spacedAfter a (l ++ more) = l ++ t := by
  intro l
  induction l with
  | nil => intro a _ more; exact ⟨spacedAfter a more, rfl⟩
  | cons b l ih =>
    intro a hc more
    rw [List.chain_cons] at hc
    obtain ⟨t, ht⟩ := ih b hc.2 more
    refine ⟨t, ?_⟩
    show spacedAfter a (b :: (l ++ more)) = b :: (l ++ t)
    unfold spacedAfter
    rw [if_pos hc.1, ht]

theorem spacedAfter_of_chain : ∀ (l : List Nat) (a : Nat), List.Chain peakGap a l →
    spacedAfter a l = l := by
  intro l
  induction l with
  | nil => intro a _; rfl
  | cons b l ih =>
    intro a hc
    rw [List.chain_cons] at hc
    unfold spacedAfter
    rw [if_pos hc.1, ih b hc.2]

theorem spacedAfter_violation : ∀ (l : List Nat) (a c x : Nat) (rest : List Nat),
    List.Chain peakGap a l → (a :: l).getLast? = some x → ¬ peakGap x c →
    spacedAfter a (l ++ c :: rest) = l := by
  intro l
  induction l with
  | nil =>
    intro a c x rest _ hx hv
    simp only [List.getLast?_singleton, Option.some.injEq] at hx
    subst hx
    show spacedAfter a (c :: rest) = []
    unfold spacedAfter
    rw [if_neg hv]
  | cons b l ih =>
    intro a c x rest hc hx hv
    rw [List.chain_cons] at hc
    rw [List.getLast?_cons_cons] at hx
    show spacedAfter a (b :: (l ++ c :: rest)) = b :: l
    unfold spacedAfter
    rw [if_pos hc.1, ih b c x rest hc.2 hx hv]

theorem spacedPrefix_initial (c : List Nat) : spacedPrefix c <+: c := by
  cases c with
  | nil => exact List.prefix_refl _
  | cons a l => exact (List.prefix_cons_inj a).mpr (spacedAfter_initial l a)

theorem spacedPrefix_chain (c : List Nat) : List.Chain' peakGap (spacedPrefix c) := by
  cases c with
  | nil => exact List.chain'_nil
  | cons a l => exact spacedAfter_chain l a

theorem spacedPrefix_longest (c l : List Nat) (hl : l <+: c) (hc : List.Chain' peakGap l) :
    l <+: spacedPrefix c := by
  obtain ⟨more, rfl⟩ := hl
  cases l with
  | nil => exact List.nil_prefix
  | cons a l =>
    obtain ⟨t, ht⟩ := spacedAfter_append l a hc more
    show a :: l <+: a :: spacedAfter a (l ++ more)
    rw [ht]
    exact ⟨t, rfl⟩

theorem chain_getD : ∀ (l : List Nat), List.Chain' peakGap l →
    ∀ k, k + 1 < l.length → peakGap (l.getD k 0) (l.getD (k + 1) 0) := by
  intro l
  induction l with
  | nil => intro _ k hk; simp at hk
  | cons a l ih =>
    intro hc k hk
    cases l with
    | nil => simp at hk
    | cons b l =>
      rw [List.chain'_cons] at hc
      cases k with
      | zero => simpa using hc.1
      | succ k =>
        have := ih hc.2 k (by simpa using hk)
        simpa using this

theorem spacedPrefix_stops (c : List Nat) (k : Nat)
    (hv : ¬ peakGap (c.getD k 0) (c.getD (k + 1) 0)) : (spacedPrefix c).length ≤ k + 1 := by
  by_contra hlen
  have hlen2 : k + 1 < (spacedPrefix c).length := by omega
  obtain ⟨more, hmore⟩ := spacedPrefix_initial c
  have h := chain_getD (spacedPrefix c) (spacedPrefix_chain c) k hlen2
  have e1 : c.getD k 0 = (spacedPrefix c).getD k 0 := by
    have e : c.getD k 0 = (spacedPrefix c ++ more).getD k 0 := by rw [hmore]
    rw [e, List.getD_append _ _ _ _ (by omega)]
  have e2 : c.getD (k + 1) 0 = (spacedPrefix c).getD (k + 1) 0 := by
    have e : c.getD (k + 1) 0 = (spacedPrefix c ++ more).getD (k + 1) 0 := by rw [hmore]
    rw [e, List.getD_append _ _ _ _ hlen2]
  rw [e1, e2] at hv
  exact hv h

theorem slopeCut_eq (out cands : List Nat) (hc : List.Chain' peakGap out)
    (hlen : out.length ≤ N_PEAKS) (h : SlopeCut out cands) :
    (spacedPrefix cands).take N_PEAKS = out := by
  obtain ⟨more, rfl, h⟩ := h
  cases out with
  | nil =>
    rcases h with h | h | ⟨c, rest, l, _, h, _⟩
    · simp [N_PEAKS] at h
    · subst h
      rfl
    · simp at h
  | cons a l =>
    show (a :: spacedAfter a (l ++ more)).take N_PEAKS = a :: l
    rcases h with h | h | ⟨c, rest, x, hm, hx, hv⟩
    · obtain ⟨t, ht⟩ := spacedAfter_append l a hc more
      rw [ht]
      exact List.take_left' h
    · subst h
      rw [List.append_nil, spacedAfter_of_chain l a hc]
      exact List.take_of_length_le hlen
    · subst hm
      rw [spacedAfter_violation l a c x rest hc hx hv]
      exact List.take_of_length_le hlen

section
set_option linter.unusedSectionVars false
variable {α : Type} [Zero α] [Add α] [Sub α] [Mul α] [Neg α] [LE α] [LT α]
  [DecidableRel (fun a b : α => a ≤ b)] [DecidableRel (fun a b : α => a < b)]

theorem slopeStep_candidates (samples : Nat → α) (eps : α) (i : Nat) (fs : SlopeScan) :
    ∃ t, (slopeStep samples eps i fs).candidates = fs.candidates ++ t := by
  unfold slopeStep
  simp only []
  split_ifs
  all_goals first
    | exact ⟨[], (List.append_nil _).symm⟩
    | exact ⟨_, rfl⟩

theorem slopeRun_candidates (samples : Nat → α) (eps : α) :
    ∀ (positions : List Nat) (fs : SlopeScan),
      ∃ t, (slopeRun samples eps positions fs).candidates = fs.candidates ++ t := by
  intro positions
  induction positions with
  | nil => intro fs; exact ⟨[], (List.append_nil _).symm⟩
  | cons i l ih =>
    intro fs
    obtain ⟨t1, h1⟩ := slopeStep_candidates samples eps i fs
    obtain ⟨t2, h2⟩ := ih (slopeStep samples eps i fs)
    refine ⟨t1 ++ t2, ?_⟩
    show (slopeRun samples eps l (slopeStep samples eps i fs)).candidates = _
    rw [h2, h1, List.append_assoc]

/-- One pass through the loop body of `detect_peaks` that does not return is one step
of the slope machine; a pass that returns is a step that yields a candidate, and the
candidate either fills the `N_PEAKS` entries or violates the spacing. -/
theorem peakStep_sim (samples : Nat → α) (eps : α) (base n_samples i : Nat) (st : PeakScan)
    (fs : SlopeScan) (hn : n_samples < 2147483648) (hi : i < n_samples) (h1 : 1 ≤ i)
    (h : PeakInv base n_samples i st) (hsim : SlopeSim st fs) :
    ((peakStep samples eps i st).2 = false →
      SlopeSim (peakStep samples eps i st).1 (slopeStep samples eps i fs)) ∧
    ((peakStep samples eps i st).2 = true →
      ∃ c, (slopeStep samples eps i fs).candidates = st.peaks ++ [c] ∧
        (((peakStep samples eps i st).1.peaks = st.peaks ++ [c] ∧
            (st.peaks ++ [c]).length = N_PEAKS) ∨
          ((peakStep samples eps i st).1.peaks = st.peaks ∧
            ∃ l, st.peaks.getLast? = some l ∧ ¬ peakGap l c))) := by
  obtain ⟨hout, hlt, hlast, hphase⟩ := h
  obtain ⟨hst, hct, hcand, hfirst⟩ := hsim
  have hprev : (i + U32_MOD - 1) % U32_MOD = i - 1 := prevIndex_eq h1 (by omega)
  rcases hphase with ⟨hs, hc0, hc1, hb⟩ | ⟨hs, hb⟩ | ⟨hs, hc0, hc1, hb⟩
  · have hfs : fs.state = 0 := by omega
    unfold peakStep slopeStep
    simp only [hs, hfs, if_true, hprev]
    by_cases hd : eps < samples i - samples (i - 1)
    · simp only [hd, if_true]
      by_cases hc : st.count + 1 ≥ 2
      · have hc2 : fs.count + 1 ≥ 2 := by omega
        simp only [hc, hc2, if_true]
        exact ⟨fun _ => ⟨rfl, rfl, hcand, hfirst⟩, fun h => by simp at h⟩
      · have hc2 : ¬ fs.count + 1 ≥ 2 := by omega
        simp only [hc, hc2, if_false]
        refine ⟨fun _ => ⟨?_, ?_, hcand, hfirst⟩, fun h => by simp at h⟩
        · rfl
        · show st.count + 1 = ((fs.count + 1 : Nat) : Int)
          omega
    · simp only [hd, if_false, show ¬ ((0 : Int) ≥ 2) by decide]
      refine ⟨fun _ => ⟨?_, ?_, hcand, hfirst⟩, fun h => by simp at h⟩
      · rfl
      · rfl
  · have hfs : fs.state = 1 := by omega
    unfold peakStep slopeStep
    simp only [hs, hfs, show ¬ ((1 : Int) = 0) by decide, show ¬ ((1 : Nat) = 0) by decide,
      if_false, if_true, hprev]
    by_cases hd1 : eps < samples i - samples (i - 1)
    · simp only [hd1, if_true]
      exact ⟨fun _ => ⟨hst, hct, hcand, hfirst⟩, fun h => by simp at h⟩
    · simp only [hd1, if_false]
      by_cases hd2 : samples i - samples (i - 1) ≤ eps ∧ -eps ≤ samples i - samples (i - 1)
      · simp only [hd2, and_self, if_true]
        exact ⟨fun _ => ⟨rfl, rfl, hcand, hfirst⟩, fun h => by simp at h⟩
      · rw [if_neg hd2, if_neg hd2]
        by_cases hd3 : samples i - samples (i - 1) < -eps
        · simp only [hd3, if_true]
          exact ⟨fun _ => ⟨rfl, rfl, hcand, hfirst⟩, fun h => by simp at h⟩
        · simp only [hd3, if_false]
          exact ⟨fun _ => ⟨hst, hct, hcand, hfirst⟩, fun h => by simp at h⟩
  · have hfs : fs.state = 2 := by omega
    have hti : toInt32 i = (i : Int) := toInt32_of_lt (by omega)
    unfold peakStep slopeStep
    simp only [hs, hfs, show ¬ ((2 : Int) = 0) by decide, show ¬ ((2 : Int) = 1) by decide,
      show ¬ ((2 : Nat) = 0) by decide, show ¬ ((2 : Nat) = 1) by decide,
      if_false, if_true, hprev]
    by_cases hd : samples i - samples (i - 1) < -eps
    · simp only [hd, if_true]
      by_cases hc : st.count + 1 ≥ 2
      · have hc2 : fs.count + 1 ≥ 2 := by omega
        have hfc : fs.count + 1 = 2 := by omega
        simp only [hc, hc2, if_true]
        have hcount : st.count + 1 = 2 := by omega
        simp only [hcount, hti, hfc]
        have hcast : (i : Int) - 2 = ((i - 2 : Nat) : Int) := by omega
        have hP : intToSize ((i : Int) - 2) = i - 2 := by
          rw [hcast]
          exact intToSize_natCast _ (by unfold U32_MOD; omega)
        have hsz : szadd st.peak_i 1 = st.peak_i + 1 :=
          szadd_of_lt (by unfold N_PEAKS at hlt; unfold U32_MOD; omega)
        rw [hP, hsz, hcand]
        by_cases hbad : st.first = false ∧
            ((i : Int) - 2 - st.last_peak < MIN_I_DIFF ∨ (i : Int) - 2 - st.last_peak > MAX_I_DIFF)
        · simp only [hbad, and_self, if_true]
          refine ⟨fun h => by simp at h, fun _ => ⟨i - 2, rfl, Or.inr ⟨trivial, ?_⟩⟩⟩
          have hne : st.peaks ≠ [] := by
            intro he
            have := hfirst he
            rw [hbad.1] at this
            exact Bool.noConfusion this
          obtain ⟨l, hl⟩ : ∃ l, st.peaks.getLast? = some l := by
            cases hg : st.peaks.getLast? with
            | none => exact absurd (List.getLast?_eq_none_iff.mp hg) hne
            | some l => exact ⟨l, rfl⟩
          refine ⟨l, hl, ?_⟩
          obtain ⟨_, hlp⟩ := hlast l hl
          have hb2 := hbad.2
          rw [hlp] at hb2
          unfold peakGap
          unfold MIN_I_DIFF MAX_I_DIFF at hb2 ⊢
          omega
        · rw [if_neg hbad]
          by_cases hfull : st.peak_i + 1 ≥ N_PEAKS
          · simp only [hfull, if_true]
            refine ⟨fun h => by simp at h, fun _ => ⟨i - 2, rfl, Or.inl ⟨rfl, ?_⟩⟩⟩
            rw [List.length_append, List.length_singleton, ← hout.len]
            omega
          · simp only [hfull, if_false]
            refine ⟨fun _ => ⟨rfl, rfl, rfl, ?_⟩, fun h => by simp at h⟩
            intro he
            exact absurd he (by simp)
      · have hc2 : ¬ fs.count + 1 ≥ 2 := by omega
        simp only [hc, hc2, if_false]
        refine ⟨fun _ => ⟨?_, ?_, hcand, hfirst⟩, fun h => by simp at h⟩
        · rfl
        · show st.count + 1 = ((fs.count + 1 : Nat) : Int)
          omega
    · simp only [hd, if_false, show ¬ ((0 : Int) ≥ 2) by decide]
      exact ⟨fun _ => ⟨rfl, rfl, hcand, hfirst⟩, fun h => by simp at h⟩

/-- From any loop entry that satisfies the invariant and is matched by a state of the
slope machine, the loop of `detect_peaks` ends with peaks that are the cut of the
candidates the slope machine finds on the same positions. -/
theorem peakLoop_sim (samples : Nat → α) (eps : α) (base n_samples : Nat)
    (hn : n_samples < 2147483648) (hbase : 1 ≤ base) :
    ∀ (fuel i : Nat) (st : PeakScan) (fs : SlopeScan), n_samples ≤ i + fuel →
      PeakInv base n_samples i st → SlopeSim st fs →
      ∃ st1, peakLoop samples eps n_samples fuel i st = some st1 ∧ PeakOut base n_samples st1 ∧
        SlopeCut st1.peaks
          (slopeRun samples eps (List.range' i (n_samples - i)) fs).candidates := by
  intro fuel
  induction fuel with
  | zero =>
    intro i st fs hfuel hinv hsim
    have e : n_samples - i = 0 := by omega
    refine ⟨st, by simp [peakLoop]; omega, hinv.out, [], ?_, Or.inr (Or.inl rfl)⟩
    rw [e]
    show fs.candidates = st.peaks ++ []
    rw [List.append_nil]
    exact hsim.2.2.1
  | succ fuel ih =>
    intro i st fs hfuel hinv hsim
    unfold peakLoop
    by_cases hi : i < n_samples
    · have h1 : 1 ≤ i := by
        rcases hinv.phase with ⟨_, hc0, _, hb⟩ | ⟨_, hb⟩ | ⟨_, _, _, hb⟩ <;> omega
      obtain ⟨hret, hcont⟩ := peakStep_inv samples eps base n_samples i st hn hi hinv
      obtain ⟨hsc, hsr⟩ := peakStep_sim samples eps base n_samples i st fs hn hi h1 hinv hsim
      have e : n_samples - i = (n_samples - (i + 1)) + 1 := by omega
      have hrun : slopeRun samples eps (List.range' i (n_samples - i)) fs
          = slopeRun samples eps (List.range' (i + 1) (n_samples - (i + 1)))
              (slopeStep samples eps i fs) := by
        rw [e, List.range'_succ]
        rfl
      rw [hrun]
      simp only [hi, if_true]
      by_cases hr : (peakStep samples eps i st).2 = true
      · simp only [hr, if_true]
        refine ⟨_, rfl, hret hr, ?_⟩
        obtain ⟨c, hc, hcase⟩ := hsr hr
        obtain ⟨t, ht⟩ := slopeRun_candidates samples eps
          (List.range' (i + 1) (n_samples - (i + 1))) (slopeStep samples eps i fs)
        rw [ht, hc]
        rcases hcase with ⟨hp, hlen⟩ | ⟨hp, l, hl, hv⟩
        · rw [hp]
          exact ⟨t, rfl, Or.inl hlen⟩
        · rw [hp]
          exact ⟨c :: t, by simp, Or.inr (Or.inr ⟨c, t, l, rfl, hl, hv⟩)⟩
      · simp only [hr, if_false]
        have hr2 : (peakStep samples eps i st).2 = false := by
          cases h : (peakStep samples eps i st).2
          · rfl
          · exact absurd h hr
        rw [szadd_of_lt (by unfold U32_MOD; omega)]
        exact ih (i + 1) _ _ (by omega) (hcont hr2) (hsc hr2)
    · simp only [hi, if_false]
      have e : n_samples - i = 0 := by omega
      refine ⟨st, rfl, hinv.out, [], ?_, Or.inr (Or.inl rfl)⟩
      rw [e]
      show fs.candidates = st.peaks ++ []
      rw [List.append_nil]
      exact hsim.2.2.1

/-- C26: abort on spacing violation. For every sample array, `detect_peaks` (given
fuel for its loop) returns the longest prefix, cut at `N_PEAKS` entries, of the
candidate-peak sequence of the slope machine run without the spacing check, in which
every consecutive gap lies in `[MIN_I_DIFF, MAX_I_DIFF]`: the output is
`spacedPrefix` of the candidates cut at `N_PEAKS`; `spacedPrefix` of a list is a
prefix of it whose consecutive gaps are all in range, and every prefix with all gaps
in range is a prefix of it; so once candidate `k + 1` violates the spacing, at most
the `k + 1` candidates before it are reported. -/
theorem detect_peaks_truncates (samples : Nat → α) (eps : α) (n_samples start_index fuel : Nat)
    (hn : n_samples < 2147483648) (hfuel : n_samples ≤ fuel)
    (hstart : start_index + 1 < U32_MOD) :
    detect_peaks samples eps n_samples start_index fuel
      = some (((spacedPrefix (slopeCandidates samples eps n_samples start_index)).take
                N_PEAKS).length,
          (spacedPrefix (slopeCandidates samples eps n_samples start_index)).take N_PEAKS) ∧
    spacedPrefix (slopeCandidates samples eps n_samples start_index)
      <+: slopeCandidates samples eps n_samples start_index ∧
    List.Chain' peakGap (spacedPrefix (slopeCandidates samples eps n_samples start_index)) ∧
    (∀ l : List Nat, l <+: slopeCandidates samples eps n_samples start_index →
      List.Chain' peakGap l →
      l <+: spacedPrefix (slopeCandidates samples eps n_samples start_index)) ∧
    (∀ k : Nat, k + 1 < (slopeCandidates samples eps n_samples start_index).length →
      ¬ peakGap ((slopeCandidates samples eps n_samples start_index).getD k 0)
          ((slopeCandidates samples eps n_samples start_index).getD (k + 1) 0) →
      ((spacedPrefix (slopeCandidates samples eps n_samples start_index)).take
        N_PEAKS).length ≤ k + 1) := by
  have hsz : szadd start_index 1 = start_index + 1 := szadd_of_lt hstart
  have hinit : PeakInv (start_index + 1) n_samples (start_index + 1) PeakScan.init := by
    refine ⟨⟨rfl, Nat.zero_le _, List.chain'_nil, ?_⟩, by decide, ?_, ?_⟩
    · intro q hq
      simp [PeakScan.init] at hq
    · intro l hl
      simp [PeakScan.init] at hl
    · left
      refine ⟨rfl, le_refl _, by show (0 : Int) ≤ 1; decide, ?_⟩
      show ((start_index + 1 : Nat) : Int) + 0 ≤ _
      omega
  have hsim : SlopeSim PeakScan.init SlopeScan.init := ⟨rfl, rfl, rfl, fun _ => rfl⟩
  obtain ⟨st1, h1, h2, h3⟩ := peakLoop_sim samples eps (start_index + 1) n_samples hn
    (by omega) fuel (start_index + 1) PeakScan.init SlopeScan.init (by omega) hinit hsim
  have heq : (spacedPrefix (slopeCandidates samples eps n_samples start_index)).take N_PEAKS
      = st1.peaks :=
    slopeCut_eq st1.peaks _ h2.chain (by rw [← h2.len]; exact h2.le) h3
  refine ⟨?_, spacedPrefix_initial _, spacedPrefix_chain _,
    fun l hl hc => spacedPrefix_longest _ l hl hc, fun k _ hv => ?_⟩
  · rw [heq]
    unfold detect_peaks
    rw [hsz, h1, ← h2.len]
    rfl
  · have := spacedPrefix_stops _ k hv
    rw [List.length_take]
    omega

end

theorem detect_peaks_truncates_witness :
    slopeCandidates
        (fun k => ([0, 1, 2, 1, 0, 0, 1, 2, 1, 0, 0, 0, 0, 0, 1, 2, 1, 0, 0, 1, 2, 1, 0]
          : List Int).getD k 0) 0 23 0 = [2, 7, 15, 20] ∧
      detect_peaks
        (fun k => ([0, 1, 2, 1, 0, 0, 1, 2, 1, 0, 0, 0, 0, 0, 1, 2, 1, 0, 0, 1, 2, 1, 0]
          : List Int).getD k 0) 0 23 0 23 = some (2, [2, 7]) :=
  ⟨by decide,
    (detect_peaks_truncates
      (fun k => ([0, 1, 2, 1, 0, 0, 1, 2, 1, 0, 0, 0, 0, 0, 1, 2, 1, 0, 0, 1, 2, 1, 0]
        : List Int).getD k 0) 0 23 0 23 (by decide) (by decide) (by decide)).1.trans
      (by decide)⟩

end SignalAnalyzer

/-! ## The line fits inside `solve` -/

namespace PeakInterpolator

section
variable {α : Type} [LinearOrderedField α]

end

end PeakInterpolator

namespace SignalAnalyzer

section
variable {α : Type} [LinearOrderedField α]

end

end SignalAnalyzer

namespace Algorithm

section
variable {α : Type} [LinearOrderedField α]

/-- When the left `fit_line` fails, `find_sig_delay` takes the left x-intercept from
the values that `a` and `b` held before the call. -/
theorem find_sig_delay_of_failure (peaks_l time_l peaks_r time_r : Nat → α) (n_peaks : Nat)
    (a b : α) (h : (fit_line time_l peaks_l (toInt32 n_peaks) a b).1 = false) :
    find_sig_delay peaks_l time_l peaks_r time_r n_peaks a b
      = min (calc_intercept a b)
          (calc_intercept (fit_line time_r peaks_r (toInt32 n_peaks) a b).2.1
            (fit_line time_r peaks_r (toInt32 n_peaks) a b).2.2) := by
  unfold find_sig_delay
  simp only [fit_line_failure time_l peaks_l (toInt32 n_peaks) a b h]

end

end Algorithm

namespace Algorithm

section
variable {α : Type} [LinearOrderedField α]

end

end Algorithm

end ESD123
